import Mathlib

/-!
# Rubinius VM: Task send/return and the global method cache

A shallow embedding of `vm/builtin_task.cpp` and `vm/global_cache.hpp`.

The object memory is a list of heap objects; a reference is an index into it and
allocation appends, so a fresh reference never aliases a live one.  Operations of the
source that dereference a pointer return an `Except`: a dereference of something that
is not the expected kind of object is `Error.Fault`, a failed `as<T>` cast is
`Error.TypeError`, an out-of-range `Tuple::put` is `Error.ObjectBoundsExceeded`.
The loops that follow pointers take a `fuel` bound on their turns; `Error.OutOfFuel`
is the model giving up, not a result of the source.
-/

namespace Rubinius

/-! ## Values and heap objects -/

/-- Interned selector: equality of symbols is equality of their ids. -/
abbrev SYMBOL := Nat

/-- Modelled from the spec: the `OBJECT` word, declared outside these sources; it is an
immediate or a reference into the object memory. -/
inductive OBJECT where
  | Qnil
  | Qtrue
  | Qfalse
  | Fixnum (n : Int)
  | Symbol (id : SYMBOL)
  | Ref (addr : Nat)
  deriving DecidableEq, Repr

/-- Modelled from the spec: the test `obj->nil_p()`, declared outside these sources. -/
def OBJECT.nil_p : OBJECT → Bool
  | .Qnil => true
  | _ => false

/-- One more than the largest `size_t`. -/
def SIZE_T_MOD : Nat := 2 ^ 64

/-- Conversion of a native `int` to `size_t`. -/
def size_t_of_int (i : Int) : Nat := (i % (SIZE_T_MOD : Int)).toNat

/-- Subtraction of two `size_t` values, wrapping around. -/
def size_t_sub (a b : Nat) : Nat :=
  (a % SIZE_T_MOD + SIZE_T_MOD - b % SIZE_T_MOD) % SIZE_T_MOD

/-- Addition of two `size_t` values, wrapping around. -/
def size_t_add (a b : Nat) : Nat := (a + b) % SIZE_T_MOD

/-- Errors raised by the modelled operations. -/
inductive Error where
  | Assertion (msg : String)
  | TypeError (msg : String)
  | ObjectBoundsExceeded
  | Fault
  | OutOfFuel
  deriving DecidableEq, Repr

/-- Modelled from the spec: the compiled method's metadata (the class is declared outside
these sources; the opcode vector is left out).  The count fields are Fixnums holding
counts, so `n2i` of them is a natural number that fits a `size_t`. -/
structure CompiledMethod where
  required_args : Nat
  total_args : Nat
  local_count : Nat
  stack_size : Nat
  splat : OBJECT
  literals : OBJECT
  scope : OBJECT
  serial : Int
  deriving DecidableEq, Repr

/-- Modelled from the spec: the visibility wrapper `CompiledMethod::Visibility`, a box
around an executable that records its visibility symbol. -/
structure Visibility where
  method : OBJECT
  visibility : OBJECT
  deriving DecidableEq, Repr

/-- Modelled from the spec: the activation frame `MethodContext`, declared outside these
sources. -/
structure MethodContext where
  sender : OBJECT
  self : OBJECT
  cm : OBJECT
  vmm : OBJECT
  module : OBJECT
  stack : OBJECT
  ip : Int
  sp : Int
  args : Nat
  block : OBJECT
  deriving DecidableEq, Repr

/-- Modelled from the spec: a module or class, with its name, superclass link, constant
table and method table. -/
structure Module where
  name : OBJECT
  superclass : OBJECT
  constants : List (SYMBOL × OBJECT)
  method_table : List (SYMBOL × OBJECT)
  deriving DecidableEq, Repr

/-- Modelled from the spec: a lexical scope link `StaticScope`, a (module, parent) pair. -/
structure StaticScope where
  module : OBJECT
  parent : OBJECT
  deriving DecidableEq, Repr

/-- What a reference can point to. -/
inductive HeapObject where
  | Tuple (fields : List OBJECT)
  | Array (elems : List OBJECT)
  | MethodContext (ctx : MethodContext)
  | CompiledMethod (cm : CompiledMethod)
  | Visibility (vis : Visibility)
  | Module (m : Module)
  | Class (m : Module)
  | StaticScope (s : StaticScope)
  deriving DecidableEq, Repr

/-- The `STATE`: the object memory and the globals `G(...)` the code reads. -/
structure VM where
  heap : List HeapObject
  object : OBJECT
  sym_public : OBJECT
  sym_private : OBJECT
  deriving DecidableEq, Repr

/-- Modelled from the spec: the hot register file of a Task (the class is declared in
`builtin_task.hpp`).  `ip_ptr` is the opcode cursor `vmm->opcodes + ip`, kept as the
pair of its base and its offset. -/
structure Task where
  ip : Int
  sp : Int
  self : OBJECT
  literals : OBJECT
  stack : OBJECT
  ip_ptr : OBJECT × Int
  active : OBJECT
  deriving DecidableEq, Repr

/-- Modelled from the spec: a pending send, declared in `message.hpp`.  `arguments` is the
argument source behind `get_argument`. -/
structure Message where
  recv : OBJECT
  lookup_from : OBJECT
  name : SYMBOL
  priv : Bool
  send_site : OBJECT
  method : OBJECT
  args : Nat
  arguments : Nat → OBJECT

/-- Modelled from the spec: `Message::get_argument`, which is declared in `message.hpp`;
it reads slot `index` of the message's argument source. -/
def Message.get_argument (msg : Message) (index : Nat) : OBJECT := msg.arguments index

/-- The absent `SendSite::locate` and `GlobalCacheResolver::resolve`, taken as a
parameter: given the state and the message they report success and hand back the
message, with `method` filled in on success.  Their writes go to the send site and the
global cache only, which no Task operation below reads. -/
abbrev Resolver := VM → Message → Bool × Message

/-! ## Object memory primitives -/

/-- Dereference: the heap object a word points to. -/
def VM.deref (st : VM) (o : OBJECT) : Option HeapObject :=
  match o with
  | .Ref a => st.heap[a]?
  | _ => none

/-- Allocation: the new object goes to the end of the heap. -/
def VM.alloc (st : VM) (obj : HeapObject) : VM × OBJECT :=
  ({ st with heap := st.heap ++ [obj] }, .Ref st.heap.length)

/-- Overwrite the object a reference points to. -/
def VM.store (st : VM) (o : OBJECT) (obj : HeapObject) : VM :=
  match o with
  | .Ref a => { st with heap := st.heap.set a obj }
  | _ => st

/-- Read through a `MethodContext*`. -/
def VM.context (st : VM) (o : OBJECT) : Except Error MethodContext :=
  match st.deref o with
  | some (.MethodContext c) => .ok c
  | _ => .error .Fault

/-- Write fields through a `MethodContext*`. -/
def VM.update_context (st : VM) (o : OBJECT) (f : MethodContext → MethodContext) :
    Except Error VM :=
  match st.deref o with
  | some (.MethodContext c) => .ok (st.store o (.MethodContext (f c)))
  | _ => .error .Fault

/-- Read through a `CompiledMethod*`. -/
def VM.compiled_method (st : VM) (o : OBJECT) : Except Error CompiledMethod :=
  match st.deref o with
  | some (.CompiledMethod cm) => .ok cm
  | _ => .error .Fault

/-- Modelled from the spec: the checked cast `as<CompiledMethod>(obj)`, whose failure is
a TypeError. -/
def VM.as_CompiledMethod (st : VM) (o : OBJECT) : Except Error CompiledMethod :=
  match st.deref o with
  | some (.CompiledMethod cm) => .ok cm
  | _ => .error (.TypeError "CompiledMethod")

/-- Modelled from the spec: the test `kind_of<CompiledMethod::Visibility>(obj)` together
with the cast that follows it. -/
def VM.kind_of_Visibility (st : VM) (o : OBJECT) : Option Visibility :=
  match st.deref o with
  | some (.Visibility vis) => some vis
  | _ => none

/-- Modelled from the spec: `Visibility::public_p`, declared outside these sources; the
wrapper records one of public, private and protected, and is public when it records
the public symbol. -/
def Visibility.public_p (st : VM) (vis : Visibility) : Bool :=
  decide (vis.visibility = st.sym_public)

/-- Modelled from the spec: `MethodContext::create`, the allocation of a blank frame. -/
def MethodContext.create (st : VM) : VM × OBJECT :=
  st.alloc (.MethodContext
    { sender := .Qnil, self := .Qnil, cm := .Qnil, vmm := .Qnil, module := .Qnil,
      stack := .Qnil, ip := 0, sp := 0, args := 0, block := .Qnil })

/-- Modelled from the spec: `Tuple::create`, a fixed tuple of `size` unset (nil) slots. -/
def Tuple.create (st : VM) (size : Nat) : VM × OBJECT :=
  st.alloc (.Tuple (List.replicate size .Qnil))

/-- Modelled from the spec: `Tuple::put`, a write to slot `idx` of a fixed tuple; an index
outside the tuple is refused. -/
def Tuple.put (st : VM) (tup : OBJECT) (idx : Nat) (val : OBJECT) : Except Error VM :=
  match st.deref tup with
  | some (.Tuple fields) =>
    if idx < fields.length then .ok (st.store tup (.Tuple (fields.set idx val)))
    else .error .ObjectBoundsExceeded
  | _ => .error .Fault

/-- Modelled from the spec: `Array::create`, an ordered sequence with no element yet (the
size argument is a capacity). -/
def Array.create (st : VM) (_size : Nat) : VM × OBJECT :=
  st.alloc (.Array [])

/-- Modelled from the spec: `Array::set`, which stores at `idx`, growing the sequence with
unset slots when `idx` is past its end. -/
def Array.set (st : VM) (ary : OBJECT) (idx : Nat) (val : OBJECT) : Except Error VM :=
  match st.deref ary with
  | some (.Array elems) =>
    if idx < elems.length then .ok (st.store ary (.Array (elems.set idx val)))
    else .ok (st.store ary
      (.Array (elems ++ List.replicate (idx - elems.length) .Qnil ++ [val])))
  | _ => .error .Fault

/-- Modelled from the spec: the call `obj->n2i()`, the native integer of a Fixnum word. -/
def OBJECT.n2i : OBJECT → Except Error Int
  | .Fixnum n => .ok n
  | _ => .error .Fault

/-! ## Task -/

/-- The method `Task::generate_context`. -/
def Task.generate_context (st : VM) (recv : OBJECT) (meth : OBJECT) :
    Except Error (VM × OBJECT) := do
  let cm ← st.compiled_method meth
  let (st1, ctx) := MethodContext.create st
  let (st2, stack) := Tuple.create st1 cm.stack_size
  let st3 ← st2.update_context ctx (fun c =>
    { c with sender := .Qnil, self := recv, cm := meth, vmm := meth,
             module := st.object, stack := stack, ip := 0,
             sp := (cm.local_count : Int) - 1 })
  pure (st3, ctx)

/-- The method `Task::make_active`. -/
def Task.make_active (st : VM) (task : Task) (ctx : OBJECT) : Except Error Task := do
  let c ← st.context ctx
  let cm ← st.compiled_method c.cm
  pure { task with ip := c.ip, sp := c.sp, self := c.self, literals := cm.literals,
                   stack := c.stack, ip_ptr := (c.vmm, c.ip), active := ctx }

/-- The method `Task::create(STATE, OBJECT recv, CompiledMethod* meth)`. -/
def Task.create (st : VM) (recv : OBJECT) (meth : OBJECT) : Except Error (VM × Task) := do
  let task : Task :=
    { ip := 0, sp := 0, self := .Qnil, literals := .Qnil, stack := .Qnil,
      ip_ptr := (.Qnil, 0), active := .Qnil }
  let (st1, ctx) ← Task.generate_context st recv meth
  let task1 ← Task.make_active st1 task ctx
  pure (st1, task1)

/-- The first loop of `Task::import_arguments`: slots `0 .. fixed` of the new stack. -/
def Task.import_fixed (msg : Message) (stack : OBJECT) (fixed : Nat) (st : VM) :
    Except Error VM :=
  (List.range fixed).foldlM (fun s i => Tuple.put s stack i (msg.get_argument i)) st

/-- The second loop of `Task::import_arguments`: element `i` of the splat array is
argument `tot + i`. -/
def Task.import_splat (msg : Message) (ary : OBJECT) (tot : Nat) (splat_size : Nat)
    (st : VM) : Except Error VM :=
  (List.range splat_size).foldlM
    (fun s i => Array.set s ary i (msg.get_argument (size_t_add tot i))) st

/-- The method `Task::import_arguments`. -/
def Task.import_arguments (st : VM) (ctx : OBJECT) (msg : Message) : Except Error VM := do
  let st1 ← st.update_context ctx (fun c => { c with args := msg.args })
  if msg.args = 0 then pure st1 else do
    let c ← st1.context ctx
    let cm ← st1.compiled_method c.cm
    let tot := cm.total_args
    let fixed := if msg.args < tot then msg.args else tot
    let st2 ← Task.import_fixed msg c.stack fixed st1
    if cm.splat ≠ .Qnil then do
      let splat_size := size_t_sub msg.args tot
      let (st3, ary) := Array.create st2 splat_size
      let st4 ← Task.import_splat msg ary tot splat_size st3
      let s ← cm.splat.n2i
      Tuple.put st4 c.stack (size_t_of_int s) ary
    else pure st2

/-- The tail shared by `send_message` and `send_message_slowly`:
`active->ip = ip; active->sp = sp; ctx->sender = active; make_active(ctx);`. -/
def Task.save_and_activate (st : VM) (task : Task) (ctx : OBJECT) :
    Except Error (VM × Task) := do
  let st1 ← st.update_context task.active (fun c => { c with ip := task.ip })
  let st2 ← st1.update_context task.active (fun c => { c with sp := task.sp })
  let st3 ← st2.update_context ctx (fun c => { c with sender := task.active })
  let task1 ← Task.make_active st3 task ctx
  pure (st3, task1)

/-- The method `Task::send_message`.  The message is passed by reference, so the result
also carries the message as the send leaves it. -/
def Task.send_message (locate : Resolver) (st : VM) (task : Task) (msg : Message) :
    Except Error (VM × Task × Message) :=
  match locate st msg with
  | (false, _) => .error (.Assertion "unable to locate any method")
  | (true, msg1) => do
    let _ ← st.as_CompiledMethod msg1.method
    let (st1, ctx) ← Task.generate_context st msg1.recv msg1.method
    let st2 ← Task.import_arguments st1 ctx msg1
    let (st3, task1) ← Task.save_and_activate st2 task ctx
    pure (st3, task1, msg1)

/-- The two nested `res.resolve` calls of `Task::send_message_slowly`. -/
def Task.resolve_slowly (resolve : Resolver) (st : VM) (msg : Message) : Bool × Message :=
  match resolve st msg with
  | (true, msg1) => (true, msg1)
  | (false, msg1) => resolve st msg1

/-- The method `Task::send_message_slowly`: no argument binding. -/
def Task.send_message_slowly (resolve : Resolver) (st : VM) (task : Task) (msg : Message) :
    Except Error (VM × Task × Message) :=
  match Task.resolve_slowly resolve st msg with
  | (false, _) => .error (.Assertion "unable to locate any method")
  | (true, msg1) => do
    let _ ← st.as_CompiledMethod msg1.method
    let (st1, ctx) ← Task.generate_context st msg1.recv msg1.method
    let (st3, task1) ← Task.save_and_activate st1 task ctx
    pure (st3, task1, msg1)

/-- The method `Task::passed_arg_p`. -/
def Task.passed_arg_p (st : VM) (task : Task) (pos : Nat) : Except Error Bool := do
  let c ← st.context task.active
  pure (decide (c.args ≥ pos))

/-- The method `Task::simple_return`. -/
def Task.simple_return (st : VM) (task : Task) (value : OBJECT) :
    Except Error (VM × Task) := do
  let a ← st.context task.active
  let target := a.sender
  let task1 ← Task.make_active st task target
  let task2 := { task1 with sp := task1.sp + 1 }
  let st1 ← Tuple.put st task2.stack (size_t_of_int task2.sp) value
  pure (st1, task2)

/-- The fields of the tuple a word points to (empty when it is not a tuple). -/
def VM.tuple_fields (st : VM) (o : OBJECT) : List OBJECT :=
  match st.deref o with
  | some (.Tuple fields) => fields
  | _ => []

/-- The elements of the array a word points to, if it is one. -/
def VM.array_elems (st : VM) (o : OBJECT) : Option (List OBJECT) :=
  match st.deref o with
  | some (.Array elems) => some elems
  | _ => none

/-! ## The heap a throwing send leaves -/

/-- Whether an error is the `Assertion` the sends throw when no method is located. -/
def Error.assertion_p : Error → Bool
  | .Assertion _ => true
  | _ => false

/-- The outcome of an operation together with the heap it leaves, also when it throws:
the writes made before a `throw` stay in the heap. -/
abbrev Leaving (α : Type) := Except Error α × VM

/-- Sequencing: the next step runs on the heap reached so far, and a throw keeps it. -/
def Leaving.bind {α β : Type} (x : Leaving α) (f : α → VM → Leaving β) : Leaving β :=
  match x with
  | (.ok a, st) => f a st
  | (.error e, st) => (.error e, st)

/-- A single write, which is either made or refused with the heap untouched. -/
def Leaving.step (st : VM) (r : Except Error VM) : Leaving Unit :=
  match r with
  | .ok st1 => (.ok (), st1)
  | .error e => (.error e, st)

/-- Forgetting the heap of a throw gives back the plain outcome. -/
def Leaving.erase {α : Type} (x : Leaving α) : Except Error (VM × α) :=
  match x with
  | (.ok a, st) => .ok (st, a)
  | (.error e, _) => .error e

/-- The method `Task::generate_context` with the heap it leaves.  Its one failure is the
fault of reading through a method pointer that is not a compiled method, which
`Task.generate_context` meets before any write. -/
def Task.generate_context_leaving (st : VM) (recv : OBJECT) (meth : OBJECT) :
    Leaving OBJECT :=
  match Task.generate_context st recv meth with
  | .ok (st1, ctx) => (.ok ctx, st1)
  | .error e => (.error e, st)

/-- The first loop of `Task::import_arguments` with the heap it leaves: a refused `put`
keeps the slots written before it. -/
def Task.import_fixed_leaving (msg : Message) (stack : OBJECT) (fixed : Nat) (st : VM) :
    Leaving Unit :=
  (List.range fixed).foldl
    (fun acc i => acc.bind fun _ s =>
      Leaving.step s (Tuple.put s stack i (msg.get_argument i)))
    (.ok (), st)

/-- The second loop of `Task::import_arguments` with the heap it leaves. -/
def Task.import_splat_leaving (msg : Message) (ary : OBJECT) (tot : Nat) (splat_size : Nat)
    (st : VM) : Leaving Unit :=
  (List.range splat_size).foldl
    (fun acc i => acc.bind fun _ s =>
      Leaving.step s (Array.set s ary i (msg.get_argument (size_t_add tot i))))
    (.ok (), st)

/-- The method `Task::import_arguments` with the heap it leaves. -/
def Task.import_arguments_leaving (st : VM) (ctx : OBJECT) (msg : Message) : Leaving Unit :=
  (Leaving.step st (st.update_context ctx (fun c => { c with args := msg.args }))).bind
    fun _ st1 =>
  if msg.args = 0 then (.ok (), st1) else
  Leaving.bind (st1.context ctx, st1) fun c _ =>
  Leaving.bind (st1.compiled_method c.cm, st1) fun cm _ =>
  let tot := cm.total_args
  let fixed := if msg.args < tot then msg.args else tot
  (Task.import_fixed_leaving msg c.stack fixed st1).bind fun _ st2 =>
  if cm.splat ≠ .Qnil then
    let splat_size := size_t_sub msg.args tot
    let (st3, ary) := Array.create st2 splat_size
    (Task.import_splat_leaving msg ary tot splat_size st3).bind fun _ st4 =>
    Leaving.bind (cm.splat.n2i, st4) fun s _ =>
    Leaving.step st4 (Tuple.put st4 c.stack (size_t_of_int s) ary)
  else (.ok (), st2)

/-- The tail shared by the two sends, with the heap it leaves. -/
def Task.save_and_activate_leaving (st : VM) (task : Task) (ctx : OBJECT) : Leaving Task :=
  (Leaving.step st (st.update_context task.active (fun c => { c with ip := task.ip }))).bind
    fun _ st1 =>
  (Leaving.step st1 (st1.update_context task.active (fun c => { c with sp := task.sp }))).bind
    fun _ st2 =>
  (Leaving.step st2 (st2.update_context ctx (fun c => { c with sender := task.active }))).bind
    fun _ st3 =>
  (Task.make_active st3 task ctx, st3)

/-- The method `Task::send_message` with the heap and the task it leaves, also when it
throws.  The hot registers are assigned only by the closing `make_active`. -/
def Task.send_message_leaving (locate : Resolver) (st : VM) (task : Task) (msg : Message) :
    Except Error Message × VM × Task :=
  match locate st msg with
  | (false, _) => (.error (.Assertion "unable to locate any method"), st, task)
  | (true, msg1) =>
    match st.as_CompiledMethod msg1.method with
    | .error e => (.error e, st, task)
    | .ok _ =>
      match Task.generate_context_leaving st msg1.recv msg1.method with
      | (.error e, st1) => (.error e, st1, task)
      | (.ok ctx, st1) =>
        match Task.import_arguments_leaving st1 ctx msg1 with
        | (.error e, st2) => (.error e, st2, task)
        | (.ok _, st2) =>
          match Task.save_and_activate_leaving st2 task ctx with
          | (.error e, st3) => (.error e, st3, task)
          | (.ok task1, st3) => (.ok msg1, st3, task1)

/-- The method `Task::send_message_slowly` with the heap and the task it leaves, also
when it throws. -/
def Task.send_message_slowly_leaving (resolve : Resolver) (st : VM) (task : Task)
    (msg : Message) : Except Error Message × VM × Task :=
  match Task.resolve_slowly resolve st msg with
  | (false, _) => (.error (.Assertion "unable to locate any method"), st, task)
  | (true, msg1) =>
    match st.as_CompiledMethod msg1.method with
    | .error e => (.error e, st, task)
    | .ok _ =>
      match Task.generate_context_leaving st msg1.recv msg1.method with
      | (.error e, st1) => (.error e, st1, task)
      | (.ok ctx, st1) =>
        match Task.save_and_activate_leaving st1 task ctx with
        | (.error e, st3) => (.error e, st3, task)
        | (.ok task1, st3) => (.ok msg1, st3, task1)

/-- The plain outcome of a send, from the outcome with the state it leaves. -/
def Task.erase_leaving (x : Except Error Message × VM × Task) :
    Except Error (VM × Task × Message) :=
  match x with
  | (.ok m, st, task) => .ok (st, task, m)
  | (.error e, _, _) => .error e

/-! ## Constants, classes and modules -/

/-- Modelled from the spec: the symbol table, an external collaborator with
`symbol(name) → selector` (interning) and its inverse `to_str`. -/
structure SymbolTable where
  symbol : String → SYMBOL
  to_str : SYMBOL → String

/-- Read through a `Module*`; a class is a module. -/
def VM.module (st : VM) (o : OBJECT) : Except Error Module :=
  match st.deref o with
  | some (.Module m) => .ok m
  | some (.Class m) => .ok m
  | _ => .error .Fault

/-- Write fields through a `Module*`; the object stays a module or a class. -/
def VM.update_module (st : VM) (o : OBJECT) (f : Module → Module) : Except Error VM :=
  match st.deref o with
  | some (.Module m) => .ok (st.store o (.Module (f m)))
  | some (.Class m) => .ok (st.store o (.Class (f m)))
  | _ => .error .Fault

/-- Read through a `StaticScope*`. -/
def VM.static_scope (st : VM) (o : OBJECT) : Except Error StaticScope :=
  match st.deref o with
  | some (.StaticScope s) => .ok s
  | _ => .error .Fault

/-- Modelled from the spec: the checked cast `as<Class>(obj)`, whose failure is a
TypeError. -/
def VM.as_Class (st : VM) (o : OBJECT) : Except Error Module :=
  match st.deref o with
  | some (.Class m) => .ok m
  | _ => .error (.TypeError "Class")

/-- Modelled from the spec: the checked cast `as<Module>(obj)`, whose failure is a
TypeError; a class is a module. -/
def VM.as_Module (st : VM) (o : OBJECT) : Except Error Module :=
  match st.deref o with
  | some (.Module m) => .ok m
  | some (.Class m) => .ok m
  | _ => .error (.TypeError "Module")

/-- Modelled from the spec: the checked cast `as<Executable>(obj)`, whose failure is a
TypeError; the executables of the model are the compiled methods. -/
def VM.as_Executable (st : VM) (o : OBJECT) : Except Error OBJECT :=
  match st.deref o with
  | some (.CompiledMethod _) => .ok o
  | _ => .error (.TypeError "Executable")

/-- Modelled from the spec: `Module::get_const`, the lookup of a name in the module's own
constant table; it hands back the value and whether the name was found. -/
def Module.get_const (st : VM) (mod : OBJECT) (name : SYMBOL) :
    Except Error (OBJECT × Bool) := do
  let m ← st.module mod
  match m.constants.lookup name with
  | some v => pure (v, true)
  | none => pure (.Qnil, false)

/-- Modelled from the spec: `Module::set_const`, which binds a name in the module's own
constant table. -/
def Module.set_const (st : VM) (mod : OBJECT) (name : SYMBOL) (val : OBJECT) :
    Except Error VM :=
  st.update_module mod (fun m => { m with constants := (name, val) :: m.constants })

/-- Modelled from the spec: `Module::set_name`, which names a module
`under.name + "::" + symbol`. -/
def Module.set_name (syms : SymbolTable) (st : VM) (mod : OBJECT) (under : OBJECT)
    (name : SYMBOL) : Except Error VM := do
  let u ← st.module under
  match u.name with
  | .Symbol cur =>
    st.update_module mod (fun m =>
      { m with name := .Symbol (syms.symbol (syms.to_str cur ++ "::" ++ syms.to_str name)) })
  | _ => .error .Fault

/-- Modelled from the spec: `Class::create`, the allocation of a class inheriting from
`super`, with no name and empty tables. -/
def Class.create (st : VM) (super : OBJECT) : VM × OBJECT :=
  st.alloc (.Class { name := .Qnil, superclass := super, constants := [], method_table := [] })

/-- Modelled from the spec: `Module::create`, the allocation of a module with no name, no
superclass and empty tables. -/
def Module.create (st : VM) : VM × OBJECT :=
  st.alloc (.Module { name := .Qnil, superclass := .Qnil, constants := [], method_table := [] })

/-- The method `Task::const_get(Module* mod, SYMBOL name, bool* found)`.  Each turn of the
loop uses one unit of `fuel`. -/
def Task.const_get : Nat → VM → OBJECT → SYMBOL → Except Error (OBJECT × Bool)
  | fuel, st, mod, name =>
    if mod.nil_p then .ok (.Qnil, false) else
    match fuel with
    | 0 => .error .OutOfFuel
    | fuel + 1 => do
      let (res, found) ← Module.get_const st mod name
      if found then pure (res, true)
      else if mod = st.object then pure (.Qnil, false)
      else do
        let m ← st.module mod
        Task.const_get fuel st m.superclass name

/-- The first loop of `Task::const_get(SYMBOL name, bool* found)`, up the lexical scopes;
`some` is a hit. -/
def Task.const_get_lexical : Nat → VM → OBJECT → SYMBOL → Except Error (Option OBJECT)
  | fuel, st, cur, name =>
    if cur.nil_p then .ok none else
    match fuel with
    | 0 => .error .OutOfFuel
    | fuel + 1 => do
      let s ← st.static_scope cur
      let (result, found) ← Module.get_const st s.module name
      if found then pure (some result)
      else if s.module = st.object then pure none
      else Task.const_get_lexical fuel st s.parent name

/-- The second loop of `Task::const_get(SYMBOL name, bool* found)`, up the superclasses
until nil; `some` is a hit. -/
def Task.const_get_superclasses : Nat → VM → OBJECT → SYMBOL → Except Error (Option OBJECT)
  | fuel, st, mod, name =>
    if mod.nil_p then .ok none else
    match fuel with
    | 0 => .error .OutOfFuel
    | fuel + 1 => do
      let (result, found) ← Module.get_const st mod name
      if found then pure (some result)
      else do
        let m ← st.module mod
        Task.const_get_superclasses fuel st m.superclass name

/-- The scope `active->cm->scope` of the running method. -/
def Task.current_scope (st : VM) (task : Task) : Except Error OBJECT := do
  let a ← st.context task.active
  let cm ← st.compiled_method a.cm
  pure cm.scope

/-- The method `Task::const_get(SYMBOL name, bool* found)`, the contextual lookup. -/
def Task.const_get_scoped (fuel : Nat) (st : VM) (task : Task) (name : SYMBOL) :
    Except Error (OBJECT × Bool) := do
  let scope ← Task.current_scope st task
  match ← Task.const_get_lexical fuel st scope name with
  | some result => pure (result, true)
  | none => do
    let s ← st.static_scope scope
    match ← Task.const_get_superclasses fuel st s.module name with
    | some result => pure (result, true)
    | none => do
      let (result, found) ← Module.get_const st st.object name
      if found then pure (result, true) else pure (.Qnil, false)

/-- The method `Task::current_module`. -/
def Task.current_module (st : VM) (task : Task) : Except Error OBJECT := do
  let scope ← Task.current_scope st task
  let s ← st.static_scope scope
  pure s.module

/-- The function `check_superclass`; `cls` has passed `as<Class>`. -/
def check_superclass (st : VM) (cls : OBJECT) (super : OBJECT) : Except Error OBJECT :=
  if super.nil_p then .ok cls else do
    let c ← st.module cls
    if c.superclass ≠ super then .error (.TypeError "superclass mismatch")
    else pure cls

/-- The function `add_class`. -/
def add_class (syms : SymbolTable) (st : VM) (under : OBJECT) (super : OBJECT)
    (name : SYMBOL) : Except Error (VM × OBJECT) := do
  let super1 := if super.nil_p then st.object else super
  let _ ← st.as_Class super1
  let (st1, cls) := Class.create st super1
  let st2 ←
    if under = st.object then
      st1.update_module cls (fun m => { m with name := .Symbol name })
    else Module.set_name syms st1 cls under name
  let st3 ← Module.set_const st2 under name cls
  pure (st3, cls)

/-- The method `Task::open_class(Module* under, OBJECT super, SYMBOL name, bool* created)`;
the result carries the class and `created`. -/
def Task.open_class (syms : SymbolTable) (fuel : Nat) (st : VM) (under : OBJECT)
    (super : OBJECT) (name : SYMBOL) : Except Error (VM × OBJECT × Bool) := do
  let (obj, found) ← Task.const_get fuel st under name
  if found then do
    let _ ← st.as_Class obj
    let cls ← check_superclass st obj super
    pure (st, cls, false)
  else do
    let (st1, cls) ← add_class syms st under super name
    pure (st1, cls, true)

/-- The method `Task::open_class(OBJECT super, SYMBOL name, bool* created)`, the
contextual one. -/
def Task.open_class_scoped (syms : SymbolTable) (fuel : Nat) (st : VM) (task : Task)
    (super : OBJECT) (name : SYMBOL) : Except Error (VM × OBJECT × Bool) := do
  let (obj, found) ← Task.const_get_scoped fuel st task name
  if found then do
    let _ ← st.as_Class obj
    let cls ← check_superclass st obj super
    pure (st, cls, false)
  else do
    let scope ← Task.current_scope st task
    let under ←
      if scope.nil_p then pure st.object
      else do
        let s ← st.static_scope scope
        pure s.module
    let (st1, cls) ← add_class syms st under super name
    pure (st1, cls, true)

/-- The method `Task::open_module(SYMBOL name)`, the contextual one. -/
def Task.open_module_scoped (syms : SymbolTable) (fuel : Nat) (st : VM) (task : Task)
    (name : SYMBOL) : Except Error (VM × OBJECT) := do
  let (obj, found) ← Task.const_get_scoped fuel st task name
  if found then do
    let _ ← st.as_Module obj
    pure (st, obj)
  else do
    let (st1, mod) := Module.create st
    let scope ← Task.current_scope st1 task
    let (st2, under) ←
      if scope.nil_p then do
        let st2 ← st1.update_module mod (fun m => { m with name := .Symbol name })
        pure (st2, st1.object)
      else do
        let s ← st1.static_scope scope
        let st2 ← Module.set_name syms st1 mod s.module name
        pure (st2, s.module)
    let st3 ← Module.set_const st2 under name mod
    pure (st3, mod)

/-- The method `Task::open_module(Module* under, SYMBOL name)`. -/
def Task.open_module (syms : SymbolTable) (fuel : Nat) (st : VM) (under : OBJECT)
    (name : SYMBOL) : Except Error (VM × OBJECT) := do
  let (obj, found) ← Task.const_get fuel st under name
  if found then do
    let _ ← st.as_Module obj
    pure (st, obj)
  else do
    let (st1, mod) := Module.create st
    let st2 ←
      if under = st.object then
        st1.update_module mod (fun m => { m with name := .Symbol name })
      else Module.set_name syms st1 mod under name
    let st3 ← Module.set_const st2 under name mod
    pure (st3, mod)

/-! ## Method resolution -/

/-- Modelled from the spec: whether a visibility wrapper records the private symbol. -/
def Visibility.private_p (st : VM) (vis : Visibility) : Bool :=
  decide (vis.visibility = st.sym_private)

/-- Modelled from the spec: the resolver's walk (`GlobalCacheResolver::resolve`, declared
outside these sources) from `module` up the superclass chain.  At each module it
queries the method table for the selector; on a hit a visibility wrapper is unwrapped
and `method` is set to the executable, except that a private method is not found
unless the message asserts privacy; at nil the method is not found.  The retain in
the global cache is not part of this state.  Running out of `fuel`, or leaving the
modules, is reported as not found. -/
def GlobalCacheResolver.walk : Nat → VM → Message → OBJECT → Bool × Message
  | 0, _, msg, _ => (false, msg)
  | fuel + 1, st, msg, module =>
    match st.module module with
    | .error _ => (false, msg)
    | .ok m =>
      match m.method_table.lookup msg.name with
      | none => GlobalCacheResolver.walk fuel st msg m.superclass
      | some entry =>
        match st.kind_of_Visibility entry with
        | some vis =>
          if vis.private_p st && !msg.priv then (false, msg)
          else (true, { msg with method := vis.method })
        | none => (true, { msg with method := entry })

/-- Modelled from the spec: `GlobalCacheResolver::resolve`, the walk from
`msg.lookup_from`. -/
def GlobalCacheResolver.resolve (fuel : Nat) : Resolver :=
  fun st msg => GlobalCacheResolver.walk fuel st msg msg.lookup_from

/-- The method `Task::locate_method_on`.  The absent `recv->lookup_begin(state)` is the
parameter `lookup_begin`. -/
def Task.locate_method_on (resolve : Resolver) (lookup_begin : VM → OBJECT → OBJECT)
    (st : VM) (recv : OBJECT) (sel : SYMBOL) (priv_p : OBJECT) : Except Error OBJECT :=
  let msg : Message :=
    { recv := recv, lookup_from := lookup_begin st recv, name := sel,
      priv := decide (priv_p = .Qtrue), send_site := .Qnil, method := .Qnil, args := 0,
      arguments := fun _ => .Qnil }
  match resolve st msg with
  | (false, _) => .ok .Qnil
  | (true, msg1) =>
    match st.kind_of_Visibility msg1.method with
    | some vis => .ok vis.method
    | none => st.as_Executable msg1.method

/-- The method `Task::check_serial`: an absent method counts as a match, a compiled
method is compared by its serial, any other executable is a mismatch. -/
def Task.check_serial (resolve : Resolver) (lookup_begin : VM → OBJECT → OBJECT)
    (st : VM) (obj : OBJECT) (sel : SYMBOL) (ser : Int) : Except Error Bool := do
  let x ← Task.locate_method_on resolve lookup_begin st obj sel .Qtrue
  if x = .Qnil then pure true else
    match st.deref x with
    | some (.CompiledMethod cm) => pure (decide (cm.serial = ser))
    | _ => pure false

/-! ## Chains and the lookup order of the specification -/

/-- The chain `mod, mod.superclass, ...` is finite: `ms` lists its modules, each with its
address, up to the nil that ends it. -/
def SuperclassChain (st : VM) : OBJECT → List (OBJECT × Module) → Prop
  | mod, [] => mod = .Qnil
  | mod, (o, m) :: rest =>
    o = mod ∧ st.module mod = .ok m ∧ SuperclassChain st m.superclass rest

/-- The lexical chain `cur, cur.parent, ...` is finite: `ms` lists the modules of its
scopes, each with its address, up to the nil parent that ends it. -/
def LexicalChain (st : VM) : OBJECT → List (OBJECT × Module) → Prop
  | cur, [] => cur = .Qnil
  | cur, (o, m) :: rest =>
    ∃ s, st.static_scope cur = .ok s ∧ s.module = o ∧ st.module o = .ok m ∧
      LexicalChain st s.parent rest

/-- Specification: a chain of modules cut after object-root, so that nothing beyond
object-root is consulted. -/
def spec_until_object (object : OBJECT) : List (OBJECT × Module) → List (OBJECT × Module)
  | [] => []
  | (o, m) :: rest =>
    if o = object then [(o, m)] else (o, m) :: spec_until_object object rest

/-- Specification: the value bound to `name` in the first module of the list that binds
it. -/
def spec_first_binding (name : SYMBOL) : List (OBJECT × Module) → Option OBJECT
  | [] => none
  | (_, m) :: rest =>
    match m.constants.lookup name with
    | some v => some v
    | none => spec_first_binding name rest

/-- Specification: the pair `(value, found)` of a lookup, `(nil, false)` on a miss. -/
def spec_found : Option OBJECT → OBJECT × Bool
  | some v => (v, true)
  | none => (.Qnil, false)

/-- Specification: the method-table entry for `sel` in the first module of the list
that has one. -/
def spec_first_method (sel : SYMBOL) : List (OBJECT × Module) → Option OBJECT
  | [] => none
  | (_, m) :: rest =>
    match m.method_table.lookup sel with
    | some entry => some entry
    | none => spec_first_method sel rest

/-- The constant `CPU_CACHE_SIZE`. -/
def CPU_CACHE_SIZE : Nat := 0x1000

/-- The constant `CPU_CACHE_MASK`. -/
def CPU_CACHE_MASK : Nat := 0xfff

/-- The macro `CPU_CACHE_HASH(c, m)` on the machine words of the class pointer and of
the selector. -/
def CPU_CACHE_HASH (c : Nat) (m : Nat) : Nat := ((c >>> 3) ^^^ m) &&& CPU_CACHE_MASK

/-- One slot of the cache.  `klass` and `module` are `Module*` words and `name` is the
selector word: the cache only hashes and compares them. -/
structure cache_entry where
  klass : Nat
  name : SYMBOL
  module : Nat
  method : OBJECT
  is_public : Bool
  deriving DecidableEq, Repr

/-- The cache: the array `entries[CPU_CACHE_SIZE]`. -/
structure GlobalCache where
  entries : Fin CPU_CACHE_SIZE → cache_entry

/-- The slot `entries + CPU_CACHE_HASH(cls, name)`. -/
def GlobalCache.slot (cls : Nat) (name : SYMBOL) : Fin CPU_CACHE_SIZE :=
  ⟨CPU_CACHE_HASH cls name, Nat.lt_succ_of_le Nat.and_le_right⟩

/-- The method `GlobalCache::lookup`; `NULL` is `none`. -/
def GlobalCache.lookup (gc : GlobalCache) (cls : Nat) (name : SYMBOL) : Option cache_entry :=
  let entry := gc.entries (GlobalCache.slot cls name)
  if entry.name = name ∧ entry.klass = cls then some entry else none

/-- The method `GlobalCache::retain`. -/
def GlobalCache.retain (st : VM) (gc : GlobalCache) (cls : Nat) (name : SYMBOL) (mod : Nat)
    (meth : OBJECT) : GlobalCache :=
  let entry : cache_entry :=
    match st.kind_of_Visibility meth with
    | some vis =>
      { klass := cls, name := name, module := mod, method := vis.method,
        is_public := if vis.public_p st then true else false }
    | none =>
      { klass := cls, name := name, module := mod, method := meth, is_public := true }
  { entries := fun i => if i = GlobalCache.slot cls name then entry else gc.entries i }

/-- The zero-initialised cache.  The `method` word of a cleared entry is the null word
in the code; the model has no null word and writes nil there.  `lookup` and `retain`
never inspect that field. -/
def GlobalCache.zero : GlobalCache :=
  { entries := fun _ =>
      { klass := 0, name := 0, module := 0, method := .Qnil, is_public := false } }

/-! ## Concrete scenarios -/

/-- A compiled method of zero arguments with a one-slot stack (scenario S1). -/
def ex_cm : CompiledMethod :=
  { required_args := 0, total_args := 0, local_count := 0, stack_size := 1,
    splat := .Qnil, literals := .Qnil, scope := .Qnil, serial := 0 }

/-- A compiled method with two required and two optional arguments (scenario S3). -/
def ex_cm_opt : CompiledMethod :=
  { required_args := 2, total_args := 4, local_count := 4, stack_size := 4,
    splat := .Qnil, literals := .Qnil, scope := .Qnil, serial := 0 }

/-- A compiled method that only takes a splat, in slot 0. -/
def ex_cm_splat : CompiledMethod :=
  { required_args := 0, total_args := 0, local_count := 1, stack_size := 1,
    splat := .Fixnum 0, literals := .Qnil, scope := .Qnil, serial := 0 }

/-- The bootstrap frame of the scenarios: it runs the method at address 0 on the stack
at address 2. -/
def ex_ctx (cm : CompiledMethod) : MethodContext :=
  { sender := .Qnil, self := .Qnil, cm := .Ref 0, vmm := .Ref 0, module := .Qtrue,
    stack := .Ref 2, ip := 0, sp := (cm.local_count : Int) - 1, args := 0, block := .Qnil }

/-- The state after `Task::create(state, Qnil, cm)`: the method at address 0, the
bootstrap frame at 1 and its stack at 2. -/
def ex_vm (cm : CompiledMethod) : VM :=
  { heap := [.CompiledMethod cm, .MethodContext (ex_ctx cm),
             .Tuple (List.replicate cm.stack_size .Qnil)],
    object := .Qtrue, sym_public := .Symbol 1, sym_private := .Symbol 2 }

/-- The task after `Task::create(state, Qnil, cm)`. -/
def ex_task (cm : CompiledMethod) : Task :=
  { ip := 0, sp := (cm.local_count : Int) - 1, self := .Qnil, literals := .Qnil,
    stack := .Ref 2, ip_ptr := (.Ref 0, 0), active := .Ref 1 }

/-- A send site that resolves every message to the method at address 0. -/
def ex_locate : Resolver := fun _ msg => (true, { msg with method := .Ref 0 })

/-- The message `blah` to `true` with the given arguments. -/
def ex_msg (arguments : List OBJECT) : Message :=
  { recv := .Qtrue, lookup_from := .Qnil, name := 7, priv := false, send_site := .Qnil,
    method := .Qnil, args := arguments.length,
    arguments := fun i => arguments.getD i .Qnil }

/-- The frame the scenarios' send pushes. -/
def ex_ctx1 (cm : CompiledMethod) (n : Nat) : MethodContext :=
  { sender := .Ref 1, self := .Qtrue, cm := .Ref 0, vmm := .Ref 0, module := .Qtrue,
    stack := .Ref 4, ip := 0, sp := (cm.local_count : Int) - 1, args := n, block := .Qnil }

/-- The state after the scenarios' send, given the new frame's stack. -/
def ex_vm1 (cm : CompiledMethod) (n : Nat) (locals : List OBJECT) : VM :=
  { heap := [.CompiledMethod cm, .MethodContext (ex_ctx cm),
             .Tuple (List.replicate cm.stack_size .Qnil),
             .MethodContext (ex_ctx1 cm n), .Tuple locals],
    object := .Qtrue, sym_public := .Symbol 1, sym_private := .Symbol 2 }

/-- The task after the scenarios' send. -/
def ex_task1 (cm : CompiledMethod) : Task :=
  { ip := 0, sp := (cm.local_count : Int) - 1, self := .Qtrue, literals := .Qnil,
    stack := .Ref 4, ip_ptr := (.Ref 0, 0), active := .Ref 3 }

/-- A compiled method with one optional argument and a splat in slot 1. -/
def ex_cm_opt_splat : CompiledMethod :=
  { required_args := 0, total_args := 1, local_count := 2, stack_size := 2,
    splat := .Fixnum 1, literals := .Qnil, scope := .Qnil, serial := 0 }

/-- A compiled method with two fixed arguments and a splat in slot 2 (scenario S2). -/
def ex_cm_fixed_splat : CompiledMethod :=
  { required_args := 2, total_args := 2, local_count := 3, stack_size := 3,
    splat := .Fixnum 2, literals := .Qnil, scope := .Qnil, serial := 0 }

/-- The state after the send of scenario S2: the splat array is at address 5. -/
def ex_vm_s2 : VM :=
  { heap := [.CompiledMethod ex_cm_fixed_splat, .MethodContext (ex_ctx ex_cm_fixed_splat),
             .Tuple [.Qnil, .Qnil, .Qnil],
             .MethodContext (ex_ctx1 ex_cm_fixed_splat 4),
             .Tuple [.Fixnum 3, .Fixnum 4, .Ref 5],
             .Array [.Fixnum 5, .Fixnum 6]],
    object := .Qtrue, sym_public := .Symbol 1, sym_private := .Symbol 2 }

/-- The state after `simple_return(3)` in scenario S4. -/
def ex_vm_s4 : VM :=
  { heap := [.CompiledMethod ex_cm, .MethodContext (ex_ctx ex_cm),
             .Tuple [.Fixnum 3],
             .MethodContext (ex_ctx1 ex_cm 0), .Tuple [.Qnil]],
    object := .Qtrue, sym_public := .Symbol 1, sym_private := .Symbol 2 }

/-- The task after `simple_return(3)` in scenario S4. -/
def ex_task_s4 : Task :=
  { ip := 0, sp := 0, self := .Qnil, literals := .Qnil,
    stack := .Ref 2, ip_ptr := (.Ref 0, 0), active := .Ref 1 }

/-- A compiled method that declares three locals over a one-slot stack. -/
def ex_cm_locals : CompiledMethod :=
  { required_args := 0, total_args := 0, local_count := 3, stack_size := 1,
    splat := .Qnil, literals := .Qnil, scope := .Qnil, serial := 0 }

/-- A symbol table for the scenarios: the names they use, interned as small numbers. -/
def ex_syms : SymbolTable :=
  { symbol := fun s =>
      if s = "Object" then 1 else if s = "Parent" then 2
      else if s = "Parent::Child" then 3 else if s = "Person" then 14
      else if s = "Parent::Person" then 15 else if s = "Included" then 16
      else if s = "Object::Person" then 17 else if s = "Test" then 18
      else if s = "Parent::Child::Person" then 19 else if s = "Animal" then 21
      else if s = "Parent::Animal" then 23 else if s = "Object::Animal" then 24
      else 0,
    to_str := fun n =>
      if n = 1 then "Object" else if n = 2 then "Parent"
      else if n = 3 then "Parent::Child" else if n = 14 then "Person"
      else if n = 15 then "Parent::Person" else if n = 16 then "Included"
      else if n = 17 then "Object::Person" else if n = 18 then "Test"
      else if n = 19 then "Parent::Child::Person" else if n = 21 then "Animal"
      else if n = 23 then "Parent::Animal" else if n = 24 then "Object::Animal"
      else "" }

/-- The class `Object` of the scenarios; it binds 13 (`Age`). -/
def ex_Object : Module :=
  { name := .Symbol 1, superclass := .Qnil, constants := [(13, .Fixnum 28)],
    method_table := [] }

/-- The module `Parent`; it binds 11 (`Number`) and 14 (`Person`, the class at 13). -/
def ex_Parent : Module :=
  { name := .Symbol 2, superclass := .Qnil,
    constants := [(11, .Fixnum 3), (14, .Ref 13)], method_table := [] }

/-- The module `Parent::Child`; it binds 12 (`Name`) and its superclass is `Included`. -/
def ex_Child : Module :=
  { name := .Symbol 3, superclass := .Ref 3, constants := [(12, .Symbol 4)],
    method_table := [] }

/-- The module `Included`; it binds 11 (`Number`) as well. -/
def ex_Included : Module :=
  { name := .Symbol 16, superclass := .Qnil, constants := [(11, .Fixnum 99)],
    method_table := [] }

/-- The module `Test`, unrelated to the others. -/
def ex_Test : Module :=
  { name := .Symbol 18, superclass := .Qnil, constants := [], method_table := [] }

/-- The class `Person`, inheriting from `Object`. -/
def ex_Person : Module :=
  { name := .Symbol 14, superclass := .Ref 0, constants := [], method_table := [] }

/-- The class of `true`: selector 4 (`blah`) is the private wrapper at 15, selector 30
is the method at 7, unwrapped. -/
def ex_TrueClass : Module :=
  { name := .Symbol 22, superclass := .Ref 0, constants := [],
    method_table := [(4, .Ref 15), (30, .Ref 7)] }

/-- The world of the constant scenarios, for a running method of lexical scope `scope`.
Addresses: 0 `Object`, 1 `Parent`, 2 `Parent::Child`, 3 `Included`, 4 `Test`, 5 the
scope of `Parent`, 6 the scope of `Child` inside `Parent`, 7 the method, 8 its frame,
9 its stack, 10 the scope of `Object`, 11 the scope of `Object` inside `Parent`, 12 the
scope of `Child` inside 11, 13 `Person`, 14 the class of `true`, 15 the private
wrapper around the method. -/
def ex_world (scope : OBJECT) : VM :=
  { heap :=
      [.Class ex_Object, .Module ex_Parent, .Module ex_Child, .Module ex_Included,
       .Module ex_Test,
       .StaticScope { module := .Ref 1, parent := .Qnil },
       .StaticScope { module := .Ref 2, parent := .Ref 5 },
       .CompiledMethod { ex_cm with scope := scope },
       .MethodContext
         { sender := .Qnil, self := .Qnil, cm := .Ref 7, vmm := .Ref 7, module := .Ref 0,
           stack := .Ref 9, ip := 0, sp := -1, args := 0, block := .Qnil },
       .Tuple [.Qnil],
       .StaticScope { module := .Ref 0, parent := .Qnil },
       .StaticScope { module := .Ref 0, parent := .Ref 5 },
       .StaticScope { module := .Ref 2, parent := .Ref 11 },
       .Class ex_Person, .Class ex_TrueClass,
       .Visibility { method := .Ref 7, visibility := .Symbol 102 }],
    object := .Ref 0, sym_public := .Symbol 101, sym_private := .Symbol 102 }

/-- The task running the method of `ex_world`. -/
def ex_world_task : Task :=
  { ip := 0, sp := -1, self := .Qnil, literals := .Qnil, stack := .Ref 9,
    ip_ptr := (.Ref 7, 0), active := .Ref 8 }

/-- The `lookup_begin` of the scenarios: the class of `true` is at address 14. -/
def ex_lookup_begin : VM → OBJECT → OBJECT :=
  fun _ recv => if recv = .Qtrue then .Ref 14 else .Qnil


/-! ## Object memory lemmas -/

theorem Except.bind_eq_ok {ε α β : Type} (x : Except ε α) (f : α → Except ε β) (b : β) :
    (x >>= f) = .ok b ↔ ∃ a, x = .ok a ∧ f a = .ok b := by
  cases x with
  | error e => simp [bind, Except.bind]
  | ok a => simp [bind, Except.bind]

theorem deref_ref (st : VM) (a : Nat) : st.deref (.Ref a) = st.heap[a]? := rfl

theorem deref_some_ref {st : VM} {o : OBJECT} {x : HeapObject} (h : st.deref o = some x) :
    ∃ a, o = .Ref a ∧ a < st.heap.length ∧ st.heap[a]? = some x := by
  cases o <;> simp [VM.deref] at h
  rename_i a
  refine ⟨a, rfl, ?_, h⟩
  by_contra hlt
  rw [List.getElem?_eq_none (by omega)] at h
  cases h

theorem deref_fresh (st : VM) (a : Nat) (h : st.heap.length ≤ a) : st.deref (.Ref a) = none := by
  simp [VM.deref, List.getElem?_eq_none h]

theorem alloc_snd (st : VM) (x : HeapObject) : (st.alloc x).2 = .Ref st.heap.length := rfl

theorem alloc_length (st : VM) (x : HeapObject) :
    (st.alloc x).1.heap.length = st.heap.length + 1 := by
  simp [VM.alloc]

theorem alloc_object (st : VM) (x : HeapObject) : (st.alloc x).1.object = st.object := rfl

theorem deref_alloc (st : VM) (x : HeapObject) (o : OBJECT) :
    (st.alloc x).1.deref o = if o = .Ref st.heap.length then some x else st.deref o := by
  cases o <;> simp [VM.deref, VM.alloc]
  rename_i a
  by_cases h : a = st.heap.length
  · subst h; simp
  · simp only [h, if_false]
    rcases Nat.lt_or_gt_of_ne h with h1 | h1
    · rw [List.getElem?_append_left h1]
    · rw [List.getElem?_eq_none (by simp; omega), List.getElem?_eq_none (by omega)]

theorem store_length (st : VM) (o : OBJECT) (x : HeapObject) :
    (st.store o x).heap.length = st.heap.length := by
  cases o <;> simp [VM.store]

theorem store_object (st : VM) (o : OBJECT) (x : HeapObject) :
    (st.store o x).object = st.object := by
  cases o <;> simp [VM.store]

theorem deref_store (st : VM) (o : OBJECT) (x y : HeapObject) (o2 : OBJECT)
    (h : st.deref o = some y) :
    (st.store o x).deref o2 = if o2 = o then some x else st.deref o2 := by
  obtain ⟨a, rfl, hlt, _⟩ := deref_some_ref h
  cases o2 <;> simp [VM.deref, VM.store]
  rename_i b
  rw [List.getElem?_set]
  by_cases hab : a = b
  · subst hab; simp [hlt]
  · simp [hab, Ne.symm hab]

theorem store_store (st : VM) (o : OBJECT) (x y : HeapObject) :
    (st.store o x).store o y = st.store o y := by
  cases o <;> simp [VM.store]

theorem store_self (st : VM) (o : OBJECT) (x : HeapObject) (h : st.deref o = some x) :
    st.store o x = st := by
  obtain ⟨a, rfl, hlt, ha⟩ := deref_some_ref h
  cases st with
  | mk heap object sp1 sp2 =>
    simp only [VM.store, VM.mk.injEq, and_true]
    apply List.ext_getElem?
    intro i
    rw [List.getElem?_set]
    by_cases hai : a = i
    · subst hai
      simp only [] at hlt ha
      simp only [if_true, hlt]
      exact ha.symm
    · simp [hai]

theorem context_eq {st : VM} {o : OBJECT} {c : MethodContext}
    (h : st.deref o = some (.MethodContext c)) : st.context o = .ok c := by
  simp [VM.context, h]

theorem context_inv {st : VM} {o : OBJECT} {c : MethodContext}
    (h : st.context o = .ok c) : st.deref o = some (.MethodContext c) := by
  unfold VM.context at h
  split at h
  · rename_i c2 heq; cases h; exact heq
  · cases h

theorem compiled_method_eq {st : VM} {o : OBJECT} {cm : CompiledMethod}
    (h : st.deref o = some (.CompiledMethod cm)) : st.compiled_method o = .ok cm := by
  simp [VM.compiled_method, h]

theorem compiled_method_inv {st : VM} {o : OBJECT} {cm : CompiledMethod}
    (h : st.compiled_method o = .ok cm) : st.deref o = some (.CompiledMethod cm) := by
  unfold VM.compiled_method at h
  split at h
  · rename_i c2 heq; cases h; exact heq
  · cases h

theorem as_CompiledMethod_inv {st : VM} {o : OBJECT} {cm : CompiledMethod}
    (h : st.as_CompiledMethod o = .ok cm) : st.deref o = some (.CompiledMethod cm) := by
  unfold VM.as_CompiledMethod at h
  split at h
  · rename_i c2 heq; cases h; exact heq
  · cases h

theorem update_context_eq {st : VM} {o : OBJECT} {c : MethodContext}
    (f : MethodContext → MethodContext) (h : st.deref o = some (.MethodContext c)) :
    st.update_context o f = .ok (st.store o (.MethodContext (f c))) := by
  simp [VM.update_context, h]

theorem update_context_inv {st st1 : VM} {o : OBJECT} {f : MethodContext → MethodContext}
    (h : st.update_context o f = .ok st1) :
    ∃ c, st.deref o = some (.MethodContext c) ∧ st1 = st.store o (.MethodContext (f c)) := by
  unfold VM.update_context at h
  split at h
  · rename_i c2 heq; cases h; exact ⟨c2, heq, rfl⟩
  · cases h

theorem put_eq {st : VM} {t : OBJECT} {fs : List OBJECT} (idx : Nat) (v : OBJECT)
    (h : st.deref t = some (.Tuple fs)) :
    Tuple.put st t idx v =
      if idx < fs.length then .ok (st.store t (.Tuple (fs.set idx v)))
      else .error .ObjectBoundsExceeded := by
  simp [Tuple.put, h]

theorem put_inv {st st1 : VM} {t : OBJECT} {idx : Nat} {v : OBJECT}
    (h : Tuple.put st t idx v = .ok st1) :
    ∃ fs, st.deref t = some (.Tuple fs) ∧ idx < fs.length ∧
      st1 = st.store t (.Tuple (fs.set idx v)) := by
  unfold Tuple.put at h
  split at h
  · rename_i fs heq
    split at h
    · rename_i hlt; cases h; exact ⟨fs, heq, hlt, rfl⟩
    · cases h
  · cases h

theorem array_set_end {st : VM} {ary : OBJECT} {es : List OBJECT} (v : OBJECT)
    (h : st.deref ary = some (.Array es)) :
    Array.set st ary es.length v = .ok (st.store ary (.Array (es ++ [v]))) := by
  simp [Array.set, h]

theorem import_fixed_succ (msg : Message) (stack : OBJECT) (k : Nat) (st : VM) :
    Task.import_fixed msg stack (k + 1) st =
      (Task.import_fixed msg stack k st >>= fun s =>
        Tuple.put s stack k (msg.get_argument k)) := by
  simp [Task.import_fixed, List.range_succ, List.foldlM_append]

theorem import_splat_succ (msg : Message) (ary : OBJECT) (tot k : Nat) (st : VM) :
    Task.import_splat msg ary tot (k + 1) st =
      (Task.import_splat msg ary tot k st >>= fun s =>
        Array.set s ary k (msg.get_argument (size_t_add tot k))) := by
  simp [Task.import_splat, List.range_succ, List.foldlM_append]

/-- The first loop writes arguments `0 .. k` over the first `k` slots of the tuple, and is
refused exactly when `k` exceeds the tuple's size. -/
theorem import_fixed_spec (msg : Message) (stack : OBJECT) (fs : List OBJECT) :
    ∀ (k : Nat) (st : VM), st.deref stack = some (.Tuple fs) →
      (k ≤ fs.length →
        ∃ fs1 : List OBJECT, fs1.length = fs.length ∧
          (∀ i, fs1[i]? = if i < k then some (msg.get_argument i) else fs[i]?) ∧
          Task.import_fixed msg stack k st = .ok (st.store stack (.Tuple fs1))) ∧
      (fs.length < k →
        Task.import_fixed msg stack k st = .error .ObjectBoundsExceeded) := by
  intro k
  induction k with
  | zero =>
    intro st h
    refine ⟨fun _ => ⟨fs, rfl, by simp, ?_⟩, fun h2 => by omega⟩
    rw [store_self st stack _ h]
    rfl
  | succ k ih =>
    intro st h
    obtain ⟨ih1, ih2⟩ := ih st h
    rw [import_fixed_succ]
    constructor
    · intro hk
      obtain ⟨fs1, hlen, hget, hrun⟩ := ih1 (by omega)
      have hd : (st.store stack (.Tuple fs1)).deref stack = some (.Tuple fs1) := by
        rw [deref_store st stack _ _ stack h]; simp
      refine ⟨fs1.set k (msg.get_argument k), by simp [hlen], ?_, ?_⟩
      · intro i
        rw [List.getElem?_set, hget]
        by_cases hki : k = i
        · subst hki
          have : k < fs1.length := by omega
          simp [this]
        · have h3 : (i < k + 1) = (i < k) := by
            apply propext; constructor <;> intro h4 <;> omega
          simp [hki, h3]
      · rw [hrun]
        show Tuple.put _ _ _ _ = _
        rw [put_eq k _ hd, if_pos (by omega), store_store]
    · intro hk
      by_cases hk2 : fs.length < k
      · rw [ih2 hk2]; rfl
      · obtain ⟨fs1, hlen, hget, hrun⟩ := ih1 (by omega)
        have hd : (st.store stack (.Tuple fs1)).deref stack = some (.Tuple fs1) := by
          rw [deref_store st stack _ _ stack h]; simp
        rw [hrun]
        show Tuple.put _ _ _ _ = _
        rw [put_eq k _ hd, if_neg (by omega)]

/-- The second loop leaves in the array the arguments `tot .. tot + k`, in order. -/
theorem import_splat_spec (msg : Message) (ary : OBJECT) (tot : Nat) :
    ∀ (k : Nat) (st : VM), st.deref ary = some (.Array []) →
      Task.import_splat msg ary tot k st =
        .ok (st.store ary
          (.Array ((List.range k).map (fun i => msg.get_argument (size_t_add tot i))))) := by
  intro k
  induction k with
  | zero =>
    intro st h
    rw [List.range_zero, List.map_nil, store_self st ary _ h]
    rfl
  | succ k ih =>
    intro st h
    rw [import_splat_succ, ih st h]
    show Array.set _ _ _ _ = _
    have hd : (st.store ary (.Array ((List.range k).map
        (fun i => msg.get_argument (size_t_add tot i))))).deref ary
        = some (.Array ((List.range k).map (fun i => msg.get_argument (size_t_add tot i)))) := by
      rw [deref_store st ary _ _ ary h]; simp
    have hl : ((List.range k).map (fun i => msg.get_argument (size_t_add tot i))).length = k := by
      simp
    have := array_set_end (msg.get_argument (size_t_add tot k)) hd
    rw [hl] at this
    rw [this, store_store, List.range_succ, List.map_append]
    rfl

theorem deref_store_ne {st : VM} {o o2 : OBJECT} {x y z : HeapObject}
    (h : st.deref o = some y) (h2 : st.deref o2 = some z) (hne : o2 ≠ o) :
    (st.store o x).deref o2 = some z := by
  rw [deref_store st o x y o2 h, if_neg hne, h2]

theorem deref_store_same {st : VM} {o : OBJECT} {x y : HeapObject}
    (h : st.deref o = some y) : (st.store o x).deref o = some x := by
  rw [deref_store st o x y o h, if_pos rfl]

/-- The frame built by `generate_context`. -/
theorem generate_context_spec {st st1 : VM} {recv meth ctx : OBJECT}
    (h : Task.generate_context st recv meth = .ok (st1, ctx)) :
    ∃ cm, st.deref meth = some (.CompiledMethod cm) ∧ ctx = .Ref st.heap.length ∧
      st1.heap.length = st.heap.length + 2 ∧ st1.object = st.object ∧
      st1.deref ctx = some (.MethodContext
        { sender := .Qnil, self := recv, cm := meth, vmm := meth, module := st.object,
          stack := .Ref (st.heap.length + 1), ip := 0, sp := (cm.local_count : Int) - 1,
          args := 0, block := .Qnil }) ∧
      st1.deref (.Ref (st.heap.length + 1)) =
        some (.Tuple (List.replicate cm.stack_size .Qnil)) ∧
      (∀ o y, st.deref o = some y → st1.deref o = some y) := by
  unfold Task.generate_context at h
  rw [Except.bind_eq_ok] at h
  obtain ⟨cm, hcm, h⟩ := h
  have hcm1 := compiled_method_inv hcm
  simp only [MethodContext.create, Tuple.create, alloc_snd] at h
  rw [Except.bind_eq_ok] at h
  obtain ⟨st3, hup, h⟩ := h
  obtain ⟨c, hc, hst3⟩ := update_context_inv hup
  simp only [pure, Except.pure, Except.ok.injEq, Prod.mk.injEq] at h
  obtain ⟨rfl, rfl⟩ := h
  rw [deref_alloc, alloc_length, deref_alloc] at hc
  have hlen : st.heap.length ≠ st.heap.length + 1 := by omega
  simp only [OBJECT.Ref.injEq, hlen, if_false, if_true,
    Option.some.injEq, HeapObject.MethodContext.injEq] at hc
  subst hc
  rw [alloc_length] at hst3
  have hlive : ((st.alloc (.MethodContext
      { sender := .Qnil, self := .Qnil, cm := .Qnil, vmm := .Qnil, module := .Qnil,
        stack := .Qnil, ip := 0, sp := 0, args := 0, block := .Qnil })).1.alloc
        (.Tuple (List.replicate cm.stack_size .Qnil))).1.deref (.Ref st.heap.length)
      = some (.MethodContext
      { sender := .Qnil, self := .Qnil, cm := .Qnil, vmm := .Qnil, module := .Qnil,
        stack := .Qnil, ip := 0, sp := 0, args := 0, block := .Qnil }) := by
    rw [deref_alloc, alloc_length, deref_alloc]; simp
  refine ⟨cm, hcm1, rfl, ?_, ?_, ?_, ?_, ?_⟩
  · rw [hst3, store_length, alloc_length, alloc_length]
  · rw [hst3, store_object, alloc_object, alloc_object]
  · rw [hst3, deref_store_same hlive]
  · rw [hst3, deref_store _ _ _ _ _ hlive, deref_alloc, alloc_length]
    simp
  · intro o y hy
    obtain ⟨a, rfl, hlt, _⟩ := deref_some_ref hy
    rw [hst3, deref_store _ _ _ _ _ hlive, deref_alloc, alloc_length, deref_alloc]
    have h1 : a ≠ st.heap.length := by omega
    have h2 : a ≠ st.heap.length + 1 := by omega
    simp [h1, h2, hy]

/-- Activation reloads the hot registers from the frame. -/
theorem make_active_spec {st : VM} {task task1 : Task} {ctx : OBJECT}
    (h : Task.make_active st task ctx = .ok task1) :
    ∃ c cm, st.deref ctx = some (.MethodContext c) ∧
      st.deref c.cm = some (.CompiledMethod cm) ∧
      task1 = { ip := c.ip, sp := c.sp, self := c.self, literals := cm.literals,
                stack := c.stack, ip_ptr := (c.vmm, c.ip), active := ctx } := by
  unfold Task.make_active at h
  rw [Except.bind_eq_ok] at h
  obtain ⟨c, hc, h⟩ := h
  rw [Except.bind_eq_ok] at h
  obtain ⟨cm, hcm, h⟩ := h
  simp only [pure, Except.pure, Except.ok.injEq] at h
  exact ⟨c, cm, context_inv hc, compiled_method_inv hcm, h.symm⟩

theorem make_active_eq {st : VM} (task : Task) {ctx : OBJECT} {c : MethodContext}
    {cm : CompiledMethod} (hc : st.deref ctx = some (.MethodContext c))
    (hcm : st.deref c.cm = some (.CompiledMethod cm)) :
    Task.make_active st task ctx = .ok
      { ip := c.ip, sp := c.sp, self := c.self, literals := cm.literals,
        stack := c.stack, ip_ptr := (c.vmm, c.ip), active := ctx } := by
  unfold Task.make_active
  rw [context_eq hc]
  show (st.compiled_method c.cm >>= _) = _
  rw [compiled_method_eq hcm]
  rfl

/-- The shared tail of the two sends, for a new frame distinct from the active one. -/
theorem activate_spec {st st1 : VM} {task task1 : Task} {ctx : OBJECT}
    {c c0 : MethodContext}
    (h : Task.save_and_activate st task ctx = .ok (st1, task1))
    (hc : st.deref ctx = some (.MethodContext c))
    (h0 : st.deref task.active = some (.MethodContext c0))
    (hne : ctx ≠ task.active) :
    ∃ cm, st.deref c.cm = some (.CompiledMethod cm) ∧
      st1.deref ctx = some (.MethodContext { c with sender := task.active }) ∧
      st1.deref task.active =
        some (.MethodContext { c0 with ip := task.ip, sp := task.sp }) ∧
      task1 = { ip := c.ip, sp := c.sp, self := c.self, literals := cm.literals,
                stack := c.stack, ip_ptr := (c.vmm, c.ip), active := ctx } ∧
      st1.object = st.object ∧ st1.heap.length = st.heap.length ∧
      (∀ o, o ≠ ctx → o ≠ task.active → st1.deref o = st.deref o) := by
  unfold Task.save_and_activate at h
  rw [update_context_eq _ h0] at h
  have h1 := deref_store_same (x := HeapObject.MethodContext { c0 with ip := task.ip }) h0
  have h2 := deref_store_same
    (x := HeapObject.MethodContext { c0 with ip := task.ip, sp := task.sp }) h1
  have h3 : ((st.store task.active (.MethodContext { c0 with ip := task.ip })).store task.active
      (.MethodContext { c0 with ip := task.ip, sp := task.sp })).deref ctx
      = some (.MethodContext c) :=
    deref_store_ne h1 (deref_store_ne h0 hc hne) hne
  have h4 := deref_store_same
    (x := HeapObject.MethodContext { c with sender := task.active }) h3
  simp only [bind, Except.bind] at h
  rw [update_context_eq _ h1] at h
  simp only at h
  rw [update_context_eq _ h3] at h
  simp only at h
  split at h
  · cases h
  · rename_i t hmk
    simp only [pure, Except.pure, Except.ok.injEq, Prod.mk.injEq] at h
    obtain ⟨rfl, rfl⟩ := h
    obtain ⟨c2, cm, hc2, hcm, ht⟩ := make_active_spec hmk
    rw [h4] at hc2
    simp only [Option.some.injEq, HeapObject.MethodContext.injEq] at hc2
    subst hc2
    simp only at hcm ht
    have hcmne : c.cm ≠ ctx := by
      intro he
      have h5 := hcm.symm.trans ((congrArg (VM.deref _) he).trans h4)
      cases h5
    rw [deref_store _ _ _ _ _ h3, if_neg hcmne] at hcm
    have hcmne2 : c.cm ≠ task.active := by
      intro he
      have h5 := hcm.symm.trans ((congrArg (VM.deref _) he).trans h2)
      cases h5
    rw [deref_store _ _ _ _ _ h1, if_neg hcmne2, deref_store _ _ _ _ _ h0,
      if_neg hcmne2] at hcm
    refine ⟨cm, hcm, h4, ?_, ht, ?_, ?_, ?_⟩
    · rw [deref_store _ _ _ _ _ h3, if_neg (Ne.symm hne), h2]
    · simp [store_object]
    · simp [store_length]
    · intro o ho1 ho2
      rw [deref_store _ _ _ _ _ h3, if_neg ho1, deref_store _ _ _ _ _ h1, if_neg ho2,
        deref_store _ _ _ _ _ h0, if_neg ho2]

/-- What `import_arguments` leaves behind, for a new frame whose method and stack are
in place. -/
theorem import_arguments_spec {st st2 : VM} {ctx : OBJECT} {msg : Message}
    {c : MethodContext} {cm : CompiledMethod} {fs : List OBJECT}
    (hc : st.deref ctx = some (.MethodContext c))
    (hcm : st.deref c.cm = some (.CompiledMethod cm))
    (hfs : st.deref c.stack = some (.Tuple fs))
    (h : Task.import_arguments st ctx msg = .ok st2) :
    ∃ fs2, st2.deref ctx = some (.MethodContext { c with args := msg.args }) ∧
      st2.deref c.stack = some (.Tuple fs2) ∧ fs2.length = fs.length ∧
      st2.object = st.object ∧
      (∀ o y, st.deref o = some y → o ≠ ctx → o ≠ c.stack → st2.deref o = some y) ∧
      (msg.args = 0 → fs2 = fs ∧ st2.heap.length = st.heap.length) ∧
      (msg.args ≠ 0 → cm.splat = .Qnil →
        (if msg.args < cm.total_args then msg.args else cm.total_args) ≤ fs.length ∧
        st2.heap.length = st.heap.length ∧
        ∀ i, fs2[i]? =
          if i < (if msg.args < cm.total_args then msg.args else cm.total_args)
          then some (msg.get_argument i) else fs[i]?) ∧
      (msg.args ≠ 0 → cm.splat ≠ .Qnil →
        ∃ s, cm.splat = .Fixnum s ∧
          (if msg.args < cm.total_args then msg.args else cm.total_args) ≤ fs.length ∧
          size_t_of_int s < fs.length ∧
          (∀ i, fs2[i]? =
            if i = size_t_of_int s then some (.Ref st.heap.length)
            else if i < (if msg.args < cm.total_args then msg.args else cm.total_args)
            then some (msg.get_argument i) else fs[i]?) ∧
          st2.deref (.Ref st.heap.length) = some (.Array
            ((List.range (size_t_sub msg.args cm.total_args)).map
              (fun i => msg.get_argument (size_t_add cm.total_args i))))) := by
  have hne_cm : c.cm ≠ ctx := by
    intro he
    have h5 := hcm.symm.trans ((congrArg (VM.deref _) he).trans hc)
    cases h5
  have hne_stack : c.stack ≠ ctx := by
    intro he
    have h5 := hfs.symm.trans ((congrArg (VM.deref _) he).trans hc)
    cases h5
  unfold Task.import_arguments at h
  rw [Except.bind_eq_ok] at h
  obtain ⟨st1, hst1, h⟩ := h
  rw [update_context_eq _ hc] at hst1
  simp only [Except.ok.injEq] at hst1
  have hc1 : st1.deref ctx = some (.MethodContext { c with args := msg.args }) := by
    rw [← hst1]; exact deref_store_same hc
  have hcm1 : st1.deref c.cm = some (.CompiledMethod cm) := by
    rw [← hst1]; exact deref_store_ne hc hcm hne_cm
  have hfs1 : st1.deref c.stack = some (.Tuple fs) := by
    rw [← hst1]; exact deref_store_ne hc hfs hne_stack
  have hobj1 : st1.object = st.object := by rw [← hst1, store_object]
  have hlen1 : st1.heap.length = st.heap.length := by rw [← hst1, store_length]
  have hfr1 : ∀ o y, st.deref o = some y → o ≠ ctx → st1.deref o = some y := by
    intro o y hy hne
    rw [← hst1]; exact deref_store_ne hc hy hne
  by_cases h0 : msg.args = 0
  · rw [if_pos h0] at h
    simp only [pure, Except.pure, Except.ok.injEq] at h
    subst h
    refine ⟨fs, hc1, hfs1, rfl, hobj1, fun o y hy hne _ => hfr1 o y hy hne,
      fun _ => ⟨rfl, hlen1⟩, fun h1 => absurd h0 h1, fun h1 => absurd h0 h1⟩
  · rw [if_neg h0] at h
    rw [context_eq hc1] at h
    simp only [bind, Except.bind] at h
    rw [compiled_method_eq hcm1] at h
    simp only at h
    obtain ⟨hA, hB⟩ := import_fixed_spec msg c.stack fs
      (if msg.args < cm.total_args then msg.args else cm.total_args) st1 hfs1
    by_cases hk : (if msg.args < cm.total_args then msg.args else cm.total_args) ≤ fs.length
    · obtain ⟨fs1, hlenfs1, hget1, hrun⟩ := hA hk
      rw [hrun] at h
      simp only at h
      have hfs2 : (st1.store c.stack (.Tuple fs1)).deref c.stack = some (.Tuple fs1) :=
        deref_store_same hfs1
      have hc2 : (st1.store c.stack (.Tuple fs1)).deref ctx
          = some (.MethodContext { c with args := msg.args }) :=
        deref_store_ne hfs1 hc1 (Ne.symm hne_stack)
      by_cases hs : cm.splat = .Qnil
      · simp only [hs, ne_eq, not_true_eq_false, if_false, pure, Except.pure,
          Except.ok.injEq] at h
        subst h
        refine ⟨fs1, hc2, hfs2, hlenfs1, ?_, ?_, fun h1 => absurd h1 h0,
          fun _ _ => ⟨hk, ?_, hget1⟩, fun _ h1 => absurd hs h1⟩
        · rw [store_object, hobj1]
        · intro o y hy hne1 hne2
          rw [deref_store _ _ _ _ _ hfs1, if_neg hne2]
          exact hfr1 o y hy hne1
        · rw [store_length, hlen1]
      · simp only [ne_eq, hs, not_false_eq_true, if_true, Array.create, alloc_snd] at h
        have hary : ((st1.store c.stack (.Tuple fs1)).alloc (.Array [])).1.deref
            (.Ref (st1.store c.stack (.Tuple fs1)).heap.length) = some (.Array []) := by
          rw [deref_alloc]; simp
        rw [import_splat_spec msg _ cm.total_args _ _ hary] at h
        simp only at h
        cases hsp : cm.splat with
        | Fixnum s =>
          rw [hsp] at h
          simp only [OBJECT.n2i] at h
          have hlen3 : (st1.store c.stack (.Tuple fs1)).heap.length = st.heap.length := by
            rw [store_length, hlen1]
          rw [hlen3] at h hary
          obtain ⟨a, ha, halt, _⟩ := deref_some_ref hfs
          have hne_ary : c.stack ≠ .Ref st.heap.length := by
            rw [ha]; intro he; cases he; omega
          have hctx_live := deref_some_ref hc
          obtain ⟨b, hb, hblt, _⟩ := hctx_live
          have hne_ary2 : ctx ≠ .Ref st.heap.length := by
            rw [hb]; intro he; cases he; omega
          have hfs3 : ((st1.store c.stack (.Tuple fs1)).alloc (.Array [])).1.deref c.stack
              = some (.Tuple fs1) := by
            rw [deref_alloc, hlen3, if_neg hne_ary, hfs2]
          have hfs4 := deref_store_ne (x := HeapObject.Array ((List.range
            (size_t_sub msg.args cm.total_args)).map
              (fun i => msg.get_argument (size_t_add cm.total_args i)))) hary hfs3 hne_ary
          rw [put_eq _ _ hfs4] at h
          by_cases hidx : size_t_of_int s < fs1.length
          · rw [if_pos hidx] at h
            simp only [Except.ok.injEq] at h
            subst h
            refine ⟨fs1.set (size_t_of_int s) (.Ref st.heap.length), ?_,
              deref_store_same hfs4, (by simp [hlenfs1]), ?_, ?_,
              fun h1 => absurd h1 h0, fun _ h1 => (by cases h1), fun _ _ => ⟨s, rfl, hk,
                (by omega), ?_, ?_⟩⟩
            · rw [deref_store _ _ _ _ _ hfs4, if_neg (Ne.symm hne_stack),
                deref_store _ _ _ _ _ hary, if_neg hne_ary2, deref_alloc, hlen3,
                if_neg hne_ary2, hc2]
            · rw [store_object, store_object, alloc_object, store_object, hobj1]
            · intro o y hy hne1 hne2
              obtain ⟨d, hd, hdlt, _⟩ := deref_some_ref hy
              have hne3 : o ≠ .Ref st.heap.length := by
                rw [hd]; intro he; cases he; omega
              rw [deref_store _ _ _ _ _ hfs4, if_neg hne2,
                deref_store _ _ _ _ _ hary, if_neg hne3, deref_alloc, hlen3,
                if_neg hne3, deref_store _ _ _ _ _ hfs1, if_neg hne2]
              exact hfr1 o y hy hne1
            · intro i
              rw [List.getElem?_set, hget1]
              by_cases hi : size_t_of_int s = i
              · subst hi; simp [hidx]
              · simp [hi, Ne.symm hi]
            · rw [deref_store _ _ _ _ _ hfs4, if_neg (Ne.symm hne_ary)]
              exact deref_store_same hary
          · rw [if_neg hidx] at h
            cases h
        | Qnil => exact absurd hsp hs
        | Qtrue => rw [hsp] at h; simp [OBJECT.n2i] at h
        | Qfalse => rw [hsp] at h; simp [OBJECT.n2i] at h
        | Symbol id => rw [hsp] at h; simp [OBJECT.n2i] at h
        | Ref id => rw [hsp] at h; simp [OBJECT.n2i] at h
    · rw [hB (by omega)] at h
      cases h

/-- The state a successful `send_message` leaves, for a task with an active frame. -/
theorem send_message_spec {locate : Resolver} {st st1 : VM} {task task1 : Task}
    {msg msg1 : Message} {c0 : MethodContext}
    (h : Task.send_message locate st task msg = .ok (st1, task1, msg1))
    (h0 : st.deref task.active = some (.MethodContext c0)) :
    ∃ cm fs2, locate st msg = (true, msg1) ∧
      st.deref msg1.method = some (.CompiledMethod cm) ∧
      task1 = { ip := 0, sp := (cm.local_count : Int) - 1, self := msg1.recv,
                literals := cm.literals, stack := .Ref (st.heap.length + 1),
                ip_ptr := (msg1.method, 0), active := .Ref st.heap.length } ∧
      st1.deref (.Ref st.heap.length) = some (.MethodContext
        { sender := task.active, self := msg1.recv, cm := msg1.method, vmm := msg1.method,
          module := st.object, stack := .Ref (st.heap.length + 1), ip := 0,
          sp := (cm.local_count : Int) - 1, args := msg1.args, block := .Qnil }) ∧
      st1.deref task.active =
        some (.MethodContext { c0 with ip := task.ip, sp := task.sp }) ∧
      st1.deref (.Ref (st.heap.length + 1)) = some (.Tuple fs2) ∧
      fs2.length = cm.stack_size ∧
      (∀ o y, st.deref o = some y → o ≠ task.active → st1.deref o = some y) ∧
      (msg1.args = 0 → fs2 = List.replicate cm.stack_size .Qnil) ∧
      (msg1.args ≠ 0 → cm.splat = .Qnil →
        (if msg1.args < cm.total_args then msg1.args else cm.total_args) ≤ cm.stack_size ∧
        ∀ i, fs2[i]? =
          if i < (if msg1.args < cm.total_args then msg1.args else cm.total_args)
          then some (msg1.get_argument i)
          else (List.replicate cm.stack_size OBJECT.Qnil)[i]?) ∧
      (msg1.args ≠ 0 → cm.splat ≠ .Qnil →
        ∃ s, cm.splat = .Fixnum s ∧
          (if msg1.args < cm.total_args then msg1.args else cm.total_args) ≤ cm.stack_size ∧
          size_t_of_int s < cm.stack_size ∧
          (∀ i, fs2[i]? =
            if i = size_t_of_int s then some (.Ref (st.heap.length + 2))
            else if i < (if msg1.args < cm.total_args then msg1.args else cm.total_args)
            then some (msg1.get_argument i)
            else (List.replicate cm.stack_size OBJECT.Qnil)[i]?) ∧
          st1.deref (.Ref (st.heap.length + 2)) = some (.Array
            ((List.range (size_t_sub msg1.args cm.total_args)).map
              (fun i => msg1.get_argument (size_t_add cm.total_args i))))) := by
  unfold Task.send_message at h
  cases hl : locate st msg with
  | mk b m =>
    rw [hl] at h
    cases b with
    | false => cases h
    | true =>
      simp only at h
      rw [Except.bind_eq_ok] at h
      obtain ⟨cm1, hcast, h⟩ := h
      rw [Except.bind_eq_ok] at h
      obtain ⟨⟨sa, ctx⟩, hgen, h⟩ := h
      simp only at h
      rw [Except.bind_eq_ok] at h
      obtain ⟨sb, himp, h⟩ := h
      rw [Except.bind_eq_ok] at h
      obtain ⟨⟨sc, t⟩, hact, h⟩ := h
      simp only [pure, Except.pure, Except.ok.injEq, Prod.mk.injEq] at h
      obtain ⟨rfl, rfl, rfl⟩ := h
      obtain ⟨cm, hcm, rfl, hlen_a, hobj_a, hctx_a, htup_a, hfr_a⟩ := generate_context_spec hgen
      obtain ⟨fs2, hctx_b, htup_b, hlen2, hobj_b, hfr_b, hz, hn, hsp⟩ :=
        import_arguments_spec hctx_a (hfr_a _ _ hcm) htup_a himp
      simp only [List.length_replicate] at hlen2 hz hn hsp
      obtain ⟨a, ha, halt, _⟩ := deref_some_ref h0
      have hne1 : task.active ≠ .Ref st.heap.length := by
        rw [ha]; intro he; cases he; omega
      have hne2 : task.active ≠ .Ref (st.heap.length + 1) := by
        rw [ha]; intro he; cases he; omega
      have h0b : sb.deref task.active = some (.MethodContext c0) :=
        hfr_b _ _ (hfr_a _ _ h0) hne1 hne2
      obtain ⟨cm2, hcm2, hctx_c, hact_c, ht, hobj_c, hlen_c, hfr_c⟩ :=
        activate_spec hact hctx_b h0b (Ne.symm hne1)
      simp only at hcm2 ht hctx_c
      have hne3 : m.method ≠ .Ref st.heap.length := by
        obtain ⟨d, hd, hdlt, _⟩ := deref_some_ref hcm
        rw [hd]; intro he; cases he; omega
      have hne4 : m.method ≠ .Ref (st.heap.length + 1) := by
        obtain ⟨d, hd, hdlt, _⟩ := deref_some_ref hcm
        rw [hd]; intro he; cases he; omega
      have hcm3 := hfr_b _ _ (hfr_a _ _ hcm) hne3 hne4
      rw [hcm3] at hcm2
      simp only [Option.some.injEq, HeapObject.CompiledMethod.injEq] at hcm2
      subst hcm2
      have hne5 : (OBJECT.Ref (st.heap.length + 1)) ≠ .Ref st.heap.length := by
        intro he; have := OBJECT.Ref.inj he; omega
      refine ⟨cm, fs2, rfl, hcm, ht, hctx_c, hact_c, ?_, hlen2, ?_, ?_,
        fun x y => ⟨(hn x y).1, (hn x y).2.2⟩, ?_⟩
      · rw [hfr_c _ hne5 (Ne.symm hne2)]; exact htup_b
      · intro o y hy hne
        obtain ⟨d, hd, hdlt, _⟩ := deref_some_ref hy
        have hn1 : o ≠ .Ref st.heap.length := by
          rw [hd]; intro he; cases he; omega
        have hn2 : o ≠ .Ref (st.heap.length + 1) := by
          rw [hd]; intro he; cases he; omega
        rw [hfr_c _ hn1 hne]
        exact hfr_b _ _ (hfr_a _ _ hy) hn1 hn2
      · intro hz0; exact (hz hz0).1
      · intro hnz hspl
        obtain ⟨s, hs1, hs2, hs3, hs4, hs5⟩ := hsp hnz hspl
        rw [hlen_a] at hs4 hs5
        have hne6 : (OBJECT.Ref (st.heap.length + 2)) ≠ .Ref st.heap.length := by
          intro he; have := OBJECT.Ref.inj he; omega
        have hne7 : (OBJECT.Ref (st.heap.length + 2)) ≠ task.active := by
          rw [ha]; intro he; cases he; omega
        refine ⟨s, hs1, hs2, hs3, hs4, ?_⟩
        rw [hfr_c _ hne6 hne7]; exact hs5

/-- The state a successful `send_message_slowly` leaves: the same frame, with no
argument bound. -/
theorem send_message_slowly_spec {resolve : Resolver} {st st1 : VM} {task task1 : Task}
    {msg msg1 : Message} {c0 : MethodContext}
    (h : Task.send_message_slowly resolve st task msg = .ok (st1, task1, msg1))
    (h0 : st.deref task.active = some (.MethodContext c0)) :
    ∃ cm, Task.resolve_slowly resolve st msg = (true, msg1) ∧
      st.deref msg1.method = some (.CompiledMethod cm) ∧
      task1 = { ip := 0, sp := (cm.local_count : Int) - 1, self := msg1.recv,
                literals := cm.literals, stack := .Ref (st.heap.length + 1),
                ip_ptr := (msg1.method, 0), active := .Ref st.heap.length } ∧
      st1.deref (.Ref st.heap.length) = some (.MethodContext
        { sender := task.active, self := msg1.recv, cm := msg1.method, vmm := msg1.method,
          module := st.object, stack := .Ref (st.heap.length + 1), ip := 0,
          sp := (cm.local_count : Int) - 1, args := 0, block := .Qnil }) ∧
      st1.deref task.active =
        some (.MethodContext { c0 with ip := task.ip, sp := task.sp }) ∧
      st1.deref (.Ref (st.heap.length + 1)) =
        some (.Tuple (List.replicate cm.stack_size .Qnil)) ∧
      (∀ o y, st.deref o = some y → o ≠ task.active → st1.deref o = some y) := by
  unfold Task.send_message_slowly at h
  cases hl : Task.resolve_slowly resolve st msg with
  | mk b m =>
    rw [hl] at h
    cases b with
    | false => cases h
    | true =>
      simp only at h
      rw [Except.bind_eq_ok] at h
      obtain ⟨cm1, hcast, h⟩ := h
      rw [Except.bind_eq_ok] at h
      obtain ⟨⟨sa, ctx⟩, hgen, h⟩ := h
      simp only at h
      rw [Except.bind_eq_ok] at h
      obtain ⟨⟨sc, t⟩, hact, h⟩ := h
      simp only [pure, Except.pure, Except.ok.injEq, Prod.mk.injEq] at h
      obtain ⟨rfl, rfl, rfl⟩ := h
      obtain ⟨cm, hcm, rfl, hlen_a, hobj_a, hctx_a, htup_a, hfr_a⟩ := generate_context_spec hgen
      obtain ⟨a, ha, halt, _⟩ := deref_some_ref h0
      have hne1 : task.active ≠ .Ref st.heap.length := by
        rw [ha]; intro he; cases he; omega
      have hne2 : task.active ≠ .Ref (st.heap.length + 1) := by
        rw [ha]; intro he; cases he; omega
      obtain ⟨cm2, hcm2, hctx_c, hact_c, ht, hobj_c, hlen_c, hfr_c⟩ :=
        activate_spec hact hctx_a (hfr_a _ _ h0) (Ne.symm hne1)
      simp only at hcm2 ht hctx_c
      rw [hfr_a _ _ hcm] at hcm2
      simp only [Option.some.injEq, HeapObject.CompiledMethod.injEq] at hcm2
      subst hcm2
      have hne5 : (OBJECT.Ref (st.heap.length + 1)) ≠ .Ref st.heap.length := by
        intro he; have := OBJECT.Ref.inj he; omega
      refine ⟨cm, rfl, hcm, ht, hctx_c, hact_c, ?_, ?_⟩
      · rw [hfr_c _ hne5 (Ne.symm hne2)]; exact htup_a
      · intro o y hy hne
        obtain ⟨d, hd, hdlt, _⟩ := deref_some_ref hy
        have hn1 : o ≠ .Ref st.heap.length := by
          rw [hd]; intro he; cases he; omega
        rw [hfr_c _ hn1 hne]
        exact hfr_a _ _ hy

/-- The scenarios start from the state `Task::create` builds. -/
theorem ex_vm_created :
    Task.create { heap := [.CompiledMethod ex_cm], object := .Qtrue, sym_public := .Symbol 1,
                  sym_private := .Symbol 2 } .Qnil (.Ref 0) =
      .ok (ex_vm ex_cm, ex_task ex_cm) := rfl

/-! ## Send and return -/

/-- C1: for a task with an active context, after a successful `send_message`, and
likewise after a successful `send_message_slowly`, the new active context's sender is
the context that was active before the send, and the new active context is a
different context from that one. -/
theorem send_message_frame_linkage (locate resolve : Resolver) (st : VM) (task : Task)
    (msg : Message) (c0 : MethodContext)
    (hact : st.context task.active = .ok c0) :
    (∀ st1 task1 msg1, Task.send_message locate st task msg = .ok (st1, task1, msg1) →
      (∃ c, st1.context task1.active = .ok c ∧ c.sender = task.active) ∧
      task1.active ≠ task.active) ∧
    (∀ st1 task1 msg1,
      Task.send_message_slowly resolve st task msg = .ok (st1, task1, msg1) →
      (∃ c, st1.context task1.active = .ok c ∧ c.sender = task.active) ∧
      task1.active ≠ task.active) := by
  have h0 := context_inv hact
  obtain ⟨a, ha, halt, _⟩ := deref_some_ref h0
  have hne : OBJECT.Ref st.heap.length ≠ task.active := by
    rw [ha]; intro he; have := OBJECT.Ref.inj he; omega
  constructor
  · intro st1 task1 msg1 h
    obtain ⟨cm, fs2, _, _, ht, hctx, _⟩ := send_message_spec h h0
    subst ht
    exact ⟨⟨_, context_eq hctx, rfl⟩, hne⟩
  · intro st1 task1 msg1 h
    obtain ⟨cm, _, _, ht, hctx, _⟩ := send_message_slowly_spec h h0
    subst ht
    exact ⟨⟨_, context_eq hctx, rfl⟩, hne⟩

/-- Scenario S1, by the fast and by the slow send. -/
theorem send_message_frame_linkage_witness :
    ((∃ c, (ex_vm1 ex_cm 0 [.Qnil]).context (ex_task1 ex_cm).active = .ok c ∧
        c.sender = (ex_task ex_cm).active) ∧
      (ex_task1 ex_cm).active ≠ (ex_task ex_cm).active) ∧
    ((∃ c, (ex_vm1 ex_cm 0 [.Qnil]).context (ex_task1 ex_cm).active = .ok c ∧
        c.sender = (ex_task ex_cm).active) ∧
      (ex_task1 ex_cm).active ≠ (ex_task ex_cm).active) :=
  ⟨(send_message_frame_linkage ex_locate ex_locate (ex_vm ex_cm) (ex_task ex_cm) (ex_msg [])
      (ex_ctx ex_cm) rfl).1 _ _ _ rfl,
   (send_message_frame_linkage ex_locate ex_locate (ex_vm ex_cm) (ex_task ex_cm) (ex_msg [])
      (ex_ctx ex_cm) rfl).2 _ _ _ rfl⟩

/-- C2: for a task with an active context, after a successful `send_message` the new
active context has `self` equal to the message's receiver and `cm` equal to the
message's method, and the hot registers are reloaded from it: `task.self` is the
receiver, `task.ip` is 0 and `task.stack` is the new context's stack, which is not the
caller's stack (neither the stack of the caller's frame nor the task's stack register
before the send, whenever these point to live objects). -/
theorem send_message_self_binding (locate : Resolver) (st st1 : VM) (task task1 : Task)
    (msg msg1 : Message) (c0 : MethodContext)
    (hact : st.context task.active = .ok c0)
    (hsend : Task.send_message locate st task msg = .ok (st1, task1, msg1)) :
    locate st msg = (true, msg1) ∧
    ∃ c, st1.context task1.active = .ok c ∧ c.self = msg1.recv ∧ c.cm = msg1.method ∧
      task1.self = msg1.recv ∧ task1.ip = 0 ∧ task1.stack = c.stack ∧
      (∀ x, st.deref c0.stack = some x → task1.stack ≠ c0.stack) ∧
      (∀ x, st.deref task.stack = some x → task1.stack ≠ task.stack) := by
  have h0 := context_inv hact
  obtain ⟨cm, fs2, hl, _, ht, hctx, _⟩ := send_message_spec hsend h0
  subst ht
  refine ⟨hl, _, context_eq hctx, rfl, rfl, rfl, rfl, rfl, ?_, ?_⟩
  · intro x hx he
    obtain ⟨a, ha, halt, _⟩ := deref_some_ref hx
    rw [ha] at he
    have := OBJECT.Ref.inj he
    omega
  · intro x hx he
    obtain ⟨a, ha, halt, _⟩ := deref_some_ref hx
    rw [ha] at he
    have := OBJECT.Ref.inj he
    omega

/-- Scenario S1: the send of `blah` to `true`. -/
theorem send_message_self_binding_witness :
    ex_locate (ex_vm ex_cm) (ex_msg []) = (true, { ex_msg [] with method := .Ref 0 }) ∧
    ∃ c, (ex_vm1 ex_cm 0 [.Qnil]).context (ex_task1 ex_cm).active = .ok c ∧
      c.self = .Qtrue ∧ c.cm = .Ref 0 ∧
      (ex_task1 ex_cm).self = .Qtrue ∧ (ex_task1 ex_cm).ip = 0 ∧
      (ex_task1 ex_cm).stack = c.stack ∧
      (∀ x, (ex_vm ex_cm).deref (ex_ctx ex_cm).stack = some x →
        (ex_task1 ex_cm).stack ≠ (ex_ctx ex_cm).stack) ∧
      (∀ x, (ex_vm ex_cm).deref (ex_task ex_cm).stack = some x →
        (ex_task1 ex_cm).stack ≠ (ex_task ex_cm).stack) :=
  send_message_self_binding ex_locate (ex_vm ex_cm) (ex_vm1 ex_cm 0 [.Qnil]) (ex_task ex_cm)
    (ex_task1 ex_cm) (ex_msg []) { ex_msg [] with method := .Ref 0 } (ex_ctx ex_cm) rfl rfl

/-- C3: for a compiled method with no splat and a send passing `n ≤ total_args`
arguments, after a successful `send_message` the new context's stack has
`stack_size` slots, slots `0 .. n-1` hold the passed arguments in call order, and
every slot at index `n` or above is left at the unset (nil) value. -/
theorem send_message_fixed_locals (locate : Resolver) (st st1 : VM) (task task1 : Task)
    (msg msg1 : Message) (c0 : MethodContext) (cm : CompiledMethod)
    (hact : st.context task.active = .ok c0)
    (hsend : Task.send_message locate st task msg = .ok (st1, task1, msg1))
    (hcm : st.as_CompiledMethod msg1.method = .ok cm)
    (hsplat : cm.splat = .Qnil)
    (hn : msg1.args ≤ cm.total_args) :
    (st1.tuple_fields task1.stack).length = cm.stack_size ∧
    (∀ i, i < msg1.args →
      (st1.tuple_fields task1.stack)[i]? = some (msg1.get_argument i)) ∧
    (∀ i, msg1.args ≤ i → i < cm.stack_size →
      (st1.tuple_fields task1.stack)[i]? = some .Qnil) := by
  have h0 := context_inv hact
  obtain ⟨cm2, fs2, hl, hcm2, ht, hctx, _, htup, hlen, _, hz, hnz, _⟩ :=
    send_message_spec hsend h0
  have hcm3 := as_CompiledMethod_inv hcm
  rw [hcm2] at hcm3
  simp only [Option.some.injEq, HeapObject.CompiledMethod.injEq] at hcm3
  subst hcm3
  subst ht
  have hf : st1.tuple_fields (.Ref (st.heap.length + 1)) = fs2 := by
    simp [VM.tuple_fields, htup]
  simp only [hf]
  by_cases hargs : msg1.args = 0
  · have hfs := hz hargs
    subst hfs
    refine ⟨hlen, fun i hi => by omega, fun i _ hi => ?_⟩
    simp [hi]
  · obtain ⟨hk, hget⟩ := hnz hargs hsplat
    have hfixed : (if msg1.args < cm2.total_args then msg1.args else cm2.total_args)
        = msg1.args := by
      split
      · rfl
      · omega
    rw [hfixed] at hk hget
    refine ⟨hlen, fun i hi => ?_, fun i hi1 hi2 => ?_⟩
    · rw [hget, if_pos hi]
    · rw [hget, if_neg (by omega)]
      simp [hi2]

/-- Scenario S3: three arguments passed to a method taking two to four. -/
theorem send_message_fixed_locals_witness :
    (((ex_vm1 ex_cm_opt 3 [.Fixnum 3, .Fixnum 4, .Fixnum 5, .Qnil]).tuple_fields
        (ex_task1 ex_cm_opt).stack).length = 4) ∧
    (∀ i, i < 3 →
      ((ex_vm1 ex_cm_opt 3 [.Fixnum 3, .Fixnum 4, .Fixnum 5, .Qnil]).tuple_fields
        (ex_task1 ex_cm_opt).stack)[i]? =
      some (([OBJECT.Fixnum 3, .Fixnum 4, .Fixnum 5] : List OBJECT).getD i .Qnil)) ∧
    (∀ i, 3 ≤ i → i < 4 →
      ((ex_vm1 ex_cm_opt 3 [.Fixnum 3, .Fixnum 4, .Fixnum 5, .Qnil]).tuple_fields
        (ex_task1 ex_cm_opt).stack)[i]? = some .Qnil) :=
  send_message_fixed_locals ex_locate (ex_vm ex_cm_opt)
    (ex_vm1 ex_cm_opt 3 [.Fixnum 3, .Fixnum 4, .Fixnum 5, .Qnil]) (ex_task ex_cm_opt)
    (ex_task1 ex_cm_opt) (ex_msg [.Fixnum 3, .Fixnum 4, .Fixnum 5])
    { ex_msg [.Fixnum 3, .Fixnum 4, .Fixnum 5] with method := .Ref 0 } (ex_ctx ex_cm_opt)
    ex_cm_opt rfl rfl rfl rfl (by decide)

/-- C4: for a task with an active context, after a successful `send_message` passing
`n` arguments, `passed_arg_p(k)` on the resulting active context is true if and only
if `k ≤ n`, for every position `k`. -/
theorem passed_arg_p_iff (locate : Resolver) (st st1 : VM) (task task1 : Task)
    (msg msg1 : Message) (c0 : MethodContext) (k : Nat)
    (hact : st.context task.active = .ok c0)
    (hsend : Task.send_message locate st task msg = .ok (st1, task1, msg1)) :
    ∃ b, Task.passed_arg_p st1 task1 k = .ok b ∧ (b = true ↔ k ≤ msg1.args) := by
  have h0 := context_inv hact
  obtain ⟨cm, fs2, _, _, ht, hctx, _⟩ := send_message_spec hsend h0
  subst ht
  refine ⟨decide (msg1.args ≥ k), ?_, by simp⟩
  unfold Task.passed_arg_p
  rw [context_eq hctx]
  rfl

/-- Scenario S3: position 4 was not passed. -/
theorem passed_arg_p_iff_witness :
    ∃ b, Task.passed_arg_p (ex_vm1 ex_cm_opt 3 [.Fixnum 3, .Fixnum 4, .Fixnum 5, .Qnil])
        (ex_task1 ex_cm_opt) 4 = .ok b ∧ (b = true ↔ 4 ≤ 3) :=
  passed_arg_p_iff ex_locate (ex_vm ex_cm_opt)
    (ex_vm1 ex_cm_opt 3 [.Fixnum 3, .Fixnum 4, .Fixnum 5, .Qnil]) (ex_task ex_cm_opt)
    (ex_task1 ex_cm_opt) (ex_msg [.Fixnum 3, .Fixnum 4, .Fixnum 5])
    { ex_msg [.Fixnum 3, .Fixnum 4, .Fixnum 5] with method := .Ref 0 } (ex_ctx ex_cm_opt)
    4 rfl rfl

/-- C7: for a task whose active context has a caller, after a successful
`simple_return(v)` the caller is active, `task.stack` is the caller's stack,
`task.sp` is the caller's saved `sp` plus one and `stack[sp]` is `v`; and when the
task was left by a `send_message`, the context active before that send is active
again and `task.sp` is the pre-send `sp` plus one. -/
theorem simple_return_pushes (st st1 : VM) (task task1 : Task) (value : OBJECT)
    (a caller : MethodContext)
    (hact : st.context task.active = .ok a)
    (hcaller : st.context a.sender = .ok caller)
    (hret : Task.simple_return st task value = .ok (st1, task1)) :
    (task1.active = a.sender ∧ task1.stack = caller.stack ∧ task1.sp = caller.sp + 1 ∧
      (st1.tuple_fields task1.stack)[size_t_of_int task1.sp]? = some value) ∧
    (∀ (locate : Resolver) (st0 : VM) (task0 : Task) (msg0 msg1 : Message)
        (c0 : MethodContext),
      st0.context task0.active = .ok c0 →
      Task.send_message locate st0 task0 msg0 = .ok (st, task, msg1) →
      task1.active = task0.active ∧ task1.sp = task0.sp + 1) := by
  have hmain : task1.active = a.sender ∧ task1.stack = caller.stack ∧
      task1.sp = caller.sp + 1 ∧
      (st1.tuple_fields task1.stack)[size_t_of_int task1.sp]? = some value := by
    unfold Task.simple_return at hret
    rw [hact] at hret
    simp only [bind, Except.bind] at hret
    split at hret
    · cases hret
    · rename_i t hmk
      obtain ⟨c, cm, hc, hcm, ht⟩ := make_active_spec hmk
      rw [context_inv hcaller] at hc
      simp only [Option.some.injEq, HeapObject.MethodContext.injEq] at hc
      subst hc
      subst ht
      simp only at hret
      split at hret
      · cases hret
      · rename_i st2 hput
        simp only [pure, Except.pure, Except.ok.injEq, Prod.mk.injEq] at hret
        obtain ⟨rfl, rfl⟩ := hret
        obtain ⟨fs, hfs, hidx, hst⟩ := put_inv hput
        refine ⟨rfl, rfl, rfl, ?_⟩
        have hd := deref_store_same
          (x := HeapObject.Tuple (fs.set (size_t_of_int (caller.sp + 1)) value)) hfs
        rw [← hst] at hd
        simp only [VM.tuple_fields, hd]
        rw [List.getElem?_set]
        simp [hidx]
  refine ⟨hmain, ?_⟩
  intro locate st0 task0 msg0 msg1 c0 h0 hsend
  obtain ⟨cm, fs2, _, _, ht, hctx, hprev, _⟩ := send_message_spec hsend (context_inv h0)
  subst ht
  have ha := context_inv hact
  simp only at ha
  rw [hctx] at ha
  simp only [Option.some.injEq, HeapObject.MethodContext.injEq] at ha
  subst ha
  have hc := context_inv hcaller
  simp only at hc
  rw [hprev] at hc
  simp only [Option.some.injEq, HeapObject.MethodContext.injEq] at hc
  subst hc
  exact ⟨hmain.1, hmain.2.2.1⟩

/-- Scenario S4: the return of 3 after the send of scenario S1. -/
theorem simple_return_pushes_witness :
    ((ex_task_s4.active = (ex_ctx1 ex_cm 0).sender ∧
       ex_task_s4.stack = (ex_ctx ex_cm).stack ∧
       ex_task_s4.sp = (ex_ctx ex_cm).sp + 1 ∧
       (ex_vm_s4.tuple_fields ex_task_s4.stack)[size_t_of_int ex_task_s4.sp]?
         = some (.Fixnum 3)) ∧
     (ex_task_s4.active = (ex_task ex_cm).active ∧
       ex_task_s4.sp = (ex_task ex_cm).sp + 1)) :=
  have h := simple_return_pushes (ex_vm1 ex_cm 0 [.Qnil]) ex_vm_s4 (ex_task1 ex_cm)
    ex_task_s4 (.Fixnum 3) (ex_ctx1 ex_cm 0) (ex_ctx ex_cm) rfl rfl rfl
  ⟨h.1, h.2 ex_locate (ex_vm ex_cm) (ex_task ex_cm) (ex_msg [])
    { ex_msg [] with method := .Ref 0 } (ex_ctx ex_cm) rfl rfl⟩

/-! ## Splat binding -/

theorem size_t_sub_of_le {a b : Nat} (h : b ≤ a) (ha : a < SIZE_T_MOD) :
    size_t_sub a b = a - b := by
  unfold size_t_sub
  rw [Nat.mod_eq_of_lt ha, Nat.mod_eq_of_lt (Nat.lt_of_le_of_lt h ha)]
  have : a + SIZE_T_MOD - b = (a - b) + SIZE_T_MOD := by omega
  rw [this, Nat.add_mod_right]
  exact Nat.mod_eq_of_lt (by omega)

/-- When fewer arguments are passed than `total_args`, the `size_t` subtraction that
sizes the splat wraps around. -/
theorem size_t_sub_of_lt {a b : Nat} (h : a < b) (hb : b < SIZE_T_MOD) :
    size_t_sub a b = SIZE_T_MOD - (b - a) := by
  unfold size_t_sub
  rw [Nat.mod_eq_of_lt hb, Nat.mod_eq_of_lt (Nat.lt_trans h hb)]
  have : a + SIZE_T_MOD - b = SIZE_T_MOD - (b - a) := by omega
  rw [this]
  exact Nat.mod_eq_of_lt (by omega)

/-- Splat binding when at least one argument is passed: for a send passing
`n ≥ total_args` arguments, `n ≥ 1`, to a method whose splat slot `s` lies past the
fixed arguments, slots `0 .. total_args-1` hold the arguments one-to-one and slot `s`
points to an array of the `n - total_args` remaining arguments in call order. -/
theorem send_message_splat_binding (locate : Resolver) (st st1 : VM) (task task1 : Task)
    (msg msg1 : Message) (c0 : MethodContext) (cm : CompiledMethod) (s : Int)
    (hact : st.context task.active = .ok c0)
    (hsend : Task.send_message locate st task msg = .ok (st1, task1, msg1))
    (hcm : st.as_CompiledMethod msg1.method = .ok cm)
    (hsplat : cm.splat = .Fixnum s)
    (hslot : cm.total_args ≤ size_t_of_int s)
    (hn : cm.total_args ≤ msg1.args) (hpos : msg1.args ≠ 0)
    (hrange : msg1.args < SIZE_T_MOD) :
    (∀ i, i < cm.total_args →
      (st1.tuple_fields task1.stack)[i]? = some (msg1.get_argument i)) ∧
    ∃ ary elems, (st1.tuple_fields task1.stack)[size_t_of_int s]? = some ary ∧
      st1.array_elems ary = some elems ∧
      elems.length = msg1.args - cm.total_args ∧
      ∀ i, i < msg1.args - cm.total_args →
        elems[i]? = some (msg1.get_argument (cm.total_args + i)) := by
  have h0 := context_inv hact
  obtain ⟨cm2, fs2, hl, hcm2, ht, hctx, _, htup, hlen, _, _, _, hsp⟩ :=
    send_message_spec hsend h0
  have hcm3 := as_CompiledMethod_inv hcm
  rw [hcm2] at hcm3
  simp only [Option.some.injEq, HeapObject.CompiledMethod.injEq] at hcm3
  subst hcm3
  subst ht
  have hf : st1.tuple_fields (.Ref (st.heap.length + 1)) = fs2 := by
    simp [VM.tuple_fields, htup]
  simp only [hf]
  have hspl : cm2.splat ≠ .Qnil := by rw [hsplat]; intro he; cases he
  obtain ⟨s2, hs1, hs2, hs3, hs4, hs5⟩ := hsp hpos hspl
  rw [hsplat] at hs1
  have hss := OBJECT.Fixnum.inj hs1
  subst hss
  have hfixed : (if msg1.args < cm2.total_args then msg1.args else cm2.total_args)
      = cm2.total_args := by
    split
    · omega
    · rfl
  rw [hfixed] at hs4
  refine ⟨fun i hi => ?_, .Ref (st.heap.length + 2),
    (List.range (size_t_sub msg1.args cm2.total_args)).map
      (fun i => msg1.get_argument (size_t_add cm2.total_args i)), ?_, ?_, ?_, ?_⟩
  · rw [hs4, if_neg (by omega), if_pos hi]
  · rw [hs4, if_pos rfl]
  · simp only [VM.array_elems, hs5]
  · simp [size_t_sub_of_le hn hrange]
  · intro i hi
    rw [size_t_sub_of_le hn hrange]
    simp only [List.getElem?_map, List.getElem?_range hi, Option.map_some']
    have : size_t_add cm2.total_args i = cm2.total_args + i := by
      unfold size_t_add
      exact Nat.mod_eq_of_lt (by omega)
    rw [this]

/-- Scenario S2: two fixed arguments and a splat, four arguments passed. -/
theorem send_message_splat_binding_witness :
    (∀ i, i < 2 → (ex_vm_s2.tuple_fields (ex_task1 ex_cm_fixed_splat).stack)[i]? =
      some (([OBJECT.Fixnum 3, .Fixnum 4, .Fixnum 5, .Fixnum 6] : List OBJECT).getD i .Qnil)) ∧
    ∃ ary elems, (ex_vm_s2.tuple_fields (ex_task1 ex_cm_fixed_splat).stack)[2]? = some ary ∧
      ex_vm_s2.array_elems ary = some elems ∧ elems.length = 4 - 2 ∧
      ∀ i, i < 4 - 2 → elems[i]? =
        some (([OBJECT.Fixnum 3, .Fixnum 4, .Fixnum 5, .Fixnum 6] : List OBJECT).getD (2 + i)
          .Qnil) :=
  send_message_splat_binding ex_locate (ex_vm ex_cm_fixed_splat) ex_vm_s2
    (ex_task ex_cm_fixed_splat) (ex_task1 ex_cm_fixed_splat)
    (ex_msg [.Fixnum 3, .Fixnum 4, .Fixnum 5, .Fixnum 6])
    { ex_msg [.Fixnum 3, .Fixnum 4, .Fixnum 5, .Fixnum 6] with method := .Ref 0 }
    (ex_ctx ex_cm_fixed_splat) ex_cm_fixed_splat 2 rfl rfl rfl rfl (by decide) (by decide)
    (by decide) (by decide)

/-- C5: at the input `total_args = 0`, splat slot 0, no argument passed (so
`n ≥ total_args`), `send_message` succeeds and leaves the splat slot at nil: local 0
is not a sequence of length `n - total_args = 0`, and no array has been allocated. -/
theorem send_message_splat_only_no_arguments :
    Task.send_message ex_locate (ex_vm ex_cm_splat) (ex_task ex_cm_splat) (ex_msg []) =
      .ok (ex_vm1 ex_cm_splat 0 [.Qnil], ex_task1 ex_cm_splat,
        { ex_msg [] with method := .Ref 0 }) ∧
    ((ex_vm1 ex_cm_splat 0 [.Qnil]).tuple_fields (ex_task1 ex_cm_splat).stack)[0]? =
      some .Qnil ∧
    (ex_vm1 ex_cm_splat 0 [.Qnil]).array_elems .Qnil = none ∧
    (∀ o, (ex_vm1 ex_cm_splat 0 [.Qnil]).array_elems o = none) := by
  refine ⟨rfl, rfl, rfl, ?_⟩
  intro o
  cases o with
  | Ref a =>
    match a with
    | 0 => rfl
    | 1 => rfl
    | 2 => rfl
    | 3 => rfl
    | 4 => rfl
    | (n + 5) => rfl
  | _ => rfl

/-- C6: when no argument is passed, `import_arguments` returns before its splat code:
whatever the method's splat slot, it only records `args = 0` in the new frame, writes
nothing to the frame's stack and allocates no array, so the splat slot keeps the
unset (nil) value the stack was created with instead of an empty sequence. -/
theorem import_arguments_no_arguments (st : VM) (ctx : OBJECT) (msg : Message)
    (c : MethodContext)
    (hctx : st.context ctx = .ok c)
    (hargs : msg.args = 0) :
    Task.import_arguments st ctx msg =
      .ok (st.store ctx (.MethodContext { c with args := 0 })) ∧
    (st.store ctx (.MethodContext { c with args := 0 })).tuple_fields c.stack =
      st.tuple_fields c.stack ∧
    (st.store ctx (.MethodContext { c with args := 0 })).heap.length = st.heap.length := by
  have hc := context_inv hctx
  refine ⟨?_, ?_, store_length _ _ _⟩
  · unfold Task.import_arguments
    rw [update_context_eq _ hc, hargs]
    rfl
  · unfold VM.tuple_fields
    rw [deref_store _ _ _ _ _ hc]
    by_cases he : c.stack = ctx
    · rw [if_pos he, he, hc]
    · rw [if_neg he]

/-- A method with an optional argument and a splat in slot 1, sent no argument: the
splat slot stays nil. -/
theorem import_arguments_no_arguments_witness :
    Task.import_arguments (ex_vm1 ex_cm_opt_splat 0 [.Qnil, .Qnil]) (.Ref 3) (ex_msg []) =
      .ok ((ex_vm1 ex_cm_opt_splat 0 [.Qnil, .Qnil]).store (.Ref 3)
        (.MethodContext { ex_ctx1 ex_cm_opt_splat 0 with args := 0 })) ∧
    ((ex_vm1 ex_cm_opt_splat 0 [.Qnil, .Qnil]).store (.Ref 3)
        (.MethodContext { ex_ctx1 ex_cm_opt_splat 0 with args := 0 })).tuple_fields
        (ex_ctx1 ex_cm_opt_splat 0).stack =
      (ex_vm1 ex_cm_opt_splat 0 [.Qnil, .Qnil]).tuple_fields (ex_ctx1 ex_cm_opt_splat 0).stack ∧
    ((ex_vm1 ex_cm_opt_splat 0 [.Qnil, .Qnil]).store (.Ref 3)
        (.MethodContext { ex_ctx1 ex_cm_opt_splat 0 with args := 0 })).heap.length =
      (ex_vm1 ex_cm_opt_splat 0 [.Qnil, .Qnil]).heap.length :=
  import_arguments_no_arguments (ex_vm1 ex_cm_opt_splat 0 [.Qnil, .Qnil]) (.Ref 3) (ex_msg [])
    (ex_ctx1 ex_cm_opt_splat 0) rfl rfl

/-! ## Global cache -/

theorem retain_entries_same (st : VM) (gc : GlobalCache) (cls : Nat) (name : SYMBOL)
    (mod : Nat) (meth : OBJECT) :
    ((GlobalCache.retain st gc cls name mod meth).entries (GlobalCache.slot cls name)).klass
        = cls ∧
    ((GlobalCache.retain st gc cls name mod meth).entries (GlobalCache.slot cls name)).name
        = name ∧
    ((GlobalCache.retain st gc cls name mod meth).entries (GlobalCache.slot cls name)).module
        = mod := by
  unfold GlobalCache.retain
  simp only [if_true]
  cases st.kind_of_Visibility meth <;> exact ⟨rfl, rfl, rfl⟩

theorem retain_entries_other (st : VM) (gc : GlobalCache) (cls : Nat) (name : SYMBOL)
    (mod : Nat) (meth : OBJECT) (i : Fin CPU_CACHE_SIZE) (h : i ≠ GlobalCache.slot cls name) :
    (GlobalCache.retain st gc cls name mod meth).entries i = gc.entries i := by
  unfold GlobalCache.retain
  simp only [if_neg h]

/-- C8: after `retain(C, s, M, m)`, `lookup(C, s)` returns an entry whose class is `C`,
name is `s` and module is `M`; its method is `m` with `is_public` true when `m` is not
a visibility wrapper, and the wrapper's inner executable with `is_public` equal to
the wrapper's public-ness when `m` is one. -/
theorem retain_lookup_roundtrip (st : VM) (gc : GlobalCache) (cls : Nat) (name : SYMBOL)
    (mod : Nat) (meth : OBJECT) :
    ∃ e, (GlobalCache.retain st gc cls name mod meth).lookup cls name = some e ∧
      e.klass = cls ∧ e.name = name ∧ e.module = mod ∧
      (st.kind_of_Visibility meth = none → e.method = meth ∧ e.is_public = true) ∧
      (∀ vis, st.kind_of_Visibility meth = some vis →
        e.method = vis.method ∧ e.is_public = vis.public_p st) := by
  obtain ⟨h1, h2, h3⟩ := retain_entries_same st gc cls name mod meth
  refine ⟨(GlobalCache.retain st gc cls name mod meth).entries (GlobalCache.slot cls name),
    ?_, h1, h2, h3, ?_, ?_⟩
  · unfold GlobalCache.lookup
    simp only [h1, h2, and_self, if_true]
  · intro hk
    unfold GlobalCache.retain
    simp only [if_true, hk, and_self]
  · intro vis hk
    unfold GlobalCache.retain
    simp only [if_true, hk, true_and]
    cases vis.public_p st <;> rfl

/-- C9 as stated fails: a selector retained earlier for the same class in another
slot is still found after a later `retain` of a different selector. -/
theorem retain_other_selector_counterexample :
    ¬ (∀ (st : VM) (gc : GlobalCache) (cls : Nat) (s s2 : SYMBOL) (mod : Nat) (meth : OBJECT),
        s2 ≠ s → (GlobalCache.retain st gc cls s mod meth).lookup cls s2 = none) := by
  intro h
  have h1 := h (ex_vm ex_cm) (GlobalCache.retain (ex_vm ex_cm) GlobalCache.zero 8 2 16 .Qtrue)
    8 1 2 16 .Qtrue (by decide)
  revert h1
  decide

/-- C9, amended: for selectors `s2 ≠ s`, after `retain(C, s, M, m)` the lookup of
`(C, s2)` is absent when `(C, s2)` hashes to the slot of `(C, s)`, and otherwise
returns exactly what it returned before the `retain`. -/
theorem retain_other_selector (st : VM) (gc : GlobalCache) (cls : Nat) (s s2 : SYMBOL)
    (mod : Nat) (meth : OBJECT) (hne : s2 ≠ s) :
    (GlobalCache.retain st gc cls s mod meth).lookup cls s2 =
      if GlobalCache.slot cls s2 = GlobalCache.slot cls s then none
      else gc.lookup cls s2 := by
  by_cases hs : GlobalCache.slot cls s2 = GlobalCache.slot cls s
  · rw [if_pos hs]
    unfold GlobalCache.lookup
    rw [hs]
    obtain ⟨_, h2, _⟩ := retain_entries_same st gc cls s mod meth
    simp only [h2]
    rw [if_neg]
    intro h
    exact hne h.1.symm
  · rw [if_neg hs]
    unfold GlobalCache.lookup
    rw [retain_entries_other st gc cls s mod meth _ hs]

/-- Selector 4097 shares the slot of selector 1 and is absent after the `retain`;
selector 2 does not and is looked up as before. -/
theorem retain_other_selector_witness :
    ((GlobalCache.retain (ex_vm ex_cm) GlobalCache.zero 8 1 16 .Qtrue).lookup 8 4097 =
      if GlobalCache.slot 8 4097 = GlobalCache.slot 8 1 then none
      else GlobalCache.zero.lookup 8 4097) ∧
    ((GlobalCache.retain (ex_vm ex_cm) GlobalCache.zero 8 1 16 .Qtrue).lookup 8 2 =
      if GlobalCache.slot 8 2 = GlobalCache.slot 8 1 then none
      else GlobalCache.zero.lookup 8 2) ∧
    GlobalCache.slot 8 4097 = GlobalCache.slot 8 1 ∧
    GlobalCache.slot 8 2 ≠ GlobalCache.slot 8 1 :=
  ⟨retain_other_selector (ex_vm ex_cm) GlobalCache.zero 8 1 4097 16 .Qtrue (by decide),
   retain_other_selector (ex_vm ex_cm) GlobalCache.zero 8 1 2 16 .Qtrue (by decide),
   by decide, by decide⟩

/-- C10: `retain(C, s, M, m)` overwrites exactly the entry at index
`((C >> 3) XOR s) AND 0xFFF`, which is below 4096, with a value that does not depend
on what the entry held, and leaves every other entry unchanged; so afterwards any
other key with the same hash is absent on lookup, and any key hashing to a different
slot looks up exactly as before. -/
theorem retain_overwrites_one_slot (st : VM) (gc : GlobalCache) (cls : Nat) (name : SYMBOL)
    (mod : Nat) (meth : OBJECT) :
    (GlobalCache.slot cls name).val = ((cls >>> 3) ^^^ name) &&& 0xFFF ∧
    (GlobalCache.slot cls name).val < 4096 ∧
    (∀ gc2 : GlobalCache,
      (GlobalCache.retain st gc cls name mod meth).entries (GlobalCache.slot cls name) =
      (GlobalCache.retain st gc2 cls name mod meth).entries (GlobalCache.slot cls name)) ∧
    (∀ i : Fin CPU_CACHE_SIZE, i ≠ GlobalCache.slot cls name →
      (GlobalCache.retain st gc cls name mod meth).entries i = gc.entries i) ∧
    (∀ (cls2 : Nat) (name2 : SYMBOL), (cls2, name2) ≠ (cls, name) →
      GlobalCache.slot cls2 name2 = GlobalCache.slot cls name →
      (GlobalCache.retain st gc cls name mod meth).lookup cls2 name2 = none) ∧
    (∀ (cls2 : Nat) (name2 : SYMBOL),
      GlobalCache.slot cls2 name2 ≠ GlobalCache.slot cls name →
      (GlobalCache.retain st gc cls name mod meth).lookup cls2 name2 =
        gc.lookup cls2 name2) := by
  refine ⟨rfl, (GlobalCache.slot cls name).isLt, ?_, ?_, ?_, ?_⟩
  · intro gc2
    unfold GlobalCache.retain
    simp only [if_true]
  · intro i hi
    exact retain_entries_other st gc cls name mod meth i hi
  · intro cls2 name2 hne hs
    unfold GlobalCache.lookup
    rw [hs]
    obtain ⟨h1, h2, _⟩ := retain_entries_same st gc cls name mod meth
    simp only [h1, h2]
    rw [if_neg]
    intro h
    apply hne
    rw [h.1, h.2]
  · intro cls2 name2 hs
    unfold GlobalCache.lookup
    rw [retain_entries_other st gc cls name mod meth _ hs]

/-- An earlier entry for `(8, 4097)` is evicted by `retain(8, 1, ...)`, while the
entry for `(8, 2)` in another slot survives. -/
theorem retain_overwrites_one_slot_witness :
    (GlobalCache.retain (ex_vm ex_cm)
        (GlobalCache.retain (ex_vm ex_cm) GlobalCache.zero 8 4097 16 .Qfalse)
        8 1 16 .Qtrue).lookup 8 4097 = none ∧
    (GlobalCache.retain (ex_vm ex_cm)
        (GlobalCache.retain (ex_vm ex_cm) GlobalCache.zero 8 2 16 .Qfalse)
        8 1 16 .Qtrue).lookup 8 2 =
      (GlobalCache.retain (ex_vm ex_cm) GlobalCache.zero 8 2 16 .Qfalse).lookup 8 2 :=
  ⟨(retain_overwrites_one_slot (ex_vm ex_cm)
      (GlobalCache.retain (ex_vm ex_cm) GlobalCache.zero 8 4097 16 .Qfalse)
      8 1 16 .Qtrue).2.2.2.2.1 8 4097 (by decide) (by decide),
   (retain_overwrites_one_slot (ex_vm ex_cm)
      (GlobalCache.retain (ex_vm ex_cm) GlobalCache.zero 8 2 16 .Qfalse)
      8 1 16 .Qtrue).2.2.2.2.2 8 2 (by decide)⟩

/-! ## Constant lookup -/

theorem module_not_nil {st : VM} {o : OBJECT} {m : Module} (h : st.module o = .ok m) :
    o.nil_p = false := by
  cases o <;> first | rfl | (simp [VM.module, VM.deref] at h)

theorem static_scope_not_nil {st : VM} {o : OBJECT} {s : StaticScope}
    (h : st.static_scope o = .ok s) : o.nil_p = false := by
  cases o <;> first | rfl | (simp [VM.static_scope, VM.deref] at h)

theorem nil_p_qnil : OBJECT.nil_p .Qnil = true := rfl

theorem get_const_of_module {st : VM} {o : OBJECT} {m : Module} (name : SYMBOL)
    (h : st.module o = .ok m) :
    Module.get_const st o name = .ok (spec_found (m.constants.lookup name)) := by
  unfold Module.get_const
  rw [h]
  simp only [bind, Except.bind]
  cases hl : m.constants.lookup name <;> simp [spec_found, pure, Except.pure]

theorem const_get_succ (fuel : Nat) (st : VM) (mod : OBJECT) (name : SYMBOL) (m : Module)
    (h : st.module mod = .ok m) :
    Task.const_get (fuel + 1) st mod name =
      match m.constants.lookup name with
      | some v => .ok (v, true)
      | none =>
        if mod = st.object then .ok (.Qnil, false)
        else Task.const_get fuel st m.superclass name := by
  rw [Task.const_get.eq_def]
  simp only [module_not_nil h, Bool.false_eq_true, if_false]
  rw [get_const_of_module name h]
  cases m.constants.lookup name with
  | some v => rfl
  | none =>
    by_cases ho : mod = st.object
    · simp [spec_found, bind, Except.bind, pure, Except.pure, ho]
    · simp [spec_found, bind, Except.bind, pure, Except.pure, ho, h]

theorem const_get_nil (fuel : Nat) (st : VM) (name : SYMBOL) :
    Task.const_get fuel st .Qnil name = .ok (.Qnil, false) := by
  rw [Task.const_get.eq_def]
  simp [nil_p_qnil]

/-- The module overload of `const_get` follows the specification's order: with enough
fuel for the chain it returns the first binding on the chain cut after object-root. -/
theorem const_get_spec (st : VM) (name : SYMBOL) :
    ∀ (ms : List (OBJECT × Module)) (mod : OBJECT) (fuel : Nat),
      SuperclassChain st mod ms → ms.length ≤ fuel →
      Task.const_get fuel st mod name =
        .ok (spec_found (spec_first_binding name (spec_until_object st.object ms))) := by
  intro ms
  induction ms with
  | nil =>
    intro mod fuel h _
    simp only [SuperclassChain] at h
    subst h
    rw [const_get_nil]
    rfl
  | cons p rest ih =>
    intro mod fuel h hf
    obtain ⟨o, m⟩ := p
    simp only [SuperclassChain] at h
    obtain ⟨rfl, hm, hrest⟩ := h
    simp only [List.length_cons] at hf
    obtain ⟨f, rfl⟩ : ∃ f, fuel = f + 1 := ⟨fuel - 1, by omega⟩
    rw [const_get_succ f st o name m hm]
    simp only [spec_until_object]
    by_cases ho : o = st.object
    · simp only [ho, if_true, spec_first_binding]
      cases m.constants.lookup name <;> rfl
    · simp only [ho, if_false, spec_first_binding]
      cases m.constants.lookup name with
      | some v => rfl
      | none => exact ih m.superclass f hrest (by omega)

theorem const_get_lexical_nil (fuel : Nat) (st : VM) (name : SYMBOL) :
    Task.const_get_lexical fuel st .Qnil name = .ok none := by
  rw [Task.const_get_lexical.eq_def]
  simp [nil_p_qnil]

theorem const_get_lexical_succ (fuel : Nat) (st : VM) (cur : OBJECT) (name : SYMBOL)
    (s : StaticScope) (m : Module)
    (hs : st.static_scope cur = .ok s) (hm : st.module s.module = .ok m) :
    Task.const_get_lexical (fuel + 1) st cur name =
      match m.constants.lookup name with
      | some v => .ok (some v)
      | none =>
        if s.module = st.object then .ok none
        else Task.const_get_lexical fuel st s.parent name := by
  rw [Task.const_get_lexical.eq_def]
  simp only [static_scope_not_nil hs, Bool.false_eq_true, if_false]
  rw [hs]
  simp only [bind, Except.bind]
  rw [get_const_of_module name hm]
  cases m.constants.lookup name with
  | some v => rfl
  | none =>
    by_cases ho : s.module = st.object
    · simp [spec_found, pure, Except.pure, ho]
    · simp [spec_found, pure, Except.pure, ho]

theorem const_get_superclasses_succ (fuel : Nat) (st : VM) (mod : OBJECT) (name : SYMBOL)
    (m : Module) (h : st.module mod = .ok m) :
    Task.const_get_superclasses (fuel + 1) st mod name =
      match m.constants.lookup name with
      | some v => .ok (some v)
      | none => Task.const_get_superclasses fuel st m.superclass name := by
  rw [Task.const_get_superclasses.eq_def]
  simp only [module_not_nil h, Bool.false_eq_true, if_false]
  rw [get_const_of_module name h]
  cases m.constants.lookup name with
  | some v => rfl
  | none => simp [spec_found, bind, Except.bind, pure, Except.pure, h]

/-- The lexical walk returns the first binding on the lexical chain cut after
object-root. -/
theorem const_get_lexical_spec (st : VM) (name : SYMBOL) :
    ∀ (lex : List (OBJECT × Module)) (cur : OBJECT) (fuel : Nat),
      LexicalChain st cur lex → lex.length ≤ fuel →
      Task.const_get_lexical fuel st cur name =
        .ok (spec_first_binding name (spec_until_object st.object lex)) := by
  intro lex
  induction lex with
  | nil =>
    intro cur fuel h _
    simp only [LexicalChain] at h
    subst h
    rw [const_get_lexical_nil]
    rfl
  | cons p rest ih =>
    intro cur fuel h hf
    obtain ⟨o, m⟩ := p
    simp only [LexicalChain] at h
    obtain ⟨s, hs, rfl, hm, hrest⟩ := h
    simp only [List.length_cons] at hf
    obtain ⟨f, rfl⟩ : ∃ f, fuel = f + 1 := ⟨fuel - 1, by omega⟩
    rw [const_get_lexical_succ f st cur name s m hs hm]
    simp only [spec_until_object]
    by_cases ho : s.module = st.object
    · simp only [ho, if_true, spec_first_binding]
      cases m.constants.lookup name <;> rfl
    · simp only [ho, if_false, spec_first_binding]
      cases m.constants.lookup name with
      | some v => rfl
      | none => exact ih s.parent f hrest (by omega)

/-- C11: for a module with a finite superclass chain, `const_get(mod, name)` (with fuel
for the chain) returns the value bound in the first module, in the order `mod`,
`mod.superclass`, ..., that binds `name`, with `found = true`, consulting no module
beyond object-root; if no module of that cut chain binds `name` it returns
`(nil, found = false)`. -/
theorem const_get_first_binding (st : VM) (mod : OBJECT) (name : SYMBOL)
    (ms : List (OBJECT × Module)) (fuel : Nat)
    (hchain : SuperclassChain st mod ms) (hfuel : ms.length ≤ fuel) :
    Task.const_get fuel st mod name =
      .ok (spec_found (spec_first_binding name (spec_until_object st.object ms))) :=
  const_get_spec st name ms mod fuel hchain hfuel

/-- `Age` is found in `Object` from the class of `true`, as in
`test_const_get_from_in_superclass`. -/
theorem const_get_first_binding_witness :
    SuperclassChain (ex_world (.Ref 6)) (.Ref 14)
      [(.Ref 14, ex_TrueClass), (.Ref 0, ex_Object)] ∧
    Task.const_get 2 (ex_world (.Ref 6)) (.Ref 14) 13 = .ok (.Fixnum 28, true) :=
  ⟨⟨rfl, rfl, rfl, rfl, rfl⟩,
   const_get_first_binding (ex_world (.Ref 6)) (.Ref 14) 13
     [(.Ref 14, ex_TrueClass), (.Ref 0, ex_Object)] 2 ⟨rfl, rfl, rfl, rfl, rfl⟩ (by decide)⟩

theorem first_binding_until_object_append (object : OBJECT) (name : SYMBOL)
    (o : OBJECT) (m : Module) (v : OBJECT) (post : List (OBJECT × Module))
    (hbound : m.constants.lookup name = some v) :
    ∀ pre : List (OBJECT × Module),
      (∀ p ∈ pre, p.2.constants.lookup name = none ∧ p.1 ≠ object) →
      spec_first_binding name (spec_until_object object (pre ++ (o, m) :: post)) = some v := by
  intro pre
  induction pre with
  | nil =>
    intro _
    simp only [List.nil_append, spec_until_object]
    by_cases ho : o = object
    · simp [ho, spec_first_binding, hbound]
    · simp [ho, spec_first_binding, hbound]
  | cons p rest ih =>
    intro h
    obtain ⟨po, pm⟩ := p
    have hp := h (po, pm) (List.mem_cons_self _ _)
    simp only at hp
    simp only [List.cons_append, spec_until_object, hp.2, if_false, spec_first_binding, hp.1]
    exact ih (fun q hq => h q (List.mem_cons_of_mem _ hq))

/-- C12 as stated fails: with the scope of `Child` nested in a scope of `Object` nested
in the scope of `Parent`, `Number` is bound in the outer lexical module `Parent` (to 3)
and in `Included`, the superclass of the innermost lexical module `Child` (to 99); the
lexical walk stops at object-root before `Parent`, and the superclass's binding is
returned. -/
theorem const_get_scoped_lexical_counterexample :
    Task.current_scope (ex_world (.Ref 12)) ex_world_task = .ok (.Ref 12) ∧
    LexicalChain (ex_world (.Ref 12)) (.Ref 12)
      [(.Ref 2, ex_Child), (.Ref 0, ex_Object), (.Ref 1, ex_Parent)] ∧
    ex_Parent.constants.lookup 11 = some (.Fixnum 3) ∧
    SuperclassChain (ex_world (.Ref 12)) (.Ref 2)
      [(.Ref 2, ex_Child), (.Ref 3, ex_Included)] ∧
    ex_Included.constants.lookup 11 = some (.Fixnum 99) ∧
    Task.const_get_scoped 3 (ex_world (.Ref 12)) ex_world_task 11 =
      .ok (.Fixnum 99, true) :=
  ⟨rfl, ⟨_, rfl, rfl, rfl, _, rfl, rfl, rfl, _, rfl, rfl, rfl, rfl⟩, rfl,
   ⟨rfl, rfl, rfl, rfl, rfl⟩, rfl, rfl⟩

/-- C12, amended: when `name` is bound in a lexical module of the active method's
scope chain and no scope inside that module's scope binds `name` or belongs to
object-root (where the lexical walk stops), the contextual `const_get(name)` returns
that lexical module's binding with `found = true`, whatever the superclasses of the
innermost lexical module bind. -/
theorem const_get_scoped_lexical_precedence (st : VM) (task : Task) (name : SYMBOL)
    (scope : OBJECT) (pre post : List (OBJECT × Module)) (o : OBJECT) (m : Module)
    (v : OBJECT) (fuel : Nat)
    (hscope : Task.current_scope st task = .ok scope)
    (hlex : LexicalChain st scope (pre ++ (o, m) :: post))
    (hpre : ∀ p ∈ pre, p.2.constants.lookup name = none ∧ p.1 ≠ st.object)
    (hbound : m.constants.lookup name = some v)
    (hfuel : (pre ++ (o, m) :: post).length ≤ fuel) :
    Task.const_get_scoped fuel st task name = .ok (v, true) := by
  unfold Task.const_get_scoped
  rw [hscope]
  simp only [bind, Except.bind]
  rw [const_get_lexical_spec st name _ scope fuel hlex hfuel,
    first_binding_until_object_append st.object name o m v post hbound pre hpre]
  rfl

/-- Scenario S6 with a competing superclass: in the scope of `Child` inside `Parent`,
`Number` is 3 from `Parent`, not 99 from `Included`. -/
theorem const_get_scoped_lexical_precedence_witness :
    LexicalChain (ex_world (.Ref 6)) (.Ref 6)
      ([(.Ref 2, ex_Child)] ++ (.Ref 1, ex_Parent) :: []) ∧
    spec_first_binding 11 [(.Ref 2, ex_Child), (.Ref 3, ex_Included)] = some (.Fixnum 99) ∧
    Task.const_get_scoped 2 (ex_world (.Ref 6)) ex_world_task 11 = .ok (.Fixnum 3, true) :=
  ⟨⟨_, rfl, rfl, rfl, _, rfl, rfl, rfl, rfl⟩, rfl,
   const_get_scoped_lexical_precedence (ex_world (.Ref 6)) ex_world_task 11 (.Ref 6)
     [(.Ref 2, ex_Child)] [] (.Ref 1) ex_Parent (.Fixnum 3) 2 rfl
     ⟨_, rfl, rfl, rfl, _, rfl, rfl, rfl, rfl⟩
     (by
       intro p hp
       simp only [List.mem_singleton] at hp
       subst hp
       exact ⟨rfl, by decide⟩)
     rfl (by decide)⟩

theorem module_of_class {st : VM} {o : OBJECT} {m : Module}
    (h : st.deref o = some (.Class m)) : st.module o = .ok m := by
  simp [VM.module, h]

theorem module_of_module {st : VM} {o : OBJECT} {m : Module}
    (h : st.deref o = some (.Module m)) : st.module o = .ok m := by
  simp [VM.module, h]

theorem module_inv {st : VM} {o : OBJECT} {m : Module} (h : st.module o = .ok m) :
    st.deref o = some (.Module m) ∨ st.deref o = some (.Class m) := by
  unfold VM.module at h
  split at h
  · rename_i m2 heq; cases h; exact Or.inl heq
  · rename_i m2 heq; cases h; exact Or.inr heq
  · cases h

theorem as_Class_inv {st : VM} {o : OBJECT} {m : Module} (h : st.as_Class o = .ok m) :
    st.deref o = some (.Class m) := by
  unfold VM.as_Class at h
  split at h
  · rename_i m2 heq; cases h; exact heq
  · cases h

theorem as_Class_eq {st : VM} {o : OBJECT} {m : Module} (h : st.deref o = some (.Class m)) :
    st.as_Class o = .ok m := by
  simp [VM.as_Class, h]

/-- A write through a `Module*` changes the fields of that one object, which stays a
module or a class, and nothing else. -/
theorem update_module_spec {st st1 : VM} {o : OBJECT} {f : Module → Module}
    (h : st.update_module o f = .ok st1) :
    ∃ m, st.module o = .ok m ∧ st1.module o = .ok (f m) ∧
      (∀ o2, o2 ≠ o → st1.deref o2 = st.deref o2) ∧
      st1.object = st.object ∧ st1.heap.length = st.heap.length ∧
      (∀ c, st.deref o = some (.Class c) → st1.deref o = some (.Class (f c))) ∧
      (∀ c, st.deref o = some (.Module c) → st1.deref o = some (.Module (f c))) := by
  unfold VM.update_module at h
  split at h
  · rename_i m heq
    cases h
    refine ⟨m, module_of_module heq, module_of_module (deref_store_same heq), ?_,
      store_object _ _ _, store_length _ _ _, ?_, ?_⟩
    · intro o2 hne
      rw [deref_store _ _ _ _ _ heq, if_neg hne]
    · intro c hc; rw [heq] at hc; cases hc
    · intro c hc; rw [heq] at hc; cases hc; exact deref_store_same heq
  · rename_i m heq
    cases h
    refine ⟨m, module_of_class heq, module_of_class (deref_store_same heq), ?_,
      store_object _ _ _, store_length _ _ _, ?_, ?_⟩
    · intro o2 hne
      rw [deref_store _ _ _ _ _ heq, if_neg hne]
    · intro c hc; rw [heq] at hc; cases hc; exact deref_store_same heq
    · intro c hc; rw [heq] at hc; cases hc
  · cases h

theorem lookup_cons_self (name : SYMBOL) (val : OBJECT) (l : List (SYMBOL × OBJECT)) :
    List.lookup name ((name, val) :: l) = some val := by
  simp [List.lookup]

theorem lookup_cons_ne (name n : SYMBOL) (val : OBJECT) (l : List (SYMBOL × OBJECT))
    (h : n ≠ name) : List.lookup n ((name, val) :: l) = List.lookup n l := by
  have : (n == name) = false := by simpa using h
  simp [List.lookup, this]

/-- What `set_const` leaves: the name is bound in the module, the module's other names
and every other object are as before. -/
theorem set_const_spec {st st1 : VM} {mod : OBJECT} {name : SYMBOL} {val : OBJECT}
    (h : Module.set_const st mod name val = .ok st1) :
    ∃ m, st.module mod = .ok m ∧
      st1.module mod = .ok { m with constants := (name, val) :: m.constants } ∧
      Module.get_const st1 mod name = .ok (val, true) ∧
      (∀ n, n ≠ name → Module.get_const st1 mod n = Module.get_const st mod n) ∧
      (∀ o, o ≠ mod → st1.deref o = st.deref o) ∧
      st1.object = st.object ∧
      (∀ c, st.deref mod = some (.Class c) →
        st1.deref mod = some (.Class { c with constants := (name, val) :: c.constants })) := by
  unfold Module.set_const at h
  obtain ⟨m, hm, hm1, hfr, hobj, _, hcls, _⟩ := update_module_spec h
  refine ⟨m, hm, hm1, ?_, ?_, hfr, hobj, hcls⟩
  · rw [get_const_of_module name hm1]
    simp only [lookup_cons_self]
    rfl
  · intro n hn
    rw [get_const_of_module n hm1, get_const_of_module n hm]
    simp only [lookup_cons_ne name n val m.constants hn]

/-- What a successful `add_class` leaves: a fresh class with the superclass and the name
the source gives it, bound to `name` under `under`; every other object is as before. -/
theorem add_class_spec {syms : SymbolTable} {st st1 : VM} {under super cls : OBJECT}
    {name : SYMBOL}
    (h : add_class syms st under super name = .ok (st1, cls)) :
    cls = .Ref st.heap.length ∧
    (∃ sc, st.deref (if super.nil_p then st.object else super) = some (.Class sc)) ∧
    (∃ c, st1.deref cls = some (.Class c) ∧
      c.superclass = (if super.nil_p then st.object else super) ∧
      (under = st.object → c.name = .Symbol name) ∧
      (under ≠ st.object → ∃ u cur, st.module under = .ok u ∧ u.name = .Symbol cur ∧
        c.name = .Symbol (syms.symbol (syms.to_str cur ++ "::" ++ syms.to_str name)))) ∧
    Module.get_const st1 under name = .ok (cls, true) ∧
    (∀ o y, st.deref o = some y → o ≠ under → st1.deref o = some y) ∧
    st1.object = st.object := by
  unfold add_class at h
  simp only [Class.create, alloc_snd] at h
  rw [Except.bind_eq_ok] at h
  obtain ⟨sc, hcast, h⟩ := h
  have hc0 := (deref_alloc st (.Class
    { name := .Qnil, superclass := (if super.nil_p then st.object else super),
      constants := [], method_table := [] }) (.Ref st.heap.length)).trans (if_pos rfl)
  have hold : ∀ o y, st.deref o = some y →
      (st.alloc (.Class
        { name := .Qnil, superclass := (if super.nil_p then st.object else super),
          constants := [], method_table := [] })).1.deref o = some y := by
    intro o y hy
    obtain ⟨a, rfl, halt, _⟩ := deref_some_ref hy
    rw [deref_alloc, if_neg (by intro he; have := OBJECT.Ref.inj he; omega)]
    exact hy
  -- the binding step, common to both ways of naming
  have htail : ∀ st2 st3 : VM,
      (∃ c2, st2.deref (.Ref st.heap.length) = some (.Class c2) ∧
        c2.superclass = (if super.nil_p then st.object else super) ∧
        (under = st.object → c2.name = .Symbol name) ∧
        (under ≠ st.object → ∃ u cur, st.module under = .ok u ∧ u.name = .Symbol cur ∧
          c2.name = .Symbol (syms.symbol (syms.to_str cur ++ "::" ++ syms.to_str name))) ∧
        (∀ o y, st.deref o = some y → st2.deref o = some y) ∧
        st2.object = st.object) →
      Module.set_const st2 under name (.Ref st.heap.length) = .ok st3 →
      (∃ c, st3.deref (.Ref st.heap.length) = some (.Class c) ∧
        c.superclass = (if super.nil_p then st.object else super) ∧
        (under = st.object → c.name = .Symbol name) ∧
        (under ≠ st.object → ∃ u cur, st.module under = .ok u ∧ u.name = .Symbol cur ∧
          c.name = .Symbol (syms.symbol (syms.to_str cur ++ "::" ++ syms.to_str name)))) ∧
      Module.get_const st3 under name = .ok (.Ref st.heap.length, true) ∧
      (∀ o y, st.deref o = some y → o ≠ under → st3.deref o = some y) ∧
      st3.object = st.object := by
    intro st2 st3 hnamed hset
    obtain ⟨c2, hc2, hsup, hn1, hn2, hfr2, hobj2⟩ := hnamed
    obtain ⟨m, _, _, hget, _, hfr3, hobj3, hcls3⟩ := set_const_spec hset
    refine ⟨?_, hget, ?_, ?_⟩
    · by_cases he : (OBJECT.Ref st.heap.length) = under
      · rw [← he] at hcls3
        exact ⟨_, hcls3 _ hc2, hsup, hn1, hn2⟩
      · rw [← hfr3 _ he] at hc2
        exact ⟨c2, hc2, hsup, hn1, hn2⟩
    · intro o y hy hne
      rw [hfr3 _ hne]
      exact hfr2 _ _ hy
    · rw [hobj3, hobj2]
  by_cases hu : under = st.object
  · rw [if_pos hu] at h
    rw [Except.bind_eq_ok] at h
    obtain ⟨st2, hname, h⟩ := h
    rw [Except.bind_eq_ok] at h
    obtain ⟨st3, hset, h⟩ := h
    simp only [pure, Except.pure, Except.ok.injEq, Prod.mk.injEq] at h
    obtain ⟨rfl, rfl⟩ := h
    obtain ⟨m, _, _, hfr, hobj, _, hcls, _⟩ := update_module_spec hname
    have hnamed := htail st2 st3
      ⟨_, hcls _ hc0, rfl, fun _ => rfl, fun hne => absurd hu hne,
        (by
          intro o y hy
          obtain ⟨a, rfl, halt, _⟩ := deref_some_ref hy
          rw [hfr _ (by intro he; have := OBJECT.Ref.inj he; omega)]
          exact hold _ _ hy),
        (by rw [hobj]; rfl)⟩ hset
    exact ⟨rfl, ⟨sc, as_Class_inv hcast⟩, hnamed⟩
  · rw [if_neg hu] at h
    rw [Except.bind_eq_ok] at h
    obtain ⟨st2, hname, h⟩ := h
    rw [Except.bind_eq_ok] at h
    obtain ⟨st3, hset, h⟩ := h
    simp only [pure, Except.pure, Except.ok.injEq, Prod.mk.injEq] at h
    obtain ⟨rfl, rfl⟩ := h
    unfold Module.set_name at hname
    rw [Except.bind_eq_ok] at hname
    obtain ⟨u, hmu, hname⟩ := hname
    cases hun : u.name with
    | Symbol cur =>
      rw [hun] at hname
      simp only at hname
      obtain ⟨m, _, _, hfr, hobj, _, hcls, _⟩ := update_module_spec hname
      have hune : under ≠ .Ref st.heap.length := by
        intro he
        rw [he] at hmu
        rw [module_of_class hc0] at hmu
        cases hmu
        cases hun
      have hmu2 : st.module under = .ok u := by
        unfold VM.module at hmu ⊢
        rw [deref_alloc, if_neg hune] at hmu
        exact hmu
      have hnamed := htail st2 st3
        ⟨_, hcls _ hc0, rfl, fun he => absurd he hu, fun _ => ⟨u, cur, hmu2, hun, rfl⟩,
          (by
            intro o y hy
            obtain ⟨a, rfl, halt, _⟩ := deref_some_ref hy
            rw [hfr _ (by intro he; have := OBJECT.Ref.inj he; omega)]
            exact hold _ _ hy),
          (by rw [hobj]; rfl)⟩ hset
      exact ⟨rfl, ⟨sc, as_Class_inv hcast⟩, hnamed⟩
    | Qnil => rw [hun] at hname; cases hname
    | Qtrue => rw [hun] at hname; cases hname
    | Qfalse => rw [hun] at hname; cases hname
    | Fixnum n => rw [hun] at hname; cases hname
    | Ref a => rw [hun] at hname; cases hname

theorem open_class_found {syms : SymbolTable} {fuel : Nat} {st : VM} {under super obj : OBJECT}
    {name : SYMBOL} (hfound : Task.const_get fuel st under name = .ok (obj, true)) :
    Task.open_class syms fuel st under super name =
      match st.deref obj with
      | some (.Class c) =>
        if super.nil_p then .ok (st, obj, false)
        else if c.superclass ≠ super then .error (.TypeError "superclass mismatch")
        else .ok (st, obj, false)
      | _ => .error (.TypeError "Class") := by
  unfold Task.open_class
  rw [hfound]
  simp only [bind, Except.bind, if_true]
  cases hd : st.deref obj with
  | none => simp [VM.as_Class, hd]
  | some x =>
    cases x with
    | Class c =>
      simp only [VM.as_Class, hd, check_superclass]
      by_cases hs : super.nil_p = true
      · simp [hs, pure, Except.pure]
      · simp only [hs, Bool.false_eq_true, if_false, module_of_class hd, bind, Except.bind]
        by_cases hne : c.superclass = super
        · simp [hne, pure, Except.pure]
        · simp [hne]
    | _ => simp [VM.as_Class, hd]

theorem open_class_missing {syms : SymbolTable} {fuel : Nat} {st : VM}
    {under super obj : OBJECT} {name : SYMBOL}
    (hmiss : Task.const_get fuel st under name = .ok (obj, false)) :
    Task.open_class syms fuel st under super name =
      (add_class syms st under super name >>= fun r => pure (r.1, r.2, true)) := by
  unfold Task.open_class
  rw [hmiss]
  simp only [bind, Except.bind, Bool.false_eq_true, if_false]

/-- C15: when `name` is already bound as a constant reachable from `under`,
`open_class(under, super, name)` fails with a TypeError if and only if the bound value
is not a class, or `super` is given (non-nil) and differs from the class's current
superclass; in the superclass case the message is "superclass mismatch", and in every
other case the bound class is returned with `created = false` and the state is left
as it was. -/
theorem open_class_type_error (syms : SymbolTable) (fuel : Nat) (st : VM)
    (under super obj : OBJECT) (name : SYMBOL)
    (hfound : Task.const_get fuel st under name = .ok (obj, true)) :
    ((∃ msg, Task.open_class syms fuel st under super name = .error (.TypeError msg)) ↔
      ((∀ c, st.deref obj ≠ some (.Class c)) ∨
        (super.nil_p = false ∧
          ∃ c, st.deref obj = some (.Class c) ∧ c.superclass ≠ super))) ∧
    (∀ c, st.deref obj = some (.Class c) → super.nil_p = false → c.superclass ≠ super →
      Task.open_class syms fuel st under super name =
        .error (.TypeError "superclass mismatch")) ∧
    (∀ c, st.deref obj = some (.Class c) → (super.nil_p = true ∨ c.superclass = super) →
      Task.open_class syms fuel st under super name = .ok (st, obj, false)) := by
  have heq := @open_class_found syms fuel st under super obj name hfound
  have hmis : ∀ c, st.deref obj = some (.Class c) → super.nil_p = false →
      c.superclass ≠ super →
      Task.open_class syms fuel st under super name =
        .error (.TypeError "superclass mismatch") := by
    intro c hc hs hne
    rw [heq, hc]
    simp [hs, hne]
  have hok : ∀ c, st.deref obj = some (.Class c) →
      (super.nil_p = true ∨ c.superclass = super) →
      Task.open_class syms fuel st under super name = .ok (st, obj, false) := by
    intro c hc hs
    rw [heq, hc]
    rcases hs with hs | hs
    · simp [hs]
    · by_cases hn : super.nil_p = true
      · simp [hn]
      · simp [hn, hs]
  refine ⟨⟨?_, ?_⟩, hmis, hok⟩
  · rintro ⟨msg, hmsg⟩
    by_cases hcls : ∃ c, st.deref obj = some (.Class c)
    · obtain ⟨c, hc⟩ := hcls
      right
      by_cases hs : super.nil_p = true
      · rw [hok c hc (Or.inl hs)] at hmsg
        cases hmsg
      · by_cases hne : c.superclass = super
        · rw [hok c hc (Or.inr hne)] at hmsg
          cases hmsg
        · exact ⟨by simpa using hs, c, hc, hne⟩
    · left
      intro c hc
      exact hcls ⟨c, hc⟩
  · rintro (hnc | ⟨hs, c, hc, hne⟩)
    · refine ⟨"Class", ?_⟩
      rw [heq]
      split
      · rename_i c hc
        exact absurd hc (hnc c)
      · rfl
    · exact ⟨_, hmis c hc hs hne⟩

/-- Scenario S5: `Person` exists under `Parent`, inheriting from `Object`; re-opening it
with the class of `true` as superclass is a superclass mismatch. -/
theorem open_class_type_error_witness :
    Task.const_get 1 (ex_world (.Ref 6)) (.Ref 1) 14 = .ok (.Ref 13, true) ∧
    Task.open_class ex_syms 1 (ex_world (.Ref 6)) (.Ref 1) (.Ref 14) 14 =
      .error (.TypeError "superclass mismatch") ∧
    Task.open_class ex_syms 1 (ex_world (.Ref 6)) (.Ref 1) (.Ref 0) 14 =
      .ok (ex_world (.Ref 6), .Ref 13, false) :=
  ⟨rfl,
   (open_class_type_error ex_syms 1 (ex_world (.Ref 6)) (.Ref 1) (.Ref 14) (.Ref 13) 14
      rfl).2.1 ex_Person rfl rfl (by decide),
   (open_class_type_error ex_syms 1 (ex_world (.Ref 6)) (.Ref 1) (.Ref 0) (.Ref 13) 14
      rfl).2.2 ex_Person rfl (Or.inr rfl)⟩

/-- C16: when `const_get(under, name)` does not find `name`, a successful
`open_class(under, super, name)` returns a newly created class with `created = true`
whose superclass is `super` (object-root when `super` is nil), whose name is the bare
symbol when `under` is object-root and `under.name + "::" + symbol` otherwise, and
which is bound to `name` in `under`'s constant table. -/
theorem open_class_creates (syms : SymbolTable) (fuel : Nat) (st st1 : VM)
    (under super obj cls : OBJECT) (name : SYMBOL) (created : Bool)
    (hmiss : Task.const_get fuel st under name = .ok (obj, false))
    (hopen : Task.open_class syms fuel st under super name = .ok (st1, cls, created)) :
    created = true ∧ st.deref cls = none ∧
    (∃ c, st1.deref cls = some (.Class c) ∧
      c.superclass = (if super.nil_p then st.object else super) ∧
      (under = st.object → c.name = .Symbol name) ∧
      (under ≠ st.object → ∃ u cur, st.module under = .ok u ∧ u.name = .Symbol cur ∧
        c.name = .Symbol (syms.symbol (syms.to_str cur ++ "::" ++ syms.to_str name)))) ∧
    Module.get_const st1 under name = .ok (cls, true) := by
  rw [open_class_missing hmiss, Except.bind_eq_ok] at hopen
  obtain ⟨⟨st2, cls2⟩, hadd, hopen⟩ := hopen
  simp only [pure, Except.pure, Except.ok.injEq, Prod.mk.injEq] at hopen
  obtain ⟨rfl, rfl, rfl⟩ := hopen
  obtain ⟨hcls, _, hc, hget, _, _⟩ := add_class_spec hadd
  refine ⟨rfl, ?_, hc, hget⟩
  rw [hcls]
  exact deref_fresh st _ (Nat.le_refl _)

/-- The scenarios of `test_open_class_under_specific_module` and `test_open_class`:
`Animal` opened under `Object` is named `Animal`, and under `Parent` it is named
`Parent::Animal`. -/
theorem open_class_creates_witness :
    (∃ st1, Task.open_class ex_syms 1 (ex_world (.Ref 5)) (.Ref 0) .Qnil 21 =
        .ok (st1, .Ref 16, true) ∧
      (∃ c, st1.deref (.Ref 16) = some (.Class c) ∧ c.superclass = .Ref 0 ∧
        c.name = .Symbol (ex_syms.symbol "Animal")) ∧
      Module.get_const st1 (.Ref 0) 21 = .ok (.Ref 16, true)) ∧
    (∃ st1, Task.open_class ex_syms 1 (ex_world (.Ref 5)) (.Ref 1) .Qnil 21 =
        .ok (st1, .Ref 16, true) ∧
      (∃ c, st1.deref (.Ref 16) = some (.Class c) ∧ c.superclass = .Ref 0 ∧
        c.name = .Symbol (ex_syms.symbol "Parent::Animal")) ∧
      Module.get_const st1 (.Ref 1) 21 = .ok (.Ref 16, true)) :=
  ⟨⟨_, rfl,
     match open_class_creates ex_syms 1 (ex_world (.Ref 5)) _ (.Ref 0) .Qnil .Qnil (.Ref 16)
       21 true rfl rfl with
     | ⟨_, _, ⟨c, h1, h2, h3, _⟩, h5⟩ => ⟨⟨c, h1, h2, h3 rfl⟩, h5⟩⟩,
   ⟨_, rfl,
     match open_class_creates ex_syms 1 (ex_world (.Ref 5)) _ (.Ref 1) .Qnil .Qnil (.Ref 16)
       21 true rfl rfl with
     | ⟨_, _, ⟨c, h1, h2, _, h4⟩, h5⟩ =>
       ⟨⟨c, h1, h2,
          match h4 (by decide) with
          | ⟨u, cur, hu, hcur, hname⟩ => by
            cases hu
            cases hcur
            exact hname⟩, h5⟩⟩⟩

theorem update_module_total {st : VM} {o : OBJECT} {m : Module} (f : Module → Module)
    (h : st.module o = .ok m) : ∃ st1, st.update_module o f = .ok st1 := by
  rcases module_inv h with hd | hd
  · exact ⟨st.store o (.Module (f m)), by simp [VM.update_module, hd]⟩
  · exact ⟨st.store o (.Class (f m)), by simp [VM.update_module, hd]⟩

/-- The creating branch of `open_class` does return: when `name` is not found, `super` is
nil or a class, and `under` is object-root or a module named by a symbol,
`open_class(under, super, name)` succeeds with a class at a fresh address and
`created = true`. -/
theorem open_class_creates_total (syms : SymbolTable) (fuel : Nat) (st : VM)
    (under super obj : OBJECT) (name : SYMBOL) (sc u : Module)
    (hmiss : Task.const_get fuel st under name = .ok (obj, false))
    (hsuper : st.deref (if super.nil_p then st.object else super) = some (.Class sc))
    (hunder : st.module under = .ok u)
    (hname : under = st.object ∨ ∃ cur, u.name = .Symbol cur) :
    ∃ st1, Task.open_class syms fuel st under super name =
      .ok (st1, .Ref st.heap.length, true) := by
  rw [open_class_missing hmiss]
  unfold add_class
  simp only [Class.create, alloc_snd, as_Class_eq hsuper, bind, Except.bind]
  have hc0 := (deref_alloc st (.Class
    { name := .Qnil, superclass := (if super.nil_p then st.object else super),
      constants := [], method_table := [] }) (.Ref st.heap.length)).trans (if_pos rfl)
  obtain ⟨a, ha, halt⟩ : ∃ a, under = .Ref a ∧ a < st.heap.length := by
    rcases module_inv hunder with hd | hd
    · obtain ⟨a, ha, halt, _⟩ := deref_some_ref hd
      exact ⟨a, ha, halt⟩
    · obtain ⟨a, ha, halt, _⟩ := deref_some_ref hd
      exact ⟨a, ha, halt⟩
  have hune : under ≠ .Ref st.heap.length := by
    rw [ha]; intro he; have := OBJECT.Ref.inj he; omega
  have hu1 : (st.alloc (.Class
      { name := .Qnil, superclass := (if super.nil_p then st.object else super),
        constants := [], method_table := [] })).1.module under = .ok u := by
    unfold VM.module at hunder ⊢
    rw [deref_alloc, if_neg hune]
    exact hunder
  -- whichever way the class is named, `under` is still a module afterwards
  have hbind : ∀ st2 : VM, (∀ o2, o2 ≠ .Ref st.heap.length →
        st2.deref o2 = (st.alloc (.Class
          { name := .Qnil, superclass := (if super.nil_p then st.object else super),
            constants := [], method_table := [] })).1.deref o2) →
      ∃ st3, Module.set_const st2 under name (.Ref st.heap.length) = .ok st3 := by
    intro st2 hfr
    have : st2.module under = .ok u := by
      unfold VM.module at hu1 ⊢
      rw [hfr _ hune]
      exact hu1
    exact update_module_total _ this
  by_cases hu : under = st.object
  · rw [if_pos hu]
    obtain ⟨st2, hst2⟩ := update_module_total
      (fun m => { m with name := OBJECT.Symbol name }) (module_of_class hc0)
    obtain ⟨_, _, _, hfr, _⟩ := update_module_spec hst2
    obtain ⟨st3, hst3⟩ := hbind st2 hfr
    exact ⟨st3, by rw [hst2]; simp only [hst3]; rfl⟩
  · rw [if_neg hu]
    obtain ⟨cur, hcur⟩ := hname.resolve_left hu
    unfold Module.set_name
    simp only [hu1, hcur, bind, Except.bind]
    obtain ⟨st2, hst2⟩ := update_module_total
      (fun m =>
        { m with
          name := OBJECT.Symbol (syms.symbol (syms.to_str cur ++ "::" ++ syms.to_str name)) })
      (module_of_class hc0)
    obtain ⟨_, _, _, hfr, _⟩ := update_module_spec hst2
    obtain ⟨st3, hst3⟩ := hbind st2 hfr
    exact ⟨st3, by rw [hst2]; simp only [hst3]; rfl⟩

theorem const_get_zero_not_nil {st : VM} {mod : OBJECT} {name : SYMBOL}
    (h : mod.nil_p = false) : Task.const_get 0 st mod name = .error .OutOfFuel := by
  rw [Task.const_get.eq_def]
  simp [h]

theorem spec_found_eq_true {x : Option OBJECT} {v : OBJECT}
    (h : spec_found x = (v, true)) : x = some v := by
  cases x with
  | none => simp [spec_found] at h
  | some w =>
    simp only [spec_found, Prod.mk.injEq, and_true] at h
    rw [h]

/-- C17: re-opening is idempotent: after `open_class(under, super, name)` has created
class `c`, a second `open_class(under, super, name)` with the same arguments returns
the same class `c` with `created = false` and leaves the state exactly as it was (no
constant table, class or name changes). -/
theorem open_class_reopen (syms : SymbolTable) (fuel : Nat) (st st1 : VM)
    (under super c : OBJECT) (name : SYMBOL)
    (hfirst : Task.open_class syms fuel st under super name = .ok (st1, c, true)) :
    Task.open_class syms fuel st1 under super name = .ok (st1, c, false) := by
  -- the first call took the creating branch
  have hbranch : ∃ obj, Task.const_get fuel st under name = .ok (obj, false) := by
    cases hcg : Task.const_get fuel st under name with
    | error e =>
      unfold Task.open_class at hfirst
      rw [hcg] at hfirst
      cases hfirst
    | ok r =>
      obtain ⟨obj, found⟩ := r
      cases found with
      | false => exact ⟨obj, rfl⟩
      | true =>
        rw [open_class_found hcg] at hfirst
        split at hfirst
        · split at hfirst
          · cases hfirst
          · split at hfirst
            · cases hfirst
            · cases hfirst
        · cases hfirst
  obtain ⟨obj, hmiss⟩ := hbranch
  rw [open_class_missing hmiss, Except.bind_eq_ok] at hfirst
  obtain ⟨⟨st2, cls2⟩, hadd, hfirst⟩ := hfirst
  simp only [pure, Except.pure, Except.ok.injEq, Prod.mk.injEq, and_true] at hfirst
  obtain ⟨rfl, rfl⟩ := hfirst
  obtain ⟨_, _, ⟨cc, hcc, hsup, _, _⟩, hget, _, hobj⟩ := add_class_spec hadd
  -- the second lookup finds the class in `under` itself
  have hm1 : ∃ m1, st2.module under = .ok m1 := by
    unfold Module.get_const at hget
    rw [Except.bind_eq_ok] at hget
    obtain ⟨m1, hm1, _⟩ := hget
    exact ⟨m1, hm1⟩
  obtain ⟨m1, hm1⟩ := hm1
  have hnn := module_not_nil hm1
  have hfuel : ∃ f, fuel = f + 1 := by
    cases fuel with
    | zero =>
      rw [const_get_zero_not_nil hnn] at hmiss
      cases hmiss
    | succ f => exact ⟨f, rfl⟩
  obtain ⟨f, rfl⟩ := hfuel
  have hlook : m1.constants.lookup name = some cls2 := by
    rw [get_const_of_module name hm1] at hget
    simp only [Except.ok.injEq] at hget
    exact spec_found_eq_true hget
  have hfound : Task.const_get (f + 1) st2 under name = .ok (cls2, true) := by
    rw [const_get_succ f st2 under name m1 hm1, hlook]
  rw [open_class_found hfound, hcc]
  simp only
  by_cases hs : super.nil_p = true
  · simp [hs]
  · simp only [hs, Bool.false_eq_true, if_false] at hsup
    simp [hs, hsup]

/-- Opening `Animal` under `Parent` twice: the second call returns the class the first
one created, and changes nothing. -/
theorem open_class_reopen_witness :
    ∃ st1, Task.open_class ex_syms 1 (ex_world (.Ref 5)) (.Ref 1) .Qnil 21 =
        .ok (st1, .Ref 16, true) ∧
      Task.open_class ex_syms 1 st1 (.Ref 1) .Qnil 21 = .ok (st1, .Ref 16, false) :=
  ⟨_, rfl, open_class_reopen ex_syms 1 (ex_world (.Ref 5)) _ (.Ref 1) .Qnil (.Ref 16) 21 rfl⟩

/-- C18 as stated fails: in the scope of `Child` inside `Parent`, where `Parent` binds
`Person` to a class, the contextual `open_class(nil, Person)` finds that class through
the lexical chain and returns it with `created = false`, whereas the explicit
`open_class(Child, nil, Person)` does not find it in the superclass chain of `Child`
and creates a new class. -/
theorem open_class_scoped_counterexample :
    Task.current_module (ex_world (.Ref 6)) ex_world_task = .ok (.Ref 2) ∧
    Task.open_class_scoped ex_syms 2 (ex_world (.Ref 6)) ex_world_task .Qnil 14 =
      .ok (ex_world (.Ref 6), .Ref 13, false) ∧
    (∃ st1, Task.open_class ex_syms 2 (ex_world (.Ref 6)) (.Ref 2) .Qnil 14 =
      .ok (st1, .Ref 16, true)) ∧
    Task.open_class_scoped ex_syms 2 (ex_world (.Ref 6)) ex_world_task .Qnil 14 ≠
      Task.open_class ex_syms 2 (ex_world (.Ref 6)) (.Ref 2) .Qnil 14 := by
  have h1 : Task.open_class_scoped ex_syms 2 (ex_world (.Ref 6)) ex_world_task .Qnil 14 =
      .ok (ex_world (.Ref 6), .Ref 13, false) := rfl
  have h2 : ∃ st1, Task.open_class ex_syms 2 (ex_world (.Ref 6)) (.Ref 2) .Qnil 14 =
      .ok (st1, .Ref 16, true) := ⟨_, rfl⟩
  refine ⟨rfl, h1, h2, ?_⟩
  obtain ⟨st1, h2⟩ := h2
  rw [h1, h2]
  intro h
  have h3 := congrArg (fun r => r.2.2) (Except.ok.inj h)
  simp at h3

/-- When the walk up the superclasses to nil finds nothing, the module lookup, which
walks the same chain and stops after object-root, finds nothing either. -/
theorem const_get_of_superclasses_none (st : VM) (name : SYMBOL) :
    ∀ (fuel : Nat) (mod : OBJECT),
      Task.const_get_superclasses fuel st mod name = .ok none →
      Task.const_get fuel st mod name = .ok (.Qnil, false) := by
  intro fuel
  induction fuel with
  | zero =>
    intro mod h
    rw [Task.const_get.eq_def]
    rw [Task.const_get_superclasses.eq_def] at h
    by_cases hn : mod.nil_p = true
    · simp [hn]
    · simp [hn] at h
  | succ fuel ih =>
    intro mod h
    by_cases hn : mod.nil_p = true
    · rw [Task.const_get.eq_def]; simp [hn]
    · cases hm : st.module mod with
      | error e =>
        rw [Task.const_get_superclasses.eq_def] at h
        simp [hn, Module.get_const, hm, bind, Except.bind] at h
      | ok m =>
        rw [const_get_superclasses_succ fuel st mod name m hm] at h
        rw [const_get_succ fuel st mod name m hm]
        cases hl : m.constants.lookup name with
        | some v => rw [hl] at h; simp at h
        | none =>
          rw [hl] at h
          simp only at h ⊢
          by_cases ho : mod = st.object
          · rw [if_pos ho]
          · rw [if_neg ho]; exact ih _ h

/-- A miss of the contextual lookup, for a method with a lexical scope, is a miss of the
module lookup from the innermost lexical module. -/
theorem const_get_of_scoped_miss {fuel : Nat} {st : VM} {task : Task} {name : SYMBOL}
    {scope obj : OBJECT} {s : StaticScope}
    (hscope : Task.current_scope st task = .ok scope)
    (hs : st.static_scope scope = .ok s)
    (h : Task.const_get_scoped fuel st task name = .ok (obj, false)) :
    Task.const_get fuel st s.module name = .ok (.Qnil, false) := by
  apply const_get_of_superclasses_none
  unfold Task.const_get_scoped at h
  rw [hscope] at h
  simp only [bind, Except.bind] at h
  cases hl : Task.const_get_lexical fuel st scope name with
  | error e => rw [hl] at h; cases h
  | ok r =>
    rw [hl] at h
    cases r with
    | some v => simp [pure, Except.pure] at h
    | none =>
      simp only [hs] at h
      cases hsup : Task.const_get_superclasses fuel st s.module name with
      | error e => rw [hsup] at h; cases h
      | ok r2 =>
        rw [hsup] at h
        cases r2 with
        | some v => simp [pure, Except.pure] at h
        | none => rfl

/-- C18, amended: for a task whose active method has a lexical scope, the contextual
`open_class(super, name)` checks for an existing constant with the contextual
`const_get(name)`.  When that lookup fails, the call fails the same way.  When it finds
an object, the call re-opens it (class check, superclass check, `created = false`,
state unchanged), which is the result of the explicit `open_class(under, super, name)`
for every `under` whose superclass-chain lookup finds that object.  When it finds
nothing, the lookup within the innermost lexical module's superclass chain finds
nothing either, and the call gives the same result (returned class, `created` flag,
error and resulting state) as the explicit `open_class(under, super, name)` with
`under` the innermost lexical module.  So the two calls agree whenever the two lookups
do. -/
theorem open_class_scoped_eq (syms : SymbolTable) (fuel : Nat) (st : VM) (task : Task)
    (super : OBJECT) (name : SYMBOL) (scope : OBJECT) (s : StaticScope)
    (hscope : Task.current_scope st task = .ok scope)
    (hs : st.static_scope scope = .ok s) :
    (∀ e, Task.const_get_scoped fuel st task name = .error e →
      Task.open_class_scoped syms fuel st task super name = .error e) ∧
    (∀ obj, Task.const_get_scoped fuel st task name = .ok (obj, true) →
      Task.open_class_scoped syms fuel st task super name =
        (match st.deref obj with
          | some (.Class c) =>
            if super.nil_p then .ok (st, obj, false)
            else if c.superclass ≠ super then .error (.TypeError "superclass mismatch")
            else .ok (st, obj, false)
          | _ => .error (.TypeError "Class")) ∧
      ∀ under, Task.const_get fuel st under name = .ok (obj, true) →
        Task.open_class_scoped syms fuel st task super name =
          Task.open_class syms fuel st under super name) ∧
    (∀ obj, Task.const_get_scoped fuel st task name = .ok (obj, false) →
      Task.const_get fuel st s.module name = .ok (.Qnil, false) ∧
      Task.open_class_scoped syms fuel st task super name =
        Task.open_class syms fuel st s.module super name) ∧
    (Task.const_get_scoped fuel st task name = Task.const_get fuel st s.module name →
      Task.open_class_scoped syms fuel st task super name =
        Task.open_class syms fuel st s.module super name) := by
  have hfound : ∀ obj under, Task.const_get_scoped fuel st task name = .ok (obj, true) →
      Task.const_get fuel st under name = .ok (obj, true) →
      Task.open_class_scoped syms fuel st task super name =
        Task.open_class syms fuel st under super name := by
    intro obj under h1 h2
    unfold Task.open_class_scoped Task.open_class
    rw [h1, h2]
    rfl
  have hmiss : ∀ obj obj2, Task.const_get_scoped fuel st task name = .ok (obj, false) →
      Task.const_get fuel st s.module name = .ok (obj2, false) →
      Task.open_class_scoped syms fuel st task super name =
        Task.open_class syms fuel st s.module super name := by
    intro obj obj2 h1 h2
    unfold Task.open_class_scoped Task.open_class
    rw [h1, h2]
    simp only [bind, Except.bind, Bool.false_eq_true, if_false, hscope,
      static_scope_not_nil hs, hs, pure, Except.pure]
  refine ⟨?_, ?_, ?_, ?_⟩
  · intro e h
    unfold Task.open_class_scoped
    rw [h]
    rfl
  · intro obj h
    refine ⟨?_, fun under hu => hfound obj under h hu⟩
    unfold Task.open_class_scoped
    rw [h]
    simp only [bind, Except.bind, if_true]
    cases hd : st.deref obj with
    | none => simp [VM.as_Class, hd]
    | some x =>
      cases x with
      | Class c =>
        simp only [VM.as_Class, hd, check_superclass]
        by_cases hsn : super.nil_p = true
        · simp [hsn, pure, Except.pure]
        · simp only [hsn, Bool.false_eq_true, if_false, module_of_class hd, bind,
            Except.bind]
          by_cases hne : c.superclass = super
          · simp [hne, pure, Except.pure]
          · simp [hne]
      | _ => simp [VM.as_Class, hd]
  · intro obj h
    have h2 := const_get_of_scoped_miss hscope hs h
    exact ⟨h2, hmiss obj _ h h2⟩
  · intro hsame
    cases hr : Task.const_get fuel st s.module name with
    | error e =>
      rw [hr] at hsame
      unfold Task.open_class_scoped Task.open_class
      rw [hsame, hr]
      rfl
    | ok r =>
      obtain ⟨obj, found⟩ := r
      rw [hr] at hsame
      cases found with
      | true => exact hfound obj _ hsame hr
      | false => exact hmiss obj obj hsame hr

/-- Two scenarios.  In the scope of `Child` inside `Parent`, `Person` is found through
the lexical chain in `Parent`: the contextual call re-opens that class, as the explicit
call under `Parent` does.  In the scope of `Parent`, `Animal` is bound nowhere (the
scenario of `test_open_class`): the contextual call creates it as the explicit call
under `Parent` does. -/
theorem open_class_scoped_eq_witness :
    (Task.const_get_scoped 2 (ex_world (.Ref 6)) ex_world_task 14 = .ok (.Ref 13, true) ∧
      Task.const_get 2 (ex_world (.Ref 6)) (.Ref 1) 14 = .ok (.Ref 13, true) ∧
      Task.open_class_scoped ex_syms 2 (ex_world (.Ref 6)) ex_world_task .Qnil 14 =
        .ok (ex_world (.Ref 6), .Ref 13, false) ∧
      Task.open_class_scoped ex_syms 2 (ex_world (.Ref 6)) ex_world_task .Qnil 14 =
        Task.open_class ex_syms 2 (ex_world (.Ref 6)) (.Ref 1) .Qnil 14) ∧
    (Task.const_get_scoped 1 (ex_world (.Ref 5)) ex_world_task 21 = .ok (.Qnil, false) ∧
      Task.const_get 1 (ex_world (.Ref 5)) (.Ref 1) 21 = .ok (.Qnil, false) ∧
      Task.open_class_scoped ex_syms 1 (ex_world (.Ref 5)) ex_world_task .Qnil 21 =
        Task.open_class ex_syms 1 (ex_world (.Ref 5)) (.Ref 1) .Qnil 21) :=
  have h1 := open_class_scoped_eq ex_syms 2 (ex_world (.Ref 6)) ex_world_task .Qnil 14
    (.Ref 6) { module := .Ref 2, parent := .Ref 5 } rfl rfl
  have h2 := open_class_scoped_eq ex_syms 1 (ex_world (.Ref 5)) ex_world_task .Qnil 21
    (.Ref 5) { module := .Ref 1, parent := .Qnil } rfl rfl
  ⟨⟨rfl, rfl, (h1.2.1 _ rfl).1, (h1.2.1 _ rfl).2 (.Ref 1) rfl⟩,
   ⟨rfl, (h2.2.2.1 _ rfl).1, (h2.2.2.1 _ rfl).2⟩⟩

/-- C19: with the running method in the lexical scope of `Object` itself, so that
`under` is object-root, the contextual `open_module(Animal)` names the new module
`Object::Animal` instead of the bare `Animal`; the explicit `open_module(Object,
Animal)` and the contextual `open_class(nil, Animal)` both give the bare name. -/
theorem open_module_scoped_object_root :
    Task.current_module (ex_world (.Ref 10)) ex_world_task =
      .ok (ex_world (.Ref 10)).object ∧
    (∃ st1, Task.open_module_scoped ex_syms 1 (ex_world (.Ref 10)) ex_world_task 21 =
        .ok (st1, .Ref 16) ∧
      st1.deref (.Ref 16) = some (.Module
        { name := .Symbol (ex_syms.symbol "Object::Animal"), superclass := .Qnil,
          constants := [], method_table := [] })) ∧
    (∃ st1, Task.open_module ex_syms 1 (ex_world (.Ref 10)) (.Ref 0) 21 =
        .ok (st1, .Ref 16) ∧
      st1.deref (.Ref 16) = some (.Module
        { name := .Symbol (ex_syms.symbol "Animal"), superclass := .Qnil,
          constants := [], method_table := [] })) ∧
    (∃ st1, Task.open_class_scoped ex_syms 1 (ex_world (.Ref 10)) ex_world_task .Qnil 21 =
        .ok (st1, .Ref 16, true) ∧
      st1.deref (.Ref 16) = some (.Class
        { name := .Symbol (ex_syms.symbol "Animal"), superclass := .Ref 0,
          constants := [], method_table := [] })) :=
  ⟨rfl, ⟨_, rfl, rfl⟩, ⟨_, rfl, rfl⟩, ⟨_, rfl, rfl⟩⟩

/-! ## Method location -/

/-- The resolver's walk reports the first method-table entry on the chain, unwrapped,
unless it is private and the message does not assert privacy. -/
theorem resolver_walk_spec (st : VM) (entry : OBJECT) :
    ∀ (ms : List (OBJECT × Module)) (mod : OBJECT) (fuel : Nat) (msg : Message),
      SuperclassChain st mod ms →
      spec_first_method msg.name ms = some entry → ms.length ≤ fuel →
      GlobalCacheResolver.walk fuel st msg mod =
        match st.kind_of_Visibility entry with
        | some vis =>
          if vis.private_p st && !msg.priv then (false, msg)
          else (true, { msg with method := vis.method })
        | none => (true, { msg with method := entry }) := by
  intro ms
  induction ms with
  | nil =>
    intro mod fuel msg _ hfirst _
    simp [spec_first_method] at hfirst
  | cons p rest ih =>
    intro mod fuel msg h hfirst hf
    obtain ⟨o, m⟩ := p
    simp only [SuperclassChain] at h
    obtain ⟨rfl, hm, hrest⟩ := h
    simp only [List.length_cons] at hf
    obtain ⟨f, rfl⟩ : ∃ f, fuel = f + 1 := ⟨fuel - 1, by omega⟩
    rw [GlobalCacheResolver.walk]
    simp only [hm]
    simp only [spec_first_method] at hfirst
    cases hl : m.method_table.lookup msg.name with
    | some e =>
      rw [hl] at hfirst
      simp only [Option.some.injEq] at hfirst
      subst hfirst
      rfl
    | none =>
      rw [hl] at hfirst
      simp only at hfirst
      dsimp only
      exact ih m.superclass f msg hrest hfirst (by omega)

/-- C20: for a receiver and selector whose first method-table entry along the
superclass chain of `lookup_begin(recv)` is a visibility wrapper marked private around
the executable `e`, `locate_method_on(recv, sel, false)` returns nil and
`locate_method_on(recv, sel, true)` returns `e` itself, never the wrapper; when the
entry is an unwrapped method, it is returned under either privacy value. -/
theorem locate_method_on_visibility (lookup_begin : VM → OBJECT → OBJECT) (st : VM)
    (recv : OBJECT) (sel : SYMBOL) (ms : List (OBJECT × Module)) (entry : OBJECT)
    (fuel : Nat)
    (hchain : SuperclassChain st (lookup_begin st recv) ms)
    (hentry : spec_first_method sel ms = some entry)
    (hfuel : ms.length ≤ fuel) :
    (∀ vis cm, st.deref entry = some (.Visibility vis) → vis.visibility = st.sym_private →
      st.deref vis.method = some (.CompiledMethod cm) →
      Task.locate_method_on (GlobalCacheResolver.resolve fuel) lookup_begin st recv sel
        .Qfalse = .ok .Qnil ∧
      Task.locate_method_on (GlobalCacheResolver.resolve fuel) lookup_begin st recv sel
        .Qtrue = .ok vis.method) ∧
    (∀ cm priv_p, st.deref entry = some (.CompiledMethod cm) →
      Task.locate_method_on (GlobalCacheResolver.resolve fuel) lookup_begin st recv sel
        priv_p = .ok entry) := by
  have hwalk : ∀ b : Bool,
      GlobalCacheResolver.resolve fuel st
        { recv := recv, lookup_from := lookup_begin st recv, name := sel,
          priv := b, send_site := .Qnil, method := .Qnil, args := 0,
          arguments := fun _ => .Qnil } =
      match st.kind_of_Visibility entry with
      | some vis =>
        if vis.private_p st && !b then
          (false,
            { recv := recv, lookup_from := lookup_begin st recv, name := sel,
              priv := b, send_site := .Qnil, method := .Qnil, args := 0,
              arguments := fun _ => .Qnil })
        else
          (true,
            { recv := recv, lookup_from := lookup_begin st recv, name := sel,
              priv := b, send_site := .Qnil, method := vis.method, args := 0,
              arguments := fun _ => .Qnil })
      | none =>
        (true,
          { recv := recv, lookup_from := lookup_begin st recv, name := sel,
            priv := b, send_site := .Qnil, method := entry, args := 0,
            arguments := fun _ => .Qnil }) :=
    fun b => resolver_walk_spec st entry ms (lookup_begin st recv) fuel
      { recv := recv, lookup_from := lookup_begin st recv, name := sel,
        priv := b, send_site := .Qnil, method := .Qnil, args := 0,
        arguments := fun _ => .Qnil } hchain hentry hfuel
  constructor
  · intro vis cm hvis hpriv hcm
    have hk : st.kind_of_Visibility entry = some vis := by simp [VM.kind_of_Visibility, hvis]
    have hk2 : st.kind_of_Visibility vis.method = none := by
      simp [VM.kind_of_Visibility, hcm]
    have hp : vis.private_p st = true := by simp [Visibility.private_p, hpriv]
    constructor
    · simp [Task.locate_method_on, hwalk, hk, hp]
    · simp [Task.locate_method_on, hwalk, hk, hp, hk2, VM.as_Executable, hcm]
  · intro cm priv_p hcm
    have hk : st.kind_of_Visibility entry = none := by simp [VM.kind_of_Visibility, hcm]
    simp [Task.locate_method_on, hwalk, hk, VM.as_Executable, hcm]

/-- The scenarios of `test_locate_method_on_private`,
`test_locate_method_on_private_private_send` and `test_locate_method_on`. -/
theorem locate_method_on_visibility_witness :
    (Task.locate_method_on (GlobalCacheResolver.resolve 2) ex_lookup_begin (ex_world (.Ref 6))
        .Qtrue 4 .Qfalse = .ok .Qnil ∧
      Task.locate_method_on (GlobalCacheResolver.resolve 2) ex_lookup_begin (ex_world (.Ref 6))
        .Qtrue 4 .Qtrue = .ok (.Ref 7)) ∧
    Task.locate_method_on (GlobalCacheResolver.resolve 2) ex_lookup_begin (ex_world (.Ref 6))
        .Qtrue 30 .Qfalse = .ok (.Ref 7) :=
  ⟨(locate_method_on_visibility ex_lookup_begin (ex_world (.Ref 6)) .Qtrue 4
      [(.Ref 14, ex_TrueClass), (.Ref 0, ex_Object)] (.Ref 15) 2
      ⟨rfl, rfl, rfl, rfl, rfl⟩ rfl (by decide)).1
      { method := .Ref 7, visibility := .Symbol 102 } { ex_cm with scope := .Ref 6 }
      rfl rfl rfl,
   (locate_method_on_visibility ex_lookup_begin (ex_world (.Ref 6)) .Qtrue 30
      [(.Ref 14, ex_TrueClass), (.Ref 0, ex_Object)] (.Ref 7) 2
      ⟨rfl, rfl, rfl, rfl, rfl⟩ rfl (by decide)).2
      { ex_cm with scope := .Ref 6 } .Qfalse rfl⟩

/-! ## Serial check -/

/-- C21: whenever `locate_method_on(recv, sel, Qtrue)` yields `x`, `check_serial(recv,
sel, n)` returns, and its answer is true if and only if no method was found (`x` is
nil) or `x` is a compiled method whose serial equals `n`; in particular it is true
whenever the resolver reports not-found. -/
theorem check_serial_iff (resolve : Resolver) (lookup_begin : VM → OBJECT → OBJECT)
    (st : VM) (recv : OBJECT) (sel : SYMBOL) (n : Int) (x : OBJECT)
    (hloc : Task.locate_method_on resolve lookup_begin st recv sel .Qtrue = .ok x) :
    (∃ b, Task.check_serial resolve lookup_begin st recv sel n = .ok b ∧
      (b = true ↔
        (x = .Qnil ∨ ∃ cm, st.deref x = some (.CompiledMethod cm) ∧ cm.serial = n))) ∧
    ((resolve st
        { recv := recv, lookup_from := lookup_begin st recv, name := sel, priv := true,
          send_site := .Qnil, method := .Qnil, args := 0,
          arguments := fun _ => .Qnil }).1 = false → x = .Qnil) := by
  constructor
  · unfold Task.check_serial
    rw [hloc]
    show ∃ b, (if x = .Qnil then _ else _) = _ ∧ _
    by_cases hx : x = .Qnil
    · rw [if_pos hx]
      exact ⟨true, rfl, by simp [hx]⟩
    · rw [if_neg hx]
      cases hd : st.deref x with
      | none => exact ⟨false, rfl, by simp [hx]⟩
      | some y =>
        cases y with
        | CompiledMethod cm =>
          refine ⟨decide (cm.serial = n), rfl, ?_⟩
          simp [hx]
        | _ => exact ⟨false, rfl, by simp [hx]⟩
  · intro hr
    unfold Task.locate_method_on at hloc
    simp only [decide_True] at hloc
    split at hloc
    · cases hloc; rfl
    · rename_i m heq
      rw [heq] at hr
      cases hr

theorem check_serial_iff_witness :
    (∃ b, Task.check_serial (GlobalCacheResolver.resolve 3) ex_lookup_begin
        (ex_world .Qnil) .Qtrue 4 0 = .ok b ∧
      (b = true ↔
        (OBJECT.Ref 7 = .Qnil ∨
          ∃ cm, (ex_world .Qnil).deref (.Ref 7) = some (.CompiledMethod cm) ∧
            cm.serial = 0))) ∧
    ((GlobalCacheResolver.resolve 3 (ex_world .Qnil)
        { recv := .Qtrue, lookup_from := ex_lookup_begin (ex_world .Qnil) .Qtrue, name := 4,
          priv := true, send_site := .Qnil, method := .Qnil, args := 0,
          arguments := fun _ => .Qnil }).1 = false → OBJECT.Ref 7 = .Qnil) :=
  check_serial_iff (GlobalCacheResolver.resolve 3) ex_lookup_begin (ex_world .Qnil)
    .Qtrue 4 0 (.Ref 7) rfl

/-- The serial check of the test `test_check_serial`: the method stored under `blah`
has serial 0, so 0 matches and 1 does not; an unknown selector matches anything. -/
theorem check_serial_scenario :
    Task.check_serial (GlobalCacheResolver.resolve 3) ex_lookup_begin
      (ex_world .Qnil) .Qtrue 4 0 = .ok true ∧
    Task.check_serial (GlobalCacheResolver.resolve 3) ex_lookup_begin
      (ex_world .Qnil) .Qtrue 4 1 = .ok false ∧
    Task.check_serial (GlobalCacheResolver.resolve 3) ex_lookup_begin
      (ex_world .Qnil) .Qtrue 99 1 = .ok true :=
  ⟨rfl, rfl, rfl⟩

/-! ## Failed sends -/

theorem erase_bind {α β : Type} (x : Leaving α) (f : α → VM → Leaving β) :
    (x.bind f).erase = x.erase >>= fun p => (f p.2 p.1).erase := by
  obtain ⟨r, st⟩ := x
  cases r <;> rfl

theorem leaving_bind_ok {α β : Type} (a : α) (st : VM) (f : α → VM → Leaving β) :
    Leaving.bind (.ok a, st) f = f a st := rfl

theorem erase_step (st : VM) (r : Except Error VM) :
    (Leaving.step st r).erase = r >>= fun s => .ok (s, ()) := by
  cases r <;> rfl

theorem import_fixed_leaving_succ (msg : Message) (stack : OBJECT) (k : Nat) (st : VM) :
    Task.import_fixed_leaving msg stack (k + 1) st =
      (Task.import_fixed_leaving msg stack k st).bind fun _ s =>
        Leaving.step s (Tuple.put s stack k (msg.get_argument k)) := by
  simp [Task.import_fixed_leaving, List.range_succ, List.foldl_append]

theorem import_splat_leaving_succ (msg : Message) (ary : OBJECT) (tot k : Nat) (st : VM) :
    Task.import_splat_leaving msg ary tot (k + 1) st =
      (Task.import_splat_leaving msg ary tot k st).bind fun _ s =>
        Leaving.step s (Array.set s ary k (msg.get_argument (size_t_add tot k))) := by
  simp [Task.import_splat_leaving, List.range_succ, List.foldl_append]

/-- The first loop with its heap agrees with the plain loop. -/
theorem import_fixed_leaving_erase (msg : Message) (stack : OBJECT) :
    ∀ (k : Nat) (st : VM), (Task.import_fixed_leaving msg stack k st).erase =
      Task.import_fixed msg stack k st >>= fun s => .ok (s, ()) := by
  intro k
  induction k with
  | zero => intro st; rfl
  | succ k ih =>
    intro st
    rw [import_fixed_leaving_succ, erase_bind, ih, import_fixed_succ]
    cases Task.import_fixed msg stack k st with
    | error e => rfl
    | ok s =>
      simp only [bind, Except.bind]
      exact erase_step _ _

/-- The second loop with its heap agrees with the plain loop. -/
theorem import_splat_leaving_erase (msg : Message) (ary : OBJECT) (tot : Nat) :
    ∀ (k : Nat) (st : VM), (Task.import_splat_leaving msg ary tot k st).erase =
      Task.import_splat msg ary tot k st >>= fun s => .ok (s, ()) := by
  intro k
  induction k with
  | zero => intro st; rfl
  | succ k ih =>
    intro st
    rw [import_splat_leaving_succ, erase_bind, ih, import_splat_succ]
    cases Task.import_splat msg ary tot k st with
    | error e => rfl
    | ok s =>
      simp only [bind, Except.bind]
      exact erase_step _ _

/-- Argument binding with its heap agrees with the plain binding. -/
theorem import_arguments_leaving_erase (st : VM) (ctx : OBJECT) (msg : Message) :
    (Task.import_arguments_leaving st ctx msg).erase =
      Task.import_arguments st ctx msg >>= fun s => .ok (s, ()) := by
  unfold Task.import_arguments_leaving Task.import_arguments
  rw [erase_bind, erase_step]
  cases st.update_context ctx (fun c => { c with args := msg.args }) with
  | error e => rfl
  | ok st1 =>
    simp only [bind, Except.bind]
    by_cases h0 : msg.args = 0
    · simp only [h0, if_true]; rfl
    · simp only [h0, if_false]
      cases st1.context ctx with
      | error e => rfl
      | ok c =>
        rw [leaving_bind_ok]
        dsimp only
        cases st1.compiled_method c.cm with
        | error e => rfl
        | ok cm =>
          rw [leaving_bind_ok]
          dsimp only
          rw [erase_bind, import_fixed_leaving_erase]
          cases Task.import_fixed msg c.stack
              (if msg.args < cm.total_args then msg.args else cm.total_args) st1 with
          | error e => rfl
          | ok st2 =>
            simp only [bind, Except.bind]
            by_cases hs : cm.splat = .Qnil
            · simp only [hs, ne_eq, not_true_eq_false, if_false]; rfl
            · simp only [hs, ne_eq, not_false_eq_true, if_true]
              rw [erase_bind, import_splat_leaving_erase]
              cases Task.import_splat msg (Array.create st2
                  (size_t_sub msg.args cm.total_args)).2 cm.total_args
                  (size_t_sub msg.args cm.total_args)
                  (Array.create st2 (size_t_sub msg.args cm.total_args)).1 with
              | error e => rfl
              | ok st4 =>
                simp only [bind, Except.bind]
                cases cm.splat.n2i with
                | error e => rfl
                | ok s =>
                  rw [leaving_bind_ok, erase_step]
                  dsimp only
                  cases Tuple.put st4 c.stack (size_t_of_int s) (Array.create st2
                    (size_t_sub msg.args cm.total_args)).2 <;> rfl

theorem erase_cases {α : Type} (x : Leaving α) (y : Except Error (VM × α))
    (h : x.erase = y) :
    (∃ a s, x = (.ok a, s) ∧ y = .ok (s, a)) ∨
      (∃ e s, x = (.error e, s) ∧ y = .error e) := by
  obtain ⟨r, s⟩ := x
  cases r with
  | error e => exact .inr ⟨e, s, rfl, h.symm⟩
  | ok a => exact .inl ⟨a, s, rfl, h.symm⟩

theorem erase_cases_unit (x : Leaving Unit) (y : Except Error VM)
    (h : x.erase = y >>= fun s => .ok (s, ())) :
    (∃ s, x = (.ok (), s) ∧ y = .ok s) ∨ (∃ e s, x = (.error e, s) ∧ y = .error e) := by
  rcases erase_cases x _ h with ⟨a, s, hx, hy⟩ | ⟨e, s, hx, hy⟩
  · cases y with
    | error e1 => cases hy
    | ok s1 =>
      have h2 : (Except.ok (s1, ()) : Except Error (VM × Unit)) = .ok (s, a) := hy
      simp only [Except.ok.injEq, Prod.mk.injEq] at h2
      exact .inl ⟨s, hx, by rw [h2.1]⟩
  · cases y with
    | error e1 =>
      have h2 : (Except.error e1 : Except Error (VM × Unit)) = .error e := hy
      simp only [Except.error.injEq] at h2
      exact .inr ⟨e, s, hx, by rw [h2]⟩
    | ok s1 => cases hy

theorem generate_context_leaving_erase (st : VM) (recv meth : OBJECT) :
    (Task.generate_context_leaving st recv meth).erase =
      Task.generate_context st recv meth := by
  unfold Task.generate_context_leaving
  cases Task.generate_context st recv meth <;> rfl

/-- The shared tail with its heap agrees with the plain tail. -/
theorem save_and_activate_leaving_erase (st : VM) (task : Task) (ctx : OBJECT) :
    (Task.save_and_activate_leaving st task ctx).erase =
      Task.save_and_activate st task ctx := by
  unfold Task.save_and_activate_leaving Task.save_and_activate
  cases st.update_context task.active (fun c => { c with ip := task.ip }) with
  | error e => rfl
  | ok st1 =>
    simp only [Leaving.step]
    rw [leaving_bind_ok]
    simp only [bind, Except.bind]
    cases st1.update_context task.active (fun c => { c with sp := task.sp }) with
    | error e => rfl
    | ok st2 =>
      simp only [Leaving.step]
      rw [leaving_bind_ok]
      cases st2.update_context ctx (fun c => { c with sender := task.active }) with
      | error e => rfl
      | ok st3 =>
        simp only [Leaving.step]
        rw [leaving_bind_ok]
        cases Task.make_active st3 task ctx <;> rfl

/-- The send with the state it leaves agrees with the plain send. -/
theorem send_message_leaving_erase (locate : Resolver) (st : VM) (task : Task)
    (msg : Message) :
    Task.erase_leaving (Task.send_message_leaving locate st task msg) =
      Task.send_message locate st task msg := by
  unfold Task.send_message_leaving Task.send_message
  cases locate st msg with
  | mk b m =>
    cases b with
    | false => rfl
    | true =>
      dsimp only
      cases st.as_CompiledMethod m.method with
      | error e => rfl
      | ok cm0 =>
        simp only [bind, Except.bind]
        rcases erase_cases _ _ (generate_context_leaving_erase st m.recv m.method) with
          ⟨ctx, st1, h1, h2⟩ | ⟨e, st1, h1, h2⟩
        · rw [h1, h2]
          dsimp only
          rcases erase_cases_unit _ _ (import_arguments_leaving_erase st1 ctx m) with
            ⟨st2, h3, h4⟩ | ⟨e, st2, h3, h4⟩
          · rw [h3, h4]
            dsimp only
            rcases erase_cases _ _ (save_and_activate_leaving_erase st2 task ctx) with
              ⟨task1, st3, h5, h6⟩ | ⟨e, st3, h5, h6⟩
            · rw [h5, h6]; rfl
            · rw [h5, h6]; rfl
          · rw [h3, h4]; rfl
        · rw [h1, h2]; rfl

/-- The slow send with the state it leaves agrees with the plain slow send. -/
theorem send_message_slowly_leaving_erase (resolve : Resolver) (st : VM) (task : Task)
    (msg : Message) :
    Task.erase_leaving (Task.send_message_slowly_leaving resolve st task msg) =
      Task.send_message_slowly resolve st task msg := by
  unfold Task.send_message_slowly_leaving Task.send_message_slowly
  cases Task.resolve_slowly resolve st msg with
  | mk b m =>
    cases b with
    | false => rfl
    | true =>
      dsimp only
      cases st.as_CompiledMethod m.method with
      | error e => rfl
      | ok cm0 =>
        simp only [bind, Except.bind]
        rcases erase_cases _ _ (generate_context_leaving_erase st m.recv m.method) with
          ⟨ctx, st1, h1, h2⟩ | ⟨e, st1, h1, h2⟩
        · rw [h1, h2]
          dsimp only
          rcases erase_cases _ _ (save_and_activate_leaving_erase st1 task ctx) with
            ⟨task1, st3, h5, h6⟩ | ⟨e, st3, h5, h6⟩
          · rw [h5, h6]; rfl
          · rw [h5, h6]; rfl
        · rw [h1, h2]; rfl

theorem quiet_bind {α β : Type} {x : Except Error α} {f : α → Except Error β}
    (hx : ∀ e, x = .error e → e.assertion_p = false)
    (hf : ∀ a e, f a = .error e → e.assertion_p = false) :
    ∀ e, (x >>= f) = .error e → e.assertion_p = false := by
  intro e h
  cases x with
  | error e1 =>
    have h2 : (Except.error e1 : Except Error β) = .error e := h
    simp only [Except.error.injEq] at h2
    rw [← h2]
    exact hx e1 rfl
  | ok a => exact hf a e h

theorem quiet_update_context (st : VM) (o : OBJECT) (f : MethodContext → MethodContext) :
    ∀ e, st.update_context o f = .error e → e.assertion_p = false := by
  intro e h
  unfold VM.update_context at h
  split at h <;> cases h
  rfl

theorem quiet_context (st : VM) (o : OBJECT) :
    ∀ e, st.context o = .error e → e.assertion_p = false := by
  intro e h
  unfold VM.context at h
  split at h <;> cases h
  rfl

theorem quiet_compiled_method (st : VM) (o : OBJECT) :
    ∀ e, st.compiled_method o = .error e → e.assertion_p = false := by
  intro e h
  unfold VM.compiled_method at h
  split at h <;> cases h
  rfl

theorem quiet_as_CompiledMethod (st : VM) (o : OBJECT) :
    ∀ e, st.as_CompiledMethod o = .error e → e.assertion_p = false := by
  intro e h
  unfold VM.as_CompiledMethod at h
  split at h <;> cases h
  rfl

theorem quiet_put (st : VM) (t : OBJECT) (idx : Nat) (v : OBJECT) :
    ∀ e, Tuple.put st t idx v = .error e → e.assertion_p = false := by
  intro e h
  unfold Tuple.put at h
  split at h
  · split at h <;> cases h
    rfl
  · cases h; rfl

theorem quiet_array_set (st : VM) (ary : OBJECT) (idx : Nat) (v : OBJECT) :
    ∀ e, Array.set st ary idx v = .error e → e.assertion_p = false := by
  intro e h
  unfold Array.set at h
  split at h
  · split at h <;> cases h
  · cases h; rfl

theorem quiet_n2i (o : OBJECT) : ∀ e, o.n2i = .error e → e.assertion_p = false := by
  intro e h
  cases o <;> cases h <;> rfl

theorem quiet_pure {α : Type} (a : α) :
    ∀ e, (pure a : Except Error α) = .error e → e.assertion_p = false := by
  intro e h
  cases h

theorem quiet_import_fixed (msg : Message) (stack : OBJECT) :
    ∀ (k : Nat) (st : VM) (e : Error),
      Task.import_fixed msg stack k st = .error e → e.assertion_p = false := by
  intro k
  induction k with
  | zero => intro st e h; cases h
  | succ k ih =>
    intro st e h
    rw [import_fixed_succ] at h
    exact quiet_bind (ih st) (fun s => quiet_put s _ _ _) e h

theorem quiet_import_splat (msg : Message) (ary : OBJECT) (tot : Nat) :
    ∀ (k : Nat) (st : VM) (e : Error),
      Task.import_splat msg ary tot k st = .error e → e.assertion_p = false := by
  intro k
  induction k with
  | zero => intro st e h; cases h
  | succ k ih =>
    intro st e h
    rw [import_splat_succ] at h
    exact quiet_bind (ih st) (fun s => quiet_array_set s _ _ _) e h

theorem quiet_import_arguments (st : VM) (ctx : OBJECT) (msg : Message) :
    ∀ e, Task.import_arguments st ctx msg = .error e → e.assertion_p = false := by
  unfold Task.import_arguments
  refine quiet_bind (quiet_update_context _ _ _) (fun st1 => ?_)
  split
  · exact quiet_pure _
  · refine quiet_bind (quiet_context _ _) (fun c => ?_)
    refine quiet_bind (quiet_compiled_method _ _) (fun cm => ?_)
    refine quiet_bind (quiet_import_fixed _ _ _ _) (fun st2 => ?_)
    split
    · refine quiet_bind (quiet_import_splat _ _ _ _ _) (fun st4 => ?_)
      exact quiet_bind (quiet_n2i _) (fun s => quiet_put _ _ _ _)
    · exact quiet_pure _

theorem quiet_generate_context (st : VM) (recv meth : OBJECT) :
    ∀ e, Task.generate_context st recv meth = .error e → e.assertion_p = false := by
  unfold Task.generate_context
  refine quiet_bind (quiet_compiled_method _ _) (fun cm => ?_)
  exact quiet_bind (quiet_update_context _ _ _) (fun st3 => quiet_pure _)

theorem quiet_make_active (st : VM) (task : Task) (ctx : OBJECT) :
    ∀ e, Task.make_active st task ctx = .error e → e.assertion_p = false := by
  unfold Task.make_active
  refine quiet_bind (quiet_context _ _) (fun c => ?_)
  exact quiet_bind (quiet_compiled_method _ _) (fun cm => quiet_pure _)

theorem quiet_save_and_activate (st : VM) (task : Task) (ctx : OBJECT) :
    ∀ e, Task.save_and_activate st task ctx = .error e → e.assertion_p = false := by
  unfold Task.save_and_activate
  refine quiet_bind (quiet_update_context _ _ _) (fun st1 => ?_)
  refine quiet_bind (quiet_update_context _ _ _) (fun st2 => ?_)
  refine quiet_bind (quiet_update_context _ _ _) (fun st3 => ?_)
  exact quiet_bind (quiet_make_active _ _ _) (fun t => quiet_pure _)

/-- A send whose method was located throws no `Assertion`. -/
theorem quiet_send_tail (st : VM) (task : Task) (msg1 : Message) :
    ∀ e, (do
        let _ ← st.as_CompiledMethod msg1.method
        let (st1, ctx) ← Task.generate_context st msg1.recv msg1.method
        let st2 ← Task.import_arguments st1 ctx msg1
        let (st3, task1) ← Task.save_and_activate st2 task ctx
        pure (st3, task1, msg1) : Except Error (VM × Task × Message)) = .error e →
      e.assertion_p = false := by
  refine quiet_bind (quiet_as_CompiledMethod _ _) (fun cm => ?_)
  refine quiet_bind (quiet_generate_context _ _ _) (fun p => ?_)
  refine quiet_bind (quiet_import_arguments _ _ _) (fun st2 => ?_)
  exact quiet_bind (quiet_save_and_activate _ _ _) (fun q => quiet_pure _)

/-- A slow send whose method was resolved throws no `Assertion`. -/
theorem quiet_send_slowly_tail (st : VM) (task : Task) (msg1 : Message) :
    ∀ e, (do
        let _ ← st.as_CompiledMethod msg1.method
        let (st1, ctx) ← Task.generate_context st msg1.recv msg1.method
        let (st3, task1) ← Task.save_and_activate st1 task ctx
        pure (st3, task1, msg1) : Except Error (VM × Task × Message)) = .error e →
      e.assertion_p = false := by
  refine quiet_bind (quiet_as_CompiledMethod _ _) (fun cm => ?_)
  refine quiet_bind (quiet_generate_context _ _ _) (fun p => ?_)
  exact quiet_bind (quiet_save_and_activate _ _ _) (fun q => quiet_pure _)

/-- A failed walk of the resolver hands the message back as it was. -/
theorem resolver_walk_failed :
    ∀ (fuel : Nat) (st : VM) (msg m1 : Message) (module : OBJECT),
      GlobalCacheResolver.walk fuel st msg module = (false, m1) → m1 = msg := by
  intro fuel
  induction fuel with
  | zero =>
    intro st msg m1 module h
    rw [GlobalCacheResolver.walk] at h
    exact (Prod.mk.inj h).2.symm
  | succ fuel ih =>
    intro st msg m1 module h
    rw [GlobalCacheResolver.walk] at h
    split at h
    · exact (Prod.mk.inj h).2.symm
    · split at h
      · exact ih st msg m1 _ h
      · split at h
        · split at h
          · exact (Prod.mk.inj h).2.symm
          · cases (Prod.mk.inj h).1
        · cases (Prod.mk.inj h).1

/-- C22: `send_message` throws the `Assertion` exactly when the send site does not
locate a method, and `send_message_slowly` exactly when the resolver reports not-found
on both of the attempts the code makes, which for a resolver whose failed attempt
fails again when repeated, such as the walk of the specification, is exactly when it
reports not-found; when either send
throws it, the heap and the task (the active context, the context chain and the hot
registers) are left as they were before the call, and a send that throws anything
leaves the hot registers as they were. -/
theorem send_failure_iff (locate resolve : Resolver) (st : VM) (task : Task)
    (msg : Message) :
    ((∃ s, Task.send_message locate st task msg = .error (.Assertion s)) ↔
      (locate st msg).1 = false) ∧
    ((∃ s, Task.send_message_slowly resolve st task msg = .error (.Assertion s)) ↔
      (Task.resolve_slowly resolve st msg).1 = false) ∧
    ((∀ m1, resolve st msg = (false, m1) → (resolve st m1).1 = false) →
      ((Task.resolve_slowly resolve st msg).1 = false ↔ (resolve st msg).1 = false)) ∧
    (∀ fuel, (Task.resolve_slowly (GlobalCacheResolver.resolve fuel) st msg).1 = false ↔
      (GlobalCacheResolver.resolve fuel st msg).1 = false) ∧
    (Task.erase_leaving (Task.send_message_leaving locate st task msg) =
        Task.send_message locate st task msg ∧
      Task.erase_leaving (Task.send_message_slowly_leaving resolve st task msg) =
        Task.send_message_slowly resolve st task msg) ∧
    ((locate st msg).1 = false →
      Task.send_message_leaving locate st task msg =
        (.error (.Assertion "unable to locate any method"), st, task)) ∧
    ((Task.resolve_slowly resolve st msg).1 = false →
      Task.send_message_slowly_leaving resolve st task msg =
        (.error (.Assertion "unable to locate any method"), st, task)) ∧
    (∀ e st1 task1, (Task.send_message_leaving locate st task msg = (.error e, st1, task1) ∨
        Task.send_message_slowly_leaving resolve st task msg = (.error e, st1, task1)) →
      task1 = task) := by
  have hretry : ∀ r : Resolver, (∀ m1, r st msg = (false, m1) → (r st m1).1 = false) →
      ((Task.resolve_slowly r st msg).1 = false ↔ (r st msg).1 = false) := by
    intro r hr
    unfold Task.resolve_slowly
    cases hl : r st msg with
    | mk b m =>
      cases b with
      | false => exact ⟨fun _ => rfl, fun _ => hr m hl⟩
      | true => exact ⟨fun h => h, fun h => h⟩
  refine ⟨?_, ?_, hretry resolve, ?_, ⟨send_message_leaving_erase _ _ _ _,
    send_message_slowly_leaving_erase _ _ _ _⟩, ?_, ?_, ?_⟩
  · unfold Task.send_message
    cases hl : locate st msg with
    | mk b m =>
      cases b with
      | false => exact ⟨fun _ => rfl, fun _ => ⟨_, rfl⟩⟩
      | true =>
        constructor
        · rintro ⟨s, h⟩
          have := quiet_send_tail st task m _ h
          cases this
        · intro h; cases h
  · unfold Task.send_message_slowly
    cases hl : Task.resolve_slowly resolve st msg with
    | mk b m =>
      cases b with
      | false => exact ⟨fun _ => rfl, fun _ => ⟨_, rfl⟩⟩
      | true =>
        constructor
        · rintro ⟨s, h⟩
          have := quiet_send_slowly_tail st task m _ h
          cases this
        · intro h; cases h
  · intro fuel
    refine hretry _ (fun m1 h => ?_)
    have hm := resolver_walk_failed fuel st msg m1 _ h
    rw [hm, h]
  · intro h
    unfold Task.send_message_leaving
    cases hl : locate st msg with
    | mk b m =>
      rw [hl] at h
      cases b with
      | false => rfl
      | true => cases h
  · intro h
    unfold Task.send_message_slowly_leaving
    cases hl : Task.resolve_slowly resolve st msg with
    | mk b m =>
      rw [hl] at h
      cases b with
      | false => rfl
      | true => cases h
  · intro e st1 task1 h
    rcases h with h | h
    · unfold Task.send_message_leaving at h
      repeat' split at h
      all_goals
        simp only [Prod.mk.injEq, Except.error.injEq] at h
        first
          | exact h.2.2.symm
          | exact absurd h.1 (by simp)
    · unfold Task.send_message_slowly_leaving at h
      repeat' split at h
      all_goals
        simp only [Prod.mk.injEq, Except.error.injEq] at h
        first
          | exact h.2.2.symm
          | exact absurd h.1 (by simp)

/-- The message `99` to `true`, which no method table of the scenarios binds: both
sends throw the `Assertion` and leave the heap and the task as they were. -/
theorem send_failure_iff_witness :
    (∃ s, Task.send_message (GlobalCacheResolver.resolve 3) (ex_world .Qnil) ex_world_task
        { ex_msg [] with lookup_from := .Ref 14, name := 99 } = .error (.Assertion s)) ∧
    Task.send_message_leaving (GlobalCacheResolver.resolve 3) (ex_world .Qnil) ex_world_task
        { ex_msg [] with lookup_from := .Ref 14, name := 99 } =
      (.error (.Assertion "unable to locate any method"), ex_world .Qnil, ex_world_task) ∧
    Task.send_message_slowly_leaving (GlobalCacheResolver.resolve 3) (ex_world .Qnil)
        ex_world_task { ex_msg [] with lookup_from := .Ref 14, name := 99 } =
      (.error (.Assertion "unable to locate any method"), ex_world .Qnil, ex_world_task) :=
  have h := send_failure_iff (GlobalCacheResolver.resolve 3) (GlobalCacheResolver.resolve 3)
    (ex_world .Qnil) ex_world_task { ex_msg [] with lookup_from := .Ref 14, name := 99 }
  ⟨h.1.2 rfl, h.2.2.2.2.2.1 rfl, h.2.2.2.2.2.2.1 rfl⟩

/-! ## Returning from the bottom context -/

/-- C23: for a task whose active context is the bottom context (its sender is nil),
`simple_return(v)` does not terminate the task with a nil active context: it makes
the nil sender active, reading the frame fields of nil, which is a fault. -/
theorem simple_return_bottom_faults (st : VM) (task : Task) (value : OBJECT)
    (a : MethodContext) (hact : st.context task.active = .ok a)
    (hbottom : a.sender = .Qnil) :
    Task.simple_return st task value = .error .Fault := by
  unfold Task.simple_return
  rw [hact]
  show (Task.make_active st task a.sender >>= _) = _
  rw [hbottom]
  rfl

theorem simple_return_bottom_faults_witness :
    (ex_vm ex_cm).context (ex_task ex_cm).active = .ok (ex_ctx ex_cm) ∧
    (ex_ctx ex_cm).sender = .Qnil ∧
    Task.simple_return (ex_vm ex_cm) (ex_task ex_cm) (.Fixnum 3) = .error .Fault :=
  ⟨rfl, rfl, simple_return_bottom_faults (ex_vm ex_cm) (ex_task ex_cm) (.Fixnum 3)
    (ex_ctx ex_cm) rfl rfl⟩

/-! ## Hot registers and new frames -/

/-- What a successful `simple_return` does: the sender of the active frame becomes
active and the value is stored in its stack, one slot above its saved `sp`. -/
theorem simple_return_spec {st st1 : VM} {task task1 : Task} {value : OBJECT}
    (h : Task.simple_return st task value = .ok (st1, task1)) :
    ∃ a caller cm fs, st.deref task.active = some (.MethodContext a) ∧
      st.deref a.sender = some (.MethodContext caller) ∧
      st.deref caller.cm = some (.CompiledMethod cm) ∧
      st.deref caller.stack = some (.Tuple fs) ∧
      size_t_of_int (caller.sp + 1) < fs.length ∧
      task1 = { ip := caller.ip, sp := caller.sp + 1, self := caller.self,
                literals := cm.literals, stack := caller.stack,
                ip_ptr := (caller.vmm, caller.ip), active := a.sender } ∧
      st1 = st.store caller.stack
        (.Tuple (fs.set (size_t_of_int (caller.sp + 1)) value)) := by
  unfold Task.simple_return at h
  rw [Except.bind_eq_ok] at h
  obtain ⟨a, ha, h⟩ := h
  rw [Except.bind_eq_ok] at h
  obtain ⟨t, hmk, h⟩ := h
  rw [Except.bind_eq_ok] at h
  obtain ⟨st2, hput, h⟩ := h
  simp only [pure, Except.pure, Except.ok.injEq, Prod.mk.injEq] at h
  obtain ⟨rfl, rfl⟩ := h
  obtain ⟨c, cm, hc, hcm, ht⟩ := make_active_spec hmk
  subst ht
  obtain ⟨fs, hfs, hidx, hst⟩ := put_inv hput
  exact ⟨a, c, cm, fs, context_inv ha, hc, hcm, hfs, hidx, rfl, hst⟩

/-- C24 as stated fails: after the `simple_return(3)` of scenario S4 the
active context's stored `sp` is −1 while the task's hot `sp` is 0. -/
theorem hot_registers_after_return_counterexample :
    Task.simple_return (ex_vm1 ex_cm 0 [.Qnil]) (ex_task1 ex_cm) (.Fixnum 3) =
      .ok (ex_vm_s4, ex_task_s4) ∧
    ex_vm_s4.context ex_task_s4.active = .ok (ex_ctx ex_cm) ∧
    (ex_ctx ex_cm).sp = -1 ∧ ex_task_s4.sp = 0 ∧ (ex_ctx ex_cm).sp ≠ ex_task_s4.sp :=
  ⟨rfl, rfl, rfl, rfl, by decide⟩

/-- The shared tail of the two sends ends in `make_active`, which loads the hot
registers from the frame it makes active. -/
theorem activate_registers {st st1 : VM} {task task1 : Task} {ctx : OBJECT}
    (h : Task.save_and_activate st task ctx = .ok (st1, task1)) :
    ∃ c, st1.context task1.active = .ok c ∧ c.ip = task1.ip ∧ c.sp = task1.sp := by
  unfold Task.save_and_activate at h
  rw [Except.bind_eq_ok] at h
  obtain ⟨s1, _, h⟩ := h
  rw [Except.bind_eq_ok] at h
  obtain ⟨s2, _, h⟩ := h
  rw [Except.bind_eq_ok] at h
  obtain ⟨s3, _, h⟩ := h
  rw [Except.bind_eq_ok] at h
  obtain ⟨t, hmk, h⟩ := h
  simp only [pure, Except.pure, Except.ok.injEq, Prod.mk.injEq] at h
  obtain ⟨rfl, rfl⟩ := h
  obtain ⟨c, cm, hc, _, ht⟩ := make_active_spec hmk
  subst ht
  exact ⟨c, context_eq hc, rfl, rfl⟩

/-- C24, amended: after `Task::create(recv, meth)`, `send_message` and
`send_message_slowly` complete, the active context's stored `ip` and `sp` equal the
task's hot `ip` and `sp`; after `simple_return` completes the stored `ip` equals the
hot `ip`, and the hot `sp` is the stored `sp` plus one. -/
theorem hot_registers_after_transition (locate resolve : Resolver) (st : VM) (task : Task)
    (msg : Message) (recv meth value : OBJECT) :
    (∀ st1 task1, Task.create st recv meth = .ok (st1, task1) →
      ∃ c, st1.context task1.active = .ok c ∧ c.ip = task1.ip ∧ c.sp = task1.sp) ∧
    (∀ st1 task1 msg1, Task.send_message locate st task msg = .ok (st1, task1, msg1) →
      ∃ c, st1.context task1.active = .ok c ∧ c.ip = task1.ip ∧ c.sp = task1.sp) ∧
    (∀ st1 task1 msg1,
      Task.send_message_slowly resolve st task msg = .ok (st1, task1, msg1) →
      ∃ c, st1.context task1.active = .ok c ∧ c.ip = task1.ip ∧ c.sp = task1.sp) ∧
    (∀ st1 task1, Task.simple_return st task value = .ok (st1, task1) →
      ∃ c, st1.context task1.active = .ok c ∧ c.ip = task1.ip ∧
        task1.sp = c.sp + 1) := by
  refine ⟨?_, ?_, ?_, ?_⟩
  · intro st1 task1 h
    unfold Task.create at h
    rw [Except.bind_eq_ok] at h
    obtain ⟨⟨sa, ctx⟩, _, h⟩ := h
    simp only at h
    rw [Except.bind_eq_ok] at h
    obtain ⟨t, hmk, h⟩ := h
    simp only [pure, Except.pure, Except.ok.injEq, Prod.mk.injEq] at h
    obtain ⟨rfl, rfl⟩ := h
    obtain ⟨c, cm, hc, _, ht⟩ := make_active_spec hmk
    subst ht
    exact ⟨c, context_eq hc, rfl, rfl⟩
  · intro st1 task1 msg1 h
    unfold Task.send_message at h
    cases hl : locate st msg with
    | mk b m =>
      rw [hl] at h
      cases b with
      | false => cases h
      | true =>
        simp only at h
        rw [Except.bind_eq_ok] at h
        obtain ⟨cm1, _, h⟩ := h
        rw [Except.bind_eq_ok] at h
        obtain ⟨⟨sa, ctx⟩, _, h⟩ := h
        simp only at h
        rw [Except.bind_eq_ok] at h
        obtain ⟨sb, _, h⟩ := h
        rw [Except.bind_eq_ok] at h
        obtain ⟨⟨sc, t⟩, hact, h⟩ := h
        simp only [pure, Except.pure, Except.ok.injEq, Prod.mk.injEq] at h
        obtain ⟨rfl, rfl, rfl⟩ := h
        exact activate_registers hact
  · intro st1 task1 msg1 h
    unfold Task.send_message_slowly at h
    cases hl : Task.resolve_slowly resolve st msg with
    | mk b m =>
      rw [hl] at h
      cases b with
      | false => cases h
      | true =>
        simp only at h
        rw [Except.bind_eq_ok] at h
        obtain ⟨cm1, _, h⟩ := h
        rw [Except.bind_eq_ok] at h
        obtain ⟨⟨sa, ctx⟩, _, h⟩ := h
        simp only at h
        rw [Except.bind_eq_ok] at h
        obtain ⟨⟨sc, t⟩, hact, h⟩ := h
        simp only [pure, Except.pure, Except.ok.injEq, Prod.mk.injEq] at h
        obtain ⟨rfl, rfl, rfl⟩ := h
        exact activate_registers hact
  · intro st1 task1 h
    obtain ⟨a, caller, cm, fs, _, hcaller, _, hfs, _, ht, hst⟩ := simple_return_spec h
    subst ht
    subst hst
    have hne : a.sender ≠ caller.stack := by
      intro he
      have h5 := hcaller.symm.trans ((congrArg (VM.deref _) he).trans hfs)
      cases h5
    exact ⟨caller, context_eq (deref_store_ne hfs hcaller hne), rfl, rfl⟩

/-- The scenarios S1 and S4: `Task::create` on the fresh heap of `test_create`, the
send from the frame it makes active, and the return from the frame that send
pushes. -/
theorem hot_registers_after_transition_witness :
    (∃ c, (ex_vm ex_cm).context (ex_task ex_cm).active = .ok c ∧
      c.ip = (ex_task ex_cm).ip ∧ c.sp = (ex_task ex_cm).sp) ∧
    (∃ c, (ex_vm1 ex_cm 0 [.Qnil]).context (ex_task1 ex_cm).active = .ok c ∧
      c.ip = (ex_task1 ex_cm).ip ∧ c.sp = (ex_task1 ex_cm).sp) ∧
    (∃ c, ex_vm_s4.context ex_task_s4.active = .ok c ∧ c.ip = ex_task_s4.ip ∧
      ex_task_s4.sp = c.sp + 1) :=
  ⟨(hot_registers_after_transition ex_locate ex_locate
      { heap := [.CompiledMethod ex_cm], object := .Qtrue, sym_public := .Symbol 1,
        sym_private := .Symbol 2 }
      (ex_task ex_cm) (ex_msg []) .Qnil (.Ref 0) (.Fixnum 3)).1
      (ex_vm ex_cm) (ex_task ex_cm) rfl,
   (hot_registers_after_transition ex_locate ex_locate (ex_vm ex_cm) (ex_task ex_cm)
      (ex_msg []) .Qnil (.Ref 0) (.Fixnum 3)).2.1
      (ex_vm1 ex_cm 0 [.Qnil]) (ex_task1 ex_cm) { ex_msg [] with method := .Ref 0 } rfl,
   (hot_registers_after_transition ex_locate ex_locate (ex_vm1 ex_cm 0 [.Qnil])
      (ex_task1 ex_cm) (ex_msg []) .Qnil (.Ref 0) (.Fixnum 3)).2.2.2
      ex_vm_s4 ex_task_s4 rfl⟩

/-- The frame of `generate_context` exists whenever the method reads as a compiled
method. -/
theorem generate_context_total {st : VM} (recv : OBJECT) {meth : OBJECT}
    {cm : CompiledMethod} (hcm : st.deref meth = some (.CompiledMethod cm)) :
    ∃ st1 ctx, Task.generate_context st recv meth = .ok (st1, ctx) := by
  have hlive : ((st.alloc (.MethodContext
      { sender := .Qnil, self := .Qnil, cm := .Qnil, vmm := .Qnil, module := .Qnil,
        stack := .Qnil, ip := 0, sp := 0, args := 0, block := .Qnil })).1.alloc
        (.Tuple (List.replicate cm.stack_size .Qnil))).1.deref (.Ref st.heap.length)
      = some (.MethodContext
      { sender := .Qnil, self := .Qnil, cm := .Qnil, vmm := .Qnil, module := .Qnil,
        stack := .Qnil, ip := 0, sp := 0, args := 0, block := .Qnil }) := by
    rw [deref_alloc, alloc_length, deref_alloc]; simp
  unfold Task.generate_context
  rw [compiled_method_eq hcm]
  simp only [bind, Except.bind, MethodContext.create, Tuple.create, alloc_snd]
  rw [update_context_eq _ hlive]
  exact ⟨_, _, rfl⟩

/-- C25 as stated fails: for a compiled method with three locals and a
one-slot stack, `generate_context` builds a frame whose stack has one slot and whose
initial `sp` is 2, outside `[−1, stack.size)`. -/
theorem generate_context_sp_range_counterexample :
    Task.generate_context
      { heap := [.CompiledMethod ex_cm_locals], object := .Qtrue, sym_public := .Symbol 1,
        sym_private := .Symbol 2 } .Qnil (.Ref 0) = .ok (ex_vm ex_cm_locals, .Ref 1) ∧
    (ex_vm ex_cm_locals).context (.Ref 1) = .ok (ex_ctx ex_cm_locals) ∧
    ((ex_vm ex_cm_locals).tuple_fields (ex_ctx ex_cm_locals).stack).length = 1 ∧
    (ex_ctx ex_cm_locals).sp = 2 ∧
    ¬ ((ex_ctx ex_cm_locals).sp <
        (((ex_vm ex_cm_locals).tuple_fields (ex_ctx ex_cm_locals).stack).length : Int)) :=
  ⟨rfl, rfl, rfl, rfl, by decide⟩

/-- C25, amended: for a compiled method `cm`, `generate_context` returns a frame with
`stack.size == cm.stack_size`, `ip == 0`, a nil sender and `sp == local_count − 1`,
which is at least −1 and is below `stack.size` exactly when `local_count ≤
stack_size`; the frame `Task::create` and each send make active has the same stack
size, `ip` and `sp`. -/
theorem generate_context_frame (st : VM) (recv meth : OBJECT) (cm : CompiledMethod)
    (hcm : st.compiled_method meth = .ok cm) :
    (∃ st1 ctx c, Task.generate_context st recv meth = .ok (st1, ctx) ∧
      st1.context ctx = .ok c ∧
      (st1.tuple_fields c.stack).length = cm.stack_size ∧ c.ip = 0 ∧ c.sender = .Qnil ∧
      c.sp = (cm.local_count : Int) - 1 ∧ -1 ≤ c.sp ∧
      (c.sp < ((st1.tuple_fields c.stack).length : Int) ↔
        cm.local_count ≤ cm.stack_size)) ∧
    (∃ st1 task1 c, Task.create st recv meth = .ok (st1, task1) ∧
      st1.context task1.active = .ok c ∧
      (st1.tuple_fields c.stack).length = cm.stack_size ∧ c.ip = 0 ∧ c.sender = .Qnil ∧
      c.sp = (cm.local_count : Int) - 1) ∧
    (∀ (locate : Resolver) (task : Task) (msg msg1 : Message) (st1 : VM) (task1 : Task)
        (c0 : MethodContext), st.context task.active = .ok c0 → msg1.method = meth →
      (Task.send_message locate st task msg = .ok (st1, task1, msg1) ∨
        Task.send_message_slowly locate st task msg = .ok (st1, task1, msg1)) →
      ∃ c, st1.context task1.active = .ok c ∧
        (st1.tuple_fields c.stack).length = cm.stack_size ∧ c.ip = 0 ∧
        c.sp = (cm.local_count : Int) - 1) := by
  have hcm1 := compiled_method_inv hcm
  obtain ⟨st1, ctx, hgen⟩ := generate_context_total recv hcm1
  obtain ⟨cm2, hcm2, hctx, hlen, hobj, hc, htup, hfr⟩ := generate_context_spec hgen
  rw [hcm1] at hcm2
  simp only [Option.some.injEq, HeapObject.CompiledMethod.injEq] at hcm2
  subst hcm2
  have hsize : (st1.tuple_fields (.Ref (st.heap.length + 1))).length = cm.stack_size := by
    simp [VM.tuple_fields, htup]
  refine ⟨⟨st1, ctx, _, hgen, context_eq hc, hsize, rfl, rfl, rfl, ?_, ?_⟩, ?_, ?_⟩
  · show (-1 : Int) ≤ (cm.local_count : Int) - 1
    omega
  · show ((cm.local_count : Int) - 1 <
      ((st1.tuple_fields (.Ref (st.heap.length + 1))).length : Int)) ↔ _
    rw [hsize]
    omega
  · have hmk := make_active_eq
      { ip := 0, sp := 0, self := .Qnil, literals := .Qnil, stack := .Qnil,
        ip_ptr := (.Qnil, 0), active := .Qnil } hc (hfr _ _ hcm1)
    have hcreate : Task.create st recv meth = .ok (st1,
        { ip := 0, sp := (cm.local_count : Int) - 1, self := recv, literals := cm.literals,
          stack := .Ref (st.heap.length + 1), ip_ptr := (meth, 0), active := ctx }) := by
      unfold Task.create
      rw [hgen]
      simp only [bind, Except.bind]
      rw [hmk]
      rfl
    exact ⟨st1, _, _, hcreate, context_eq hc, hsize, rfl, rfl, rfl⟩
  · intro locate task msg msg1 sa task1 c0 hact hm hsend
    rcases hsend with hsend | hsend
    · obtain ⟨cm3, fs2, _, hcm3, ht, hnew, _, hstack, hlen2, _⟩ :=
        send_message_spec hsend (context_inv hact)
      rw [hm, hcm1] at hcm3
      simp only [Option.some.injEq, HeapObject.CompiledMethod.injEq] at hcm3
      subst hcm3
      subst ht
      refine ⟨_, context_eq hnew, ?_, ?_, ?_⟩
      · simp [VM.tuple_fields, hstack, hlen2]
      · rfl
      · rfl
    · obtain ⟨cm3, _, hcm3, ht, hnew, _, hstack, _⟩ :=
        send_message_slowly_spec hsend (context_inv hact)
      rw [hm, hcm1] at hcm3
      simp only [Option.some.injEq, HeapObject.CompiledMethod.injEq] at hcm3
      subst hcm3
      subst ht
      refine ⟨_, context_eq hnew, ?_, ?_, ?_⟩
      · simp [VM.tuple_fields, hstack]
      · rfl
      · rfl

theorem generate_context_frame_witness :
    (ex_vm ex_cm_opt).compiled_method (.Ref 0) = .ok ex_cm_opt ∧
    (∃ st1 ctx c, Task.generate_context (ex_vm ex_cm_opt) .Qtrue (.Ref 0) = .ok (st1, ctx) ∧
      st1.context ctx = .ok c ∧
      (st1.tuple_fields c.stack).length = ex_cm_opt.stack_size ∧ c.ip = 0 ∧
      c.sender = .Qnil ∧ c.sp = (ex_cm_opt.local_count : Int) - 1 ∧ -1 ≤ c.sp ∧
      (c.sp < ((st1.tuple_fields c.stack).length : Int) ↔
        ex_cm_opt.local_count ≤ ex_cm_opt.stack_size)) :=
  ⟨rfl, (generate_context_frame (ex_vm ex_cm_opt) .Qtrue (.Ref 0) ex_cm_opt rfl).1⟩

/-! ## Bounds of argument binding -/

theorem size_t_add_of_lt {a b : Nat} (h : a + b < SIZE_T_MOD) : size_t_add a b = a + b := by
  unfold size_t_add
  exact Nat.mod_eq_of_lt h

/-- The first loop reads only the arguments `0 .. k`. -/
theorem import_fixed_congr (msg msg2 : Message) (stack : OBJECT) :
    ∀ (k : Nat) (st : VM), (∀ i, i < k → msg2.get_argument i = msg.get_argument i) →
      Task.import_fixed msg2 stack k st = Task.import_fixed msg stack k st := by
  intro k
  induction k with
  | zero => intro st _; rfl
  | succ k ih =>
    intro st h
    rw [import_fixed_succ, import_fixed_succ, ih st (fun i hi => h i (by omega)),
      h k (by omega)]

/-- The second loop reads only the arguments `tot .. tot + k`. -/
theorem import_splat_congr (msg msg2 : Message) (ary : OBJECT) (tot : Nat) :
    ∀ (k : Nat) (st : VM),
      (∀ i, i < k →
        msg2.get_argument (size_t_add tot i) = msg.get_argument (size_t_add tot i)) →
      Task.import_splat msg2 ary tot k st = Task.import_splat msg ary tot k st := by
  intro k
  induction k with
  | zero => intro st _; rfl
  | succ k ih =>
    intro st h
    rw [import_splat_succ, import_splat_succ, ih st (fun i hi => h i (by omega)),
      h k (by omega)]

/-- The steps of `import_arguments`, for a frame whose method is in place. -/
theorem import_arguments_eval {st : VM} {ctx : OBJECT} (msg : Message)
    {c : MethodContext} {cm : CompiledMethod}
    (hc : st.deref ctx = some (.MethodContext c))
    (hcm : st.deref c.cm = some (.CompiledMethod cm)) :
    Task.import_arguments st ctx msg =
      if msg.args = 0 then
        .ok (st.store ctx (.MethodContext { c with args := msg.args }))
      else
        (Task.import_fixed msg c.stack
            (if msg.args < cm.total_args then msg.args else cm.total_args)
            (st.store ctx (.MethodContext { c with args := msg.args })) >>= fun st2 =>
          if cm.splat ≠ .Qnil then
            (Task.import_splat msg (.Ref st2.heap.length) cm.total_args
                (size_t_sub msg.args cm.total_args) (st2.alloc (.Array [])).1 >>= fun st4 =>
              cm.splat.n2i >>= fun s =>
                Tuple.put st4 c.stack (size_t_of_int s) (.Ref st2.heap.length))
          else .ok st2) := by
  have hne_cm : c.cm ≠ ctx := by
    intro he
    have h5 := hcm.symm.trans ((congrArg (VM.deref _) he).trans hc)
    cases h5
  have hc1 : (st.store ctx (.MethodContext { c with args := msg.args })).deref ctx
      = some (.MethodContext { c with args := msg.args }) := deref_store_same hc
  have hcm1 : (st.store ctx (.MethodContext { c with args := msg.args })).deref c.cm
      = some (.CompiledMethod cm) := deref_store_ne hc hcm hne_cm
  unfold Task.import_arguments
  rw [update_context_eq _ hc]
  simp only [bind, Except.bind]
  by_cases h0 : msg.args = 0
  · rw [if_pos h0, if_pos h0]; rfl
  · rw [if_neg h0, if_neg h0, context_eq hc1]
    simp only
    rw [compiled_method_eq hcm1]
    rfl

/-- Under the bounds of the claim the binding is not refused. -/
theorem import_arguments_total {st : VM} {ctx : OBJECT} (msg : Message)
    {c : MethodContext} {cm : CompiledMethod} {fs : List OBJECT}
    (hc : st.deref ctx = some (.MethodContext c))
    (hcm : st.deref c.cm = some (.CompiledMethod cm))
    (hfs : st.deref c.stack = some (.Tuple fs))
    (htot : cm.total_args ≤ fs.length)
    (hsplat : cm.splat ≠ .Qnil →
      ∃ s, cm.splat = .Fixnum s ∧ size_t_of_int s < fs.length) :
    ∃ st2, Task.import_arguments st ctx msg = .ok st2 := by
  have hne_stack : c.stack ≠ ctx := by
    intro he
    have h5 := hfs.symm.trans ((congrArg (VM.deref _) he).trans hc)
    cases h5
  have hfs1 : (st.store ctx (.MethodContext { c with args := msg.args })).deref c.stack
      = some (.Tuple fs) := deref_store_ne hc hfs hne_stack
  rw [import_arguments_eval msg hc hcm]
  by_cases h0 : msg.args = 0
  · rw [if_pos h0]; exact ⟨_, rfl⟩
  · rw [if_neg h0]
    have hk : (if msg.args < cm.total_args then msg.args else cm.total_args) ≤ fs.length := by
      split <;> omega
    obtain ⟨fs1, hlenfs1, _, hrun⟩ := (import_fixed_spec msg c.stack fs _ _ hfs1).1 hk
    rw [hrun]
    simp only [bind, Except.bind]
    by_cases hs : cm.splat = .Qnil
    · rw [if_neg (not_not.mpr hs)]; exact ⟨_, rfl⟩
    · rw [if_pos hs]
      obtain ⟨s, hsp, hidx⟩ := hsplat hs
      have hfs2 : ((st.store ctx (.MethodContext { c with args := msg.args })).store c.stack
          (.Tuple fs1)).deref c.stack = some (.Tuple fs1) := deref_store_same hfs1
      have hary : (((st.store ctx (.MethodContext { c with args := msg.args })).store c.stack
          (.Tuple fs1)).alloc (.Array [])).1.deref
          (.Ref ((st.store ctx (.MethodContext { c with args := msg.args })).store c.stack
            (.Tuple fs1)).heap.length) = some (.Array []) := by
        rw [deref_alloc]; simp
      obtain ⟨a, ha, halt, _⟩ := deref_some_ref hfs2
      have hne_ary : c.stack ≠ .Ref ((st.store ctx
          (.MethodContext { c with args := msg.args })).store c.stack
            (.Tuple fs1)).heap.length := by
        intro he
        have := OBJECT.Ref.inj (ha.symm.trans he)
        omega
      have hfs3 : (((st.store ctx (.MethodContext { c with args := msg.args })).store c.stack
          (.Tuple fs1)).alloc (.Array [])).1.deref c.stack = some (.Tuple fs1) := by
        rw [deref_alloc, if_neg hne_ary, hfs2]
      have hfs4 := deref_store_ne (x := HeapObject.Array ((List.range
        (size_t_sub msg.args cm.total_args)).map
          (fun i => msg.get_argument (size_t_add cm.total_args i)))) hary hfs3 hne_ary
      rw [import_splat_spec msg _ cm.total_args _ _ hary]
      simp only [hsp, OBJECT.n2i]
      rw [put_eq _ _ hfs4, if_pos (by omega)]
      exact ⟨_, rfl⟩

/-- C26: for a new frame whose stack has `stack_size` slots, a compiled method with
`total_args ≤ stack_size` and, when it has a splat, a splat index below `stack_size`,
and a message of `n` arguments with `n ≥ total_args` whenever a splat is present:
`import_arguments` is not refused, so each of its writes to the frame's stack is below
`stack_size`, and the stack keeps its size; its outcome depends on no argument of
index `n` or more; and the splat length `n − total_args` is computed without wrapping
around. -/
theorem import_arguments_bounds (st : VM) (ctx : OBJECT) (msg : Message)
    (c : MethodContext) (cm : CompiledMethod) (fs : List OBJECT)
    (hc : st.deref ctx = some (.MethodContext c))
    (hcm : st.deref c.cm = some (.CompiledMethod cm))
    (hfs : st.deref c.stack = some (.Tuple fs))
    (hsize : fs.length = cm.stack_size)
    (htot : cm.total_args ≤ cm.stack_size)
    (hsplat : cm.splat ≠ .Qnil →
      ∃ s, cm.splat = .Fixnum s ∧ size_t_of_int s < cm.stack_size)
    (hn : cm.splat ≠ .Qnil → cm.total_args ≤ msg.args)
    (hword : msg.args < SIZE_T_MOD) :
    (∃ st2, Task.import_arguments st ctx msg = .ok st2 ∧
      (st2.tuple_fields c.stack).length = cm.stack_size) ∧
    (∀ arguments : Nat → OBJECT, (∀ i, i < msg.args → arguments i = msg.arguments i) →
      Task.import_arguments st ctx { msg with arguments := arguments } =
        Task.import_arguments st ctx msg) ∧
    (cm.splat ≠ .Qnil →
      size_t_sub msg.args cm.total_args = msg.args - cm.total_args) := by
  refine ⟨?_, ?_, fun hs => size_t_sub_of_le (hn hs) hword⟩
  · obtain ⟨st2, h⟩ := import_arguments_total msg hc hcm hfs (by omega)
      (by rw [hsize]; exact hsplat)
    obtain ⟨fs2, _, hfs2, hlen2, _⟩ := import_arguments_spec hc hcm hfs h
    refine ⟨st2, h, ?_⟩
    simp [VM.tuple_fields, hfs2, hlen2, hsize]
  · intro arguments hargs
    have hget : ∀ i, i < msg.args →
        ({ msg with arguments := arguments } : Message).get_argument i
          = msg.get_argument i := fun i hi => hargs i hi
    rw [import_arguments_eval _ hc hcm, import_arguments_eval msg hc hcm]
    simp only []
    rw [import_fixed_congr msg _ c.stack _ _
      (fun i hi => hget i (by split at hi <;> omega))]
    by_cases hs : cm.splat = .Qnil
    · simp only [hs, ne_eq, not_true_eq_false, if_false]
    · have hk := size_t_sub_of_le (hn hs) hword
      have hspl : ∀ ary s, Task.import_splat { msg with arguments := arguments } ary
          cm.total_args (size_t_sub msg.args cm.total_args) s =
          Task.import_splat msg ary cm.total_args
            (size_t_sub msg.args cm.total_args) s := by
        intro ary s
        apply import_splat_congr
        intro i hi
        have hlt : cm.total_args + i < msg.args := by
          have := hn hs
          omega
        rw [size_t_add_of_lt (by omega)]
        exact hget _ hlt
      simp only [hspl]

/-- Scenario S2 before its arguments are bound: the new frame at address 3 runs the
method with two fixed arguments and a splat, and the message passes four arguments. -/
theorem import_arguments_bounds_witness :
    (∃ st2, Task.import_arguments (ex_vm1 ex_cm_fixed_splat 0 [.Qnil, .Qnil, .Qnil]) (.Ref 3)
        (ex_msg [.Fixnum 3, .Fixnum 4, .Fixnum 5, .Fixnum 6]) = .ok st2 ∧
      (st2.tuple_fields (ex_ctx1 ex_cm_fixed_splat 0).stack).length
        = ex_cm_fixed_splat.stack_size) ∧
    (∀ arguments : Nat → OBJECT,
      (∀ i, i < (ex_msg [.Fixnum 3, .Fixnum 4, .Fixnum 5, .Fixnum 6]).args →
        arguments i = (ex_msg [.Fixnum 3, .Fixnum 4, .Fixnum 5, .Fixnum 6]).arguments i) →
      Task.import_arguments (ex_vm1 ex_cm_fixed_splat 0 [.Qnil, .Qnil, .Qnil]) (.Ref 3)
        { ex_msg [.Fixnum 3, .Fixnum 4, .Fixnum 5, .Fixnum 6] with arguments := arguments } =
      Task.import_arguments (ex_vm1 ex_cm_fixed_splat 0 [.Qnil, .Qnil, .Qnil]) (.Ref 3)
        (ex_msg [.Fixnum 3, .Fixnum 4, .Fixnum 5, .Fixnum 6])) ∧
    (ex_cm_fixed_splat.splat ≠ .Qnil →
      size_t_sub (ex_msg [.Fixnum 3, .Fixnum 4, .Fixnum 5, .Fixnum 6]).args
        ex_cm_fixed_splat.total_args =
      (ex_msg [.Fixnum 3, .Fixnum 4, .Fixnum 5, .Fixnum 6]).args
        - ex_cm_fixed_splat.total_args) :=
  import_arguments_bounds (ex_vm1 ex_cm_fixed_splat 0 [.Qnil, .Qnil, .Qnil]) (.Ref 3)
    (ex_msg [.Fixnum 3, .Fixnum 4, .Fixnum 5, .Fixnum 6]) (ex_ctx1 ex_cm_fixed_splat 0)
    ex_cm_fixed_splat [.Qnil, .Qnil, .Qnil] rfl rfl rfl rfl (by decide)
    (fun _ => ⟨2, rfl, by decide⟩) (fun _ => by decide) (by decide)

end Rubinius
